import Mathlib

/-!
# Housie mini-games: result codec, verification and session control

A shallow embedding of `housie-minigames.js`.

Conventions of the embedding

* A JavaScript string is a `List Char` (a sequence of Unicode scalar values, that
  is, a well-formed string).  `jsLength` gives the `.length` such a string has in
  JavaScript (UTF-16 code units).
* JavaScript values are the type `JsVal`.  Numbers are integers (`JsVal.num`);
  a numeric literal with a fraction or an exponent is kept as its text
  (`JsVal.numLit`), its floating point value is not modelled.
* A function that can throw returns `Except JsError _`; `try { } catch { }` is
  `tryCatch`.
* The browser functions the module calls (`btoa`, `atob`, `JSON.stringify`,
  `JSON.parse`, `sessionStorage`) are written out as definitions.  The optional
  compression library `pako` is a parameter (`Option Pako`, `none` when
  `typeof pako === 'undefined'`).  `Date.now()` and the outcomes of
  `Math.random()` are parameters.
-/

set_option maxRecDepth 100000

namespace Housie

/-! ## JavaScript values -/

/-- Exceptions the modelled code can throw. -/
inductive JsError where
  | invalidCharacter
  | syntaxError
  | inflateError
  | typeError
  deriving DecidableEq, Repr

/-- JavaScript values that can occur in the module's payloads. -/
inductive JsVal where
  | undefined
  | null
  | bool (b : Bool)
  | num (n : Int)
  | numLit (text : List Char)
  | str (s : List Char)
  | arr (xs : List JsVal)
  | obj (fields : List (List Char × JsVal))
  deriving Repr

/-- Look a key up in an object's field list. -/
def lookupField (k : List Char) : List (List Char × JsVal) → Option JsVal
  | [] => none
  | (k', v) :: rest => if k' = k then some v else lookupField k rest

/-- Property assignment: overwrite an existing key in place, otherwise append. -/
def setField (k : List Char) (v : JsVal) : List (List Char × JsVal) → List (List Char × JsVal)
  | [] => [(k, v)]
  | (k', v') :: rest => if k' = k then (k, v) :: rest else (k', v') :: setField k v rest

/-- Property read `v.k` for a data property `k`: `TypeError` on `null` and
`undefined`, `undefined` for a missing property. -/
def getProp (v : JsVal) (k : List Char) : Except JsError JsVal :=
  match v with
  | .undefined => .error .typeError
  | .null => .error .typeError
  | .obj fields => .ok ((lookupField k fields).getD .undefined)
  | _ => .ok .undefined

/-! ## Numbers: IEEE 754 binary64 arithmetic on rationals -/

/-- Rounding of a rational to the nearest integer, a tie to the even one. -/
def roundHalfEven (x : ℚ) : Int :=
  if x - ⌊x⌋ < 1 / 2 then ⌊x⌋
  else if 1 / 2 < x - ⌊x⌋ then ⌊x⌋ + 1
  else if ⌊x⌋ % 2 = 0 then ⌊x⌋ else ⌊x⌋ + 1

/-- The binary exponent of a rational `x ≠ 0`: the `e` with `2 ^ e ≤ |x| < 2 ^ (e + 1)`.
It is the difference of the bit lengths of numerator and denominator, or one less. -/
def binaryExponent (x : ℚ) : Int :=
  if (2 : ℚ) ^ ((Nat.log2 x.num.natAbs : Int) - (Nat.log2 x.den : Int)) ≤ |x| then
    (Nat.log2 x.num.natAbs : Int) - (Nat.log2 x.den : Int)
  else (Nat.log2 x.num.natAbs : Int) - (Nat.log2 x.den : Int) - 1

/-- The distance between neighbouring binary64 numbers at `x`: 52 fraction bits below
the binary exponent, which is not taken below -1022 (subnormal numbers). -/
def quantum (x : ℚ) : ℚ := (2 : ℚ) ^ (max (binaryExponent x) (-1022) - 52)

/-- The binary64 number nearest to `x`, a tie to the even significand (the rounding
of every arithmetic operation on Numbers).  The exponent is not bounded above here:
a result of `2 ^ 1024` or more stands for an infinity. -/
def roundDouble (x : ℚ) : ℚ := (roundHalfEven (x / quantum x) : ℚ) * quantum x

/-- Whether a numeric literal text denotes a non-zero value: some mantissa digit
(before any exponent mark) is not `0`. -/
def litNonZero : List Char → Bool
  | [] => false
  | c :: cs =>
    if c = 'e' ∨ c = 'E' then false
    else if 49 ≤ c.toNat ∧ c.toNat ≤ 57 then true
    else litNonZero cs

/-- JavaScript truthiness (`ToBoolean`). -/
def truthy : JsVal → Bool
  | .undefined => false
  | .null => false
  | .bool b => b
  | .num n => n ≠ 0
  | .numLit t => litNonZero t
  | .str s => s ≠ []
  | .arr _ => true
  | .obj _ => true

/-- The values without parts: `null`, booleans, integers and strings. -/
def isScalar : JsVal → Bool
  | .null => true
  | .bool _ => true
  | .num _ => true
  | .str _ => true
  | _ => false

/-- What may follow a value inside an object: a comma or the closing brace. -/
def MemberEnd (rest : List Char) : Prop := ∃ r, rest = ',' :: r ∨ rest = '}' :: r

/-- The value of `try { body } catch (e) { handler(e) }`. -/
def tryCatch {α : Type} (body : Except JsError α) (handler : JsError → Except JsError α) :
    Except JsError α :=
  match body with
  | .ok a => .ok a
  | .error e => handler e

/-- The `.length` of a string in JavaScript: UTF-16 code units. -/
def jsLength : List Char → Nat
  | [] => 0
  | c :: cs => (if c.toNat < 65536 then 1 else 2) + jsLength cs

/-! ## base64: `btoa` and `atob` -/

/-- The base64 alphabet of RFC 4648, table 1. -/
def b64Alphabet : List Char :=
  "ABCDEFGHIJKLMNOPQRSTUVWXYZabcdefghijklmnopqrstuvwxyz0123456789+/".toList

/-- The character for a 6-bit group. -/
def b64Char (n : Nat) : Char := b64Alphabet.getD n 'A'

/-- Position of a character in a list. -/
def indexOfChar (c : Char) : List Char → Option Nat
  | [] => none
  | d :: ds => if d = c then some 0 else (indexOfChar c ds).map (· + 1)

/-- The 6-bit group of a base64 character, `none` outside the alphabet. -/
def b64Val (c : Char) : Option Nat := indexOfChar c b64Alphabet

/-- Base64 of a byte sequence, with `=` padding. -/
def b64Encode : List Nat → List Char
  | [] => []
  | [a] => [b64Char (a / 4), b64Char (a % 4 * 16), '=', '=']
  | [a, b] => [b64Char (a / 4), b64Char (a % 4 * 16 + b / 16), b64Char (b % 16 * 4), '=']
  | a :: b :: c :: rest =>
    b64Char (a / 4) :: b64Char (a % 4 * 16 + b / 16) :: b64Char (b % 16 * 4 + c / 64)
      :: b64Char (c % 64) :: b64Encode rest

/-- The browser's `btoa`: `InvalidCharacterError` when a character is above U+00FF,
otherwise base64 of the characters taken as bytes. -/
def btoa (s : List Char) : Except JsError (List Char) :=
  if s.all (fun c => c.toNat < 256) then .ok (b64Encode (s.map Char.toNat))
  else .error .invalidCharacter

/-- ASCII whitespace as the forgiving-base64 decoder strips it. -/
def isAsciiWs (c : Char) : Bool :=
  c.toNat = 9 ∨ c.toNat = 10 ∨ c.toNat = 12 ∨ c.toNat = 13 ∨ c.toNat = 32

/-- Remove one or two trailing `=` (given the reversed string). -/
def dropPadRev : List Char → List Char
  | '=' :: '=' :: rest => rest
  | '=' :: rest => rest
  | cs => cs

/-- Turn the 6-bit groups into bytes: three bytes per four groups, then one or two
bytes from a final group of two or three. -/
def b64Groups : List Nat → List Nat
  | a :: b :: c :: d :: rest =>
    (a * 4 + b / 16) :: (b % 16 * 16 + c / 4) :: (c % 4 * 64 + d) :: b64Groups rest
  | [a, b, c] => [a * 4 + b / 16, b % 16 * 16 + c / 4]
  | [a, b] => [a * 4 + b / 16]
  | _ => []

/-- All 6-bit groups of a string, `none` when a character is outside the alphabet. -/
def b64Vals : List Char → Option (List Nat)
  | [] => some []
  | c :: cs =>
    match b64Val c, b64Vals cs with
    | some v, some vs => some (v :: vs)
    | _, _ => none

/-- The browser's `atob` (forgiving-base64 decode): the result is a binary string. -/
def atob (s : List Char) : Except JsError (List Char) :=
  let data := s.filter (fun c => !isAsciiWs c)
  let data := if data.length % 4 = 0 then (dropPadRev data.reverse).reverse else data
  if data.length % 4 = 1 then .error .invalidCharacter
  else
    match b64Vals data with
    | none => .error .invalidCharacter
    | some vs => .ok ((b64Groups vs).map Char.ofNat)

/-- The 6-bit groups of a byte sequence. -/
def sextets : List Nat → List Nat
  | [] => []
  | [a] => [a / 4, a % 4 * 16]
  | [a, b] => [a / 4, a % 4 * 16 + b / 16, b % 16 * 4]
  | a :: b :: c :: rest =>
    a / 4 :: (a % 4 * 16 + b / 16) :: (b % 16 * 4 + c / 64) :: c % 64 :: sextets rest

/-- The number of padding characters base64 adds. -/
def padCount : List Nat → Nat
  | [] => 0
  | [_] => 2
  | [_, _] => 1
  | _ :: _ :: _ :: rest => padCount rest

/-! ## JSON -/

/-- Decimal digit character. -/
def digitChar (d : Nat) : Char := Char.ofNat (48 + d)

/-- Decimal digits of a natural number, most significant first (`fuel` bounds the
number of digits). -/
def natDigits : Nat → Nat → List Char
  | 0, _ => []
  | fuel + 1, n => if n < 10 then [digitChar n] else natDigits fuel (n / 10) ++ [digitChar (n % 10)]

/-- Decimal text of an integer, as `Number.prototype.toString` gives it. -/
def intText (n : Int) : List Char :=
  if n < 0 then '-' :: natDigits (n.natAbs + 1) n.natAbs else natDigits (n.natAbs + 1) n.natAbs

/-- Lower-case hexadecimal digit. -/
def hexChar (d : Nat) : Char := "0123456789abcdef".toList.getD d '0'

/-- The text `QuoteJSONString` emits for one character. -/
def quoteChar (c : Char) : List Char :=
  if c = '"' then ['\\', '"']
  else if c = '\\' then ['\\', '\\']
  else if c.toNat = 8 then ['\\', 'b']
  else if c.toNat = 12 then ['\\', 'f']
  else if c.toNat = 10 then ['\\', 'n']
  else if c.toNat = 13 then ['\\', 'r']
  else if c.toNat = 9 then ['\\', 't']
  else if c.toNat < 32 then ['\\', 'u', '0', '0', hexChar (c.toNat / 16), hexChar (c.toNat % 16)]
  else [c]

/-- The characters between the quotes of a JSON string literal. -/
def quoteBody : List Char → List Char
  | [] => []
  | c :: cs => quoteChar c ++ quoteBody cs

/-- The `QuoteJSONString` operation. -/
def quoteJSON (s : List Char) : List Char := '"' :: (quoteBody s ++ ['"'])

/-- Join texts with commas. -/
def joinComma : List (List Char) → List Char
  | [] => []
  | [x] => x
  | x :: y :: rest => x ++ ',' :: joinComma (y :: rest)

mutual
/-- Serialisation of a value by `JSON.stringify`; `none` is the result `undefined`. -/
def stringifyVal : JsVal → Option (List Char)
  | .undefined => none
  | .null => some "null".toList
  | .bool true => some "true".toList
  | .bool false => some "false".toList
  | .num n => some (intText n)
  | .numLit t => some t
  | .str s => some (quoteJSON s)
  | .arr xs => some ('[' :: (joinComma (stringifyElems xs) ++ [']']))
  | .obj fields => some ('{' :: (joinComma (stringifyFields fields) ++ ['}']))
/-- Array elements: `undefined` is written `null`. -/
def stringifyElems : List JsVal → List (List Char)
  | [] => []
  | x :: xs => (stringifyVal x).getD "null".toList :: stringifyElems xs
/-- Object members: a member whose value is `undefined` is left out. -/
def stringifyFields : List (List Char × JsVal) → List (List Char)
  | [] => []
  | (k, v) :: rest =>
    match stringifyVal v with
    | none => stringifyFields rest
    | some t => (quoteJSON k ++ ':' :: t) :: stringifyFields rest
end

/-- JSON whitespace. -/
def isJsonWs (c : Char) : Bool :=
  c.toNat = 9 ∨ c.toNat = 10 ∨ c.toNat = 13 ∨ c.toNat = 32

/-- Skip JSON whitespace. -/
def skipWs : List Char → List Char
  | [] => []
  | c :: cs => if isJsonWs c then skipWs cs else c :: cs

/-- Value of a hexadecimal digit, either case. -/
def hexVal (c : Char) : Option Nat :=
  if 48 ≤ c.toNat ∧ c.toNat ≤ 57 then some (c.toNat - 48)
  else if 97 ≤ c.toNat ∧ c.toNat ≤ 102 then some (c.toNat - 87)
  else if 65 ≤ c.toNat ∧ c.toNat ≤ 70 then some (c.toNat - 55)
  else none

/-- Value of four hexadecimal digits. -/
def hex4 (a b c d : Char) : Option Nat :=
  match hexVal a, hexVal b, hexVal c, hexVal d with
  | some w, some x, some y, some z => some (((w * 16 + x) * 16 + y) * 16 + z)
  | _, _, _, _ => none

/-- The character a one-letter escape stands for. -/
def simpleEscape (e : Char) : Option Char :=
  if e = '"' then some '"'
  else if e = '\\' then some '\\'
  else if e = '/' then some '/'
  else if e = 'b' then some (Char.ofNat 8)
  else if e = 'f' then some (Char.ofNat 12)
  else if e = 'n' then some (Char.ofNat 10)
  else if e = 'r' then some (Char.ofNat 13)
  else if e = 't' then some (Char.ofNat 9)
  else none

/-- Put a character in front of the string of a parse result. -/
def consResult (c : Char) : Option (List Char × List Char) → Option (List Char × List Char)
  | none => none
  | some (s, rest) => some (c :: s, rest)

/-- Four hexadecimal digits at the head of the input: their value and the rest. -/
def readHex4 : List Char → Option (Nat × List Char)
  | h1 :: h2 :: h3 :: h4 :: rest =>
    match hex4 h1 h2 h3 h4 with
    | none => none
    | some u => some (u, rest)
  | _ => none

/-- The low half of a surrogate pair, written as a second escape. -/
def readLowSurrogate : List Char → Option (Nat × List Char)
  | b :: v :: rest =>
    if b = '\\' ∧ v = 'u' then
      match readHex4 rest with
      | none => none
      | some (l, rest1) => if 0xDC00 ≤ l ∧ l < 0xE000 then some (l, rest1) else none
    else none
  | _ => none

/-- The input after the letter u of an escape: the character denoted and the rest.
An escaped surrogate pair gives the character it encodes; an unpaired surrogate escape
has no `Char` and is rejected. -/
def readUnicode (cs : List Char) : Option (Char × List Char) :=
  match readHex4 cs with
  | none => none
  | some (u, rest) =>
    if 0xD800 ≤ u ∧ u < 0xDC00 then
      match readLowSurrogate rest with
      | none => none
      | some (l, rest1) =>
        some (Char.ofNat (0x10000 + (u - 0xD800) * 1024 + (l - 0xDC00)), rest1)
    else if 0xDC00 ≤ u ∧ u < 0xE000 then none
    else some (Char.ofNat u, rest)

/-- The input after a backslash: the character denoted and the rest. -/
def readEscape : List Char → Option (Char × List Char)
  | [] => none
  | e :: cs =>
    if e = 'u' then readUnicode cs
    else
      match simpleEscape e with
      | none => none
      | some ch => some (ch, cs)

/-- Read a JSON string literal after its opening quote: the string and the input
after the closing quote.  Each unit of `fuel` reads one character or escape. -/
def parseStringBody : Nat → List Char → Option (List Char × List Char)
  | 0, _ => none
  | _ + 1, [] => none
  | fuel + 1, c :: cs =>
    if c = '"' then some ([], cs)
    else if c = '\\' then
      match readEscape cs with
      | none => none
      | some (ch, rest) => consResult ch (parseStringBody fuel rest)
    else if c.toNat < 32 then none
    else consResult c (parseStringBody fuel cs)

/-- Read a JSON string literal after its opening quote, with fuel for every
character of the input. -/
def parseString (cs : List Char) : Option (List Char × List Char) :=
  parseStringBody cs.length cs

/-- Whether a character is a decimal digit. -/
def isDigit (c : Char) : Bool := 48 ≤ c.toNat ∧ c.toNat ≤ 57

/-- Split off the longest prefix of digits. -/
def spanDigits : List Char → List Char × List Char
  | [] => ([], [])
  | c :: cs =>
    if isDigit c then ((c :: (spanDigits cs).1), (spanDigits cs).2) else ([], c :: cs)

/-- Value of a digit string. -/
def digitsVal (ds : List Char) : Nat :=
  ds.foldl (fun acc c => acc * 10 + (c.toNat - 48)) 0

/-- The integer part of a JSON number: `0`, or a non-zero digit and more digits. -/
def parseIntPart : List Char → Option (List Char × List Char)
  | [] => none
  | c :: cs =>
    if c = '0' then some (['0'], cs)
    else if isDigit c then some (spanDigits (c :: cs))
    else none

/-- The optional fraction of a JSON number: its text (empty when absent). -/
def parseFrac : List Char → Option (List Char × List Char)
  | [] => some ([], [])
  | c :: cs =>
    if c = '.' then
      match spanDigits cs with
      | ([], _) => none
      | (ds, rest) => some ('.' :: ds, rest)
    else some ([], c :: cs)

/-- The optional exponent of a JSON number: its text (empty when absent). -/
def parseExp : List Char → Option (List Char × List Char)
  | [] => some ([], [])
  | c :: cs =>
    if c = 'e' ∨ c = 'E' then
      match cs with
      | [] => none
      | s :: cs1 =>
        if s = '+' ∨ s = '-' then
          match spanDigits cs1 with
          | ([], _) => none
          | (ds, rest) => some (c :: s :: ds, rest)
        else
          match spanDigits (s :: cs1) with
          | ([], _) => none
          | (ds, rest) => some (c :: ds, rest)
    else some ([], c :: cs)

/-- A JSON number after its optional sign. -/
def parseUnsigned (neg : Bool) (cs : List Char) : Option (JsVal × List Char) :=
  match parseIntPart cs with
  | none => none
  | some (ip, r1) =>
    match parseFrac r1 with
    | none => none
    | some (fp, r2) =>
      match parseExp r2 with
      | none => none
      | some (ep, r3) =>
        if fp = [] ∧ ep = [] then
          some (.num (if neg then -(digitsVal ip : Int) else (digitsVal ip : Int)), r3)
        else some (.numLit ((if neg then ['-'] else []) ++ ip ++ fp ++ ep), r3)

/-- A JSON number. -/
def parseNumber : List Char → Option (JsVal × List Char)
  | [] => none
  | c :: cs => if c = '-' then parseUnsigned true cs else parseUnsigned false (c :: cs)

/-- Strip a given prefix. -/
def stripLiteral : List Char → List Char → Option (List Char)
  | [], cs => some cs
  | _ :: _, [] => none
  | p :: ps, c :: cs => if p = c then stripLiteral ps cs else none

mutual
/-- A JSON value, after optional whitespace; `fuel` bounds the nesting and the number
of members read. -/
def parseValue : Nat → List Char → Option (JsVal × List Char)
  | 0, _ => none
  | fuel + 1, cs =>
    match skipWs cs with
    | [] => none
    | c :: rest =>
      if c = '{' then
        match skipWs rest with
        | [] => none
        | d :: rest1 =>
          if d = '}' then some (.obj [], rest1) else parseMembers fuel (d :: rest1) []
      else if c = '[' then
        match skipWs rest with
        | [] => none
        | d :: rest1 =>
          if d = ']' then some (.arr [], rest1) else parseElements fuel (d :: rest1) []
      else if c = '"' then
        match parseString rest with
        | none => none
        | some (s, rest1) => some (.str s, rest1)
      else if c = 't' then (stripLiteral "rue".toList rest).map (fun r => (.bool true, r))
      else if c = 'f' then (stripLiteral "alse".toList rest).map (fun r => (.bool false, r))
      else if c = 'n' then (stripLiteral "ull".toList rest).map (fun r => (.null, r))
      else parseNumber (c :: rest)
/-- The members of an object after `{`, up to and including `}`. -/
def parseMembers : Nat → List Char → List (List Char × JsVal) → Option (JsVal × List Char)
  | 0, _, _ => none
  | fuel + 1, cs, acc =>
    match skipWs cs with
    | [] => none
    | q :: r0 =>
      if q = '"' then
        match parseString r0 with
        | none => none
        | some (k, r1) =>
          match skipWs r1 with
          | [] => none
          | colon :: r2 =>
            if colon = ':' then
              match parseValue fuel r2 with
              | none => none
              | some (v, r3) =>
                match skipWs r3 with
                | [] => none
                | sep :: r4 =>
                  if sep = ',' then parseMembers fuel r4 (setField k v acc)
                  else if sep = '}' then some (.obj (setField k v acc), r4)
                  else none
            else none
      else none
/-- The elements of an array after `[`, up to and including `]`. -/
def parseElements : Nat → List Char → List JsVal → Option (JsVal × List Char)
  | 0, _, _ => none
  | fuel + 1, cs, acc =>
    match parseValue fuel cs with
    | none => none
    | some (v, r1) =>
      match skipWs r1 with
      | [] => none
      | sep :: r2 =>
        if sep = ',' then parseElements fuel r2 (acc ++ [v])
        else if sep = ']' then some (.arr (acc ++ [v]), r2)
        else none
end

/-- The function `JSON.stringify` on a value. -/
def JSON.stringify (v : JsVal) : Option (List Char) := stringifyVal v

/-- The function `JSON.parse`: `SyntaxError` unless the text is one JSON value with
optional whitespace around it.  The fuel is one more than the length of the text, which
is enough for every text that is a JSON value (a pair of brackets costs two units and
a member or element one); a text that uses it up is no JSON value and is rejected
either way. -/
def JSON.parse (text : List Char) : Except JsError JsVal :=
  match parseValue (text.length + 1) text with
  | none => .error .syntaxError
  | some (v, rest) => if skipWs rest = [] then .ok v else .error .syntaxError

/-! ## Session storage -/

/-- The key/value store `sessionStorage`. -/
abbrev Storage := List (List Char × List Char)

/-- The call `sessionStorage.getItem(key)`; `none` is `null`. -/
def Storage.getItem (key : List Char) : Storage → Option (List Char)
  | [] => none
  | (k, v) :: rest => if k = key then some v else Storage.getItem key rest

/-- The call `sessionStorage.setItem(key, value)`. -/
def Storage.setItem (key value : List Char) : Storage → Storage
  | [] => [(key, value)]
  | (k, v) :: rest =>
    if k = key then (key, value) :: rest else (k, v) :: Storage.setItem key value rest

/-! ## The compression library -/

/-- The two calls the module makes into `pako`: `pako.deflate(str, { level: 9 })`
gives the bytes of a compressed stream, `pako.inflate(bytes, { to: 'string' })`
gives the text back or throws (`none`). -/
structure Pako where
  deflate : List Char → List (Fin 256)
  inflate : List (Fin 256) → Option (List Char)

/-- Whether a byte sequence opens with a zlib header (RFC 1950: compression method 8,
header check a multiple of 31) or with the gzip magic bytes (RFC 1952). -/
def hasStreamHeader : List (Fin 256) → Bool
  | b0 :: b1 :: _ =>
    (b0.val % 16 = 8 ∧ (b0.val * 256 + b1.val) % 31 = 0) ∨ (b0.val = 31 ∧ b1.val = 139)
  | _ => false

/-- What the embedding assumes of `pako.inflate` without the `raw` option: it throws
unless the input opens with a zlib or gzip header. -/
def Pako.ChecksHeader (p : Pako) : Prop :=
  ∀ (bytes : List (Fin 256)) (out : List Char), p.inflate bytes = some out →
    hasStreamHeader bytes = true

/-- What the round trip through the library needs of `pako`: inflating what it
deflated gives the text back. -/
def Pako.RoundTrips (p : Pako) : Prop := ∀ s : List Char, p.inflate (p.deflate s) = some s

/-- Three bytes for a character code. -/
def charBytes (c : Char) : List (Fin 256) :=
  [Fin.ofNat (c.toNat / 65536), Fin.ofNat (c.toNat / 256 % 256), Fin.ofNat (c.toNat % 256)]

/-- Characters from groups of three bytes. -/
def bytesChars : List (Fin 256) → List Char
  | a :: b :: c :: rest => Char.ofNat (a.val * 65536 + b.val * 256 + c.val) :: bytesChars rest
  | _ => []

/-- A stand-in with the interface of `pako`, used to instantiate statements about an
arbitrary library: it writes the zlib header bytes `78 DA` and then three bytes for
each character (this is not the deflate format), and reads that back. -/
def samplePako : Pako :=
  { deflate := fun s => 120 :: 218 :: (s.map charBytes).flatten
    inflate := fun bytes =>
      match bytes with
      | b0 :: b1 :: rest => if b0 = 120 ∧ b1 = 218 then some (bytesChars rest) else none
      | _ => none }

/-! ## The result codec (`encodeGameResult`, `decodeGameResult`) -/

/-- The method `String.prototype.padEnd(targetLength, '=')`. -/
def padEnd (s : List Char) (targetLength : Nat) : List Char :=
  s ++ List.replicate (targetLength - jsLength s) '='

/-- One character with `a` replaced by `b`. -/
def swapChar (a b : Char) (c : Char) : Char := if c = a then b else c

/-- A global single-character replacement (`replace` with a one-character regular
expression and the `g` flag). -/
def replaceChar (a b : Char) (s : List Char) : List Char :=
  s.map (swapChar a b)

/-- The global removal of one character (`replace` by the empty string, `g` flag). -/
def removeChar (a : Char) (s : List Char) : List Char :=
  s.filter (fun c => c ≠ a)

/-- The object literal `data` of `encodeGameResult`. -/
def resultData (now : Int) (game won score time code player : JsVal) : JsVal :=
  .obj [("game".toList, game), ("won".toList, won), ("score".toList, score),
    ("time".toList, time), ("code".toList, code), ("player".toList, player),
    ("timestamp".toList, .num now)]

/-- The text `JSON.stringify(data)` as a string argument (`undefined` would be
converted to the text `undefined`; `data` is an object, so this does not occur). -/
def jsonText (data : JsVal) : List Char := (JSON.stringify data).getD "undefined".toList

/-- The function `encodeGameResult(result)`; `now` is `Date.now()`.  The six property
reads are outside the `try` block.  `pako.deflate` is taken not to throw, and the
engine's limit on the number of arguments of `String.fromCharCode.apply` is not
modelled, so with `pako` the `catch` block is not reached. -/
def encodeGameResult (pako : Option Pako) (now : Int) (result : JsVal) :
    Except JsError (List Char) := do
  let data := resultData now (← getProp result "game".toList) (← getProp result "won".toList)
    (← getProp result "score".toList) (← getProp result "time".toList)
    (← getProp result "code".toList) (← getProp result "player".toList)
  tryCatch
    (do
      let jsonStr := jsonText data
      match pako with
      | some p =>
        let compressed := p.deflate jsonStr
        let b ← btoa (compressed.map (fun x => Char.ofNat x.val))
        pure (removeChar '=' (replaceChar '/' '_' (replaceChar '+' '-' b)))
      | none => btoa jsonStr)
    (fun _ => btoa (jsonText data))

/-- The constant `base64` of `decodeGameResult`: the URL-safe characters replaced
back and the padding restored. -/
def restoreBase64 (encoded : List Char) : List Char :=
  padEnd (replaceChar '_' '/' (replaceChar '-' '+' encoded))
    (jsLength encoded + (4 - jsLength encoded % 4) % 4)

/-- The argument of `pako.inflate` in `decodeGameResult`: the character codes of the
binary string as a `Uint8Array`. -/
def toBytes (bin : List Char) : List (Fin 256) :=
  (bin.map (fun c => c.toNat)).map (fun n => Fin.ofNat n)

/-- The function `decodeGameResult(encoded)`. -/
def decodeGameResult (pako : Option Pako) (encoded : List Char) : Except JsError JsVal :=
  tryCatch
    (do
      let base64 := restoreBase64 encoded
      match pako with
      | some p =>
        match p.inflate (toBytes (← atob base64)) with
        | none => throw .inflateError
        | some jsonStr => JSON.parse jsonStr
      | none => JSON.parse (← atob base64))
    (fun _ => pure .null)

/-- The function `encodeConfig(config)`. -/
def encodeConfig (pako : Option Pako) (now : Int) (config : JsVal) :
    Except JsError (List Char) :=
  encodeGameResult pako now config

/-- The function `decodeConfig(encoded)`. -/
def decodeConfig (pako : Option Pako) (encoded : List Char) : Except JsError JsVal :=
  decodeGameResult pako encoded

/-- The function `getConfigOptions()`. -/
def getConfigOptions : JsVal :=
  .obj [("enabled".toList, .bool false), ("showAfterMinutes".toList, .num 5),
    ("prizeMode".toList, .str "fixed".toList), ("prizeAmount".toList, .num 10),
    ("multiplier".toList, .num 2), ("allowMultipleGames".toList, .bool false)]

/-- The value of `decoded.code` for a truthy `decoded` (`undefined` when there is no
such property). -/
def codeOf (decoded : JsVal) : JsVal :=
  match getProp decoded "code".toList with
  | .ok c => c
  | .error _ => .undefined

/-- The function `verifyGameCode(code)`. -/
def verifyGameCode (pako : Option Pako) (store : Storage) (code : List Char) :
    Except JsError JsVal :=
  match Storage.getItem ("miniGameResult_".toList ++ code) store with
  | some (c :: cs) => JSON.parse (c :: cs)
  | _ =>
    match decodeGameResult pako code with
    | .error e => .error e
    | .ok decoded =>
      if truthy decoded then
        match getProp decoded "code".toList with
        | .error e => .error e
        | .ok c => if truthy c then .ok decoded else .ok .null
      else .ok .null

/-! ## The page: module state, document and storage -/

/-- The keys of `GAMES`, in the order of the object literal. -/
inductive GameKey where
  | quickMath
  | colorCatch
  | memoryFlash
  | luckyWheel
  | reactionTest
  deriving DecidableEq, Repr

/-- The property name of a game in `GAMES`. -/
def GameKey.key : GameKey → List Char
  | .quickMath => "quickMath".toList
  | .colorCatch => "colorCatch".toList
  | .memoryFlash => "memoryFlash".toList
  | .luckyWheel => "luckyWheel".toList
  | .reactionTest => "reactionTest".toList

/-- The field `GAMES[key].name`. -/
def GameKey.displayName : GameKey → List Char
  | .quickMath => "Quick Math Challenge".toList
  | .colorCatch => "Color Catcher".toList
  | .memoryFlash => "Memory Flash".toList
  | .luckyWheel => "Lucky Wheel".toList
  | .reactionTest => "Reaction Master".toList

/-- The field `GAMES[key].duration`, in milliseconds. -/
def GameKey.duration : GameKey → Nat
  | .quickMath => 10000
  | .colorCatch => 15000
  | .memoryFlash => 12000
  | .luckyWheel => 8000
  | .reactionTest => 5000

/-- The array `Object.keys(GAMES)` indexed by a number below its length. -/
def gameKeys (i : Fin 5) : GameKey :=
  match i with
  | 0 => .quickMath
  | 1 => .colorCatch
  | 2 => .memoryFlash
  | 3 => .luckyWheel
  | 4 => .reactionTest

/-- What an element shows (its `innerHTML`), as far as the module writes it. -/
inductive View where
  | none
  | lockMessage
  | game (k : GameKey)
  | result (won : JsVal) (score : JsVal) (code : List Char)

/-- An element of the document: its id, its classes, the two style properties the
module sets on ticket cells, and its content. -/
structure Elem where
  tag : List Char
  id : List Char
  classes : List (List Char)
  pointerEvents : List Char
  opacity : List Char
  view : View

/-- The summary element kept in `window.miniGameResultSummary`. -/
structure Summary where
  gameName : List Char
  won : JsVal
  code : List Char

/-- The module's variables together with the parts of the host page it touches.
The document is the list of its elements in the order they were added.  The variable
`gameTimer` is never assigned and stays `null`, it is left out. -/
structure Page where
  currentGame : Option GameKey
  gameResult : JsVal
  gameStartTime : Option Int
  gameCode : Option (List Char)
  storage : Storage
  dom : List Elem
  playerName : JsVal
  resultSummary : Option Summary
  started : List GameKey

/-- The state of a freshly loaded page with the given document and player name. -/
def Page.initial (dom : List Elem) (playerName : JsVal) : Page :=
  { currentGame := none, gameResult := .null, gameStartTime := none, gameCode := none,
    storage := [], dom := dom, playerName := playerName, resultSummary := none, started := [] }

/-- Whether an element has a class (the selector `.cls`). -/
def Elem.hasClass (cls : List Char) (e : Elem) : Bool := e.classes.contains cls

/-- The call `document.querySelector('.cls')`, as a test for a match. -/
def querySelectorClass (cls : List Char) (dom : List Elem) : Bool :=
  dom.any (Elem.hasClass cls)

/-- Position of the first element with an id (`document.getElementById`). -/
def indexOfId (id : List Char) : List Elem → Option Nat
  | [] => none
  | e :: es => if e.id = id then some 0 else (indexOfId id es).map (· + 1)

/-- Replace the content of the element at a position. -/
def setView (i : Nat) (v : View) : List Elem → List Elem
  | [] => []
  | e :: es =>
    match i with
    | 0 => { e with view := v } :: es
    | j + 1 => e :: setView j v es

/-- The string method `charAt`. -/
def charAt (s : List Char) (i : Nat) : List Char :=
  match s.get? i with
  | some c => [c]
  | none => []

/-- The alphabet of game codes. -/
def codeChars : List Char := "ABCDEFGHJKLMNPQRSTUVWXYZ23456789".toList

/-- The function `generateGameCode()`; `r i` is the value of
`Math.floor(Math.random() * chars.length)` in iteration `i`. -/
def generateGameCode (r : Nat → Nat) : List Char :=
  (List.range 6).foldl (fun code i => code ++ charAt codeChars (r i)) []

/-- The function `showGameResult()`: a `TypeError` when there is no container element
or no current game, otherwise the container shows the result and the summary element
is kept for later.  The host's optional `window.showCelebration` is not modelled. -/
def showGameResult (p : Page) : Page × Option JsError :=
  match indexOfId "miniGameContainer".toList p.dom, p.currentGame with
  | some i, some g =>
    let won := (getProp p.gameResult "won".toList).toOption.getD .undefined
    let score := (getProp p.gameResult "score".toList).toOption.getD .undefined
    let code := p.gameCode.getD []
    ({ p with dom := setView i (.result won score code) p.dom,
              resultSummary := some { gameName := g.displayName, won := won, code := code } },
      none)
  | _, _ => (p, some .typeError)

/-- The record `gameResult` built by `endGame`. -/
def buildResult (p : Page) (now : Int) (won : Bool) (score : Int) (code : List Char) : JsVal :=
  .obj [("game".toList, match p.currentGame with
                        | some g => .str g.key
                        | none => .null),
    ("won".toList, .bool won), ("score".toList, .num score),
    ("time".toList, .num (now - p.gameStartTime.getD 0)),
    ("code".toList, .str code),
    ("player".toList, if truthy p.playerName then p.playerName else .str "Unknown".toList)]

/-- The function `endGame(won, score)`; `r` gives the random draws of
`generateGameCode`, `now` is `Date.now()`.  The second component is the exception
`showGameResult` throws, if any. -/
def endGame (r : Nat → Nat) (now : Int) (won : Bool) (score : Int) (p : Page) :
    Page × Option JsError :=
  let gameCode := generateGameCode r
  let gameResult := buildResult p now won score gameCode
  showGameResult
    { p with gameCode := some gameCode, gameResult := gameResult,
             storage := Storage.setItem ("miniGameResult_".toList ++ gameCode)
               (jsonText gameResult) p.storage }

/-- The overlay element `lockTicket` creates. -/
def lockOverlay : Elem :=
  { tag := "div".toList, id := "miniGameLockOverlay".toList, classes := [],
    pointerEvents := [], opacity := [], view := .lockMessage }

/-- The function `lockTicket()`. -/
def lockTicket (p : Page) : Page :=
  let dom := p.dom.map (fun e =>
    if e.hasClass "ticket-cell".toList then
      { e with pointerEvents := "none".toList, opacity := "0.5".toList }
    else e)
  match indexOfId "ticketContainer".toList dom with
  | some _ => { p with dom := dom ++ [lockOverlay] }
  | none => { p with dom := dom }

/-- The elements `createGameModal` adds: the modal, its container and a style sheet. -/
def modalElems : List Elem :=
  [{ tag := "div".toList, id := "miniGameModal".toList, classes := [],
     pointerEvents := [], opacity := [], view := .none },
   { tag := "div".toList, id := "miniGameContainer".toList, classes := [],
     pointerEvents := [], opacity := [], view := .none },
   { tag := "style".toList, id := [], classes := [],
     pointerEvents := [], opacity := [], view := .none }]

/-- The function `createGameModal()`: the new page and the position of the container
it returns. -/
def createGameModal (p : Page) : Page × Nat :=
  ({ p with dom := p.dom ++ modalElems }, p.dom.length + 1)

/-- The call `startX(container, GAMES[currentGame])` seen from the page: the container
shows the game and one more game engine runs. -/
def startGame (k : GameKey) (container : Nat) (p : Page) : Page :=
  { p with dom := setView container (.game k) p.dom, started := p.started ++ [k] }

/-- The body of `showRandomGame()`; `pick` is the value of
`Math.floor(Math.random() * gameKeys.length)` and `now` is `Date.now()`.  The second
component is the container handed to the game that was started, `none` when the call
returned at the lock check. -/
def showRandomGameStep (pick : Fin 5) (now : Int) (p : Page) : Page × Option Nat :=
  if querySelectorClass "ticket-locked-overlay".toList p.dom then (p, none)
  else
    let p1 := { p with currentGame := some (gameKeys pick) }
    let p2 := lockTicket p1
    let (p3, container) := createGameModal p2
    let p4 := { p3 with gameStartTime := some now }
    (startGame (gameKeys pick) container p4, some container)

/-- The function `showRandomGame()`. -/
def showRandomGame (pick : Fin 5) (now : Int) (p : Page) : Page :=
  (showRandomGameStep pick now p).1

/-- Number of elements with a given id. -/
def countId (id : List Char) (dom : List Elem) : Nat :=
  (dom.filter (fun e => e.id = id)).length

/-! ## Color Catcher with its timers -/

/-- The callbacks Color Catcher hands to `setInterval` and `setTimeout`: the fall
step of one drop, `spawnDrop`, and the end of the game's duration.  (The 300 ms
timeouts that only reset a bucket's animation are left out.) -/
inductive CatchCallback where
  | fall (drop : Nat)
  | spawn
  | deadline

/-- A pending timer: its handle, the time it is due, the time it was set or last
fired, its period when it is an interval, and its callback. -/
structure Timer where
  handle : Nat
  due : Nat
  since : Nat
  period : Option Nat
  cb : CatchCallback

/-- A drop element with the `pos` variable of its fall closure. -/
structure Drop where
  id : Nat
  color : Nat
  pos : Int

/-- A running Color Catcher game: the page, the container it was given, the height
the layout gives `#gameArea`, the clock in milliseconds, the pending timers, and the
variables of `startColorCatch`.  `draws` counts the calls of `Math.random()`,
`uncaught` the exceptions thrown out of callbacks. -/
structure CatchWorld where
  page : Page
  container : Nat
  areaHeight : Nat
  clock : Nat
  timers : List Timer
  nextHandle : Nat
  score : Int
  missed : Nat
  currentDrop : Option Nat
  drops : List Drop
  spawnInterval : Option Nat
  draws : Nat
  uncaught : Nat

/-- Whether the game's elements are still in the document: its container still
shows the game (`showGameResult` replaces the content of the first container). -/
def CatchWorld.attached (w : CatchWorld) : Bool :=
  match w.page.dom.get? w.container with
  | some e =>
    match e.view with
    | .game .colorCatch => true
    | _ => false
  | none => false

/-- The calls `clearInterval(handle)` and `clearTimeout(handle)`. -/
def clearTimer (h : Option Nat) (w : CatchWorld) : CatchWorld :=
  match h with
  | none => w
  | some n => { w with timers := w.timers.filter (fun t => t.handle ≠ n) }

/-- The calls `setInterval(cb, ms)` (with `repeating`) and `setTimeout(cb, ms)`: the
new state and the handle. -/
def setTimer (cb : CatchCallback) (ms : Nat) (repeating : Bool) (w : CatchWorld) :
    CatchWorld × Nat :=
  ({ w with timers := w.timers ++ [{ handle := w.nextHandle, due := w.clock + ms,
                                     since := w.clock,
                                     period := if repeating then some ms else none, cb := cb }],
            nextHandle := w.nextHandle + 1 }, w.nextHandle)

/-- The `pos` variable of a drop's fall closure. -/
def dropPos (d : Nat) : List Drop → Int
  | [] => 0
  | x :: xs => if x.id = d then x.pos else dropPos d xs

/-- The colour index in a drop's `dataset`. -/
def dropColor (d : Nat) : List Drop → Nat
  | [] => 0
  | x :: xs => if x.id = d then x.color else dropColor d xs

/-- Assign the `pos` variable of a drop's fall closure. -/
def setDropPos (d : Nat) (pos : Int) : List Drop → List Drop
  | [] => []
  | x :: xs => if x.id = d then { x with pos := pos } :: xs else x :: setDropPos d pos xs

/-- A call of `endGame(won, score)` from a callback of the game; `rnd k` is the
outcome of the `k`-th call of `Math.random()`, scaled by the caller. -/
def CatchWorld.endGame (rnd : Nat → Nat) (won : Bool) (score : Int) (w : CatchWorld) :
    CatchWorld :=
  let r := Housie.endGame (fun i => rnd (w.draws + i) % 32) (w.clock : Int) won score w.page
  { w with page := r.1, draws := w.draws + 6,
           uncaught := w.uncaught + (if r.2.isSome then 1 else 0) }

/-- The callback of a drop's `fallInterval`, whose handle is `self`. -/
def fallTick (rnd : Nat → Nat) (self : Nat) (d : Nat) (w : CatchWorld) : CatchWorld :=
  let pos := dropPos d w.drops + 2
  let w1 := { w with drops := setDropPos d pos w.drops }
  let offsetHeight : Int := if w1.attached then (w1.areaHeight : Int) else 0
  if pos > offsetHeight then
    let w2 := clearTimer (some self) w1
    if w2.currentDrop = some d then
      let w3 := { w2 with currentDrop := none, missed := w2.missed + 1 }
      if w3.attached then
        if w3.missed ≥ 3 then CatchWorld.endGame rnd false 0 (clearTimer w3.spawnInterval w3)
        else w3
      else { w3 with uncaught := w3.uncaught + 1 }
    else w2
  else w1

/-- The function `spawnDrop()`: two random draws (colour, horizontal position), a
new drop at `pos = -40` and its fall interval of 20 ms. -/
def spawnDrop (rnd : Nat → Nat) (w : CatchWorld) : CatchWorld :=
  match w.currentDrop with
  | some _ => w
  | none =>
    let d := w.drops.length
    let w1 := { w with drops := w.drops ++ [{ id := d, color := rnd w.draws % 4, pos := -40 }],
                       draws := w.draws + 2, currentDrop := some d }
    (setTimer (.fall d) 20 true w1).1

/-- The callback of the timeout set for the game's duration. -/
def deadlineTick (rnd : Nat → Nat) (w : CatchWorld) : CatchWorld :=
  let w1 := clearTimer w.spawnInterval w
  CatchWorld.endGame rnd (decide (w1.score > 50)) w1.score w1

/-- The click handler of the bucket with colour index `bucket`.  A bucket that is no
longer in the document cannot be clicked. -/
def clickBucket (bucket : Nat) (w : CatchWorld) : CatchWorld :=
  if w.attached then
    match w.currentDrop with
    | none => w
    | some d =>
      if bucket = dropColor d w.drops then { w with score := w.score + 10, currentDrop := none }
      else w
  else w

/-- The function `startColorCatch(container, config)` called at time `clock`. -/
def startColorCatch (rnd : Nat → Nat) (areaHeight clock : Nat) (container : Nat) (p : Page) :
    CatchWorld :=
  let w0 : CatchWorld :=
    { page := p, container := container, areaHeight := areaHeight, clock := clock,
      timers := [], nextHandle := 1, score := 0, missed := 0, currentDrop := none,
      drops := [], spawnInterval := none, draws := 0, uncaught := 0 }
  let (w1, h) := setTimer .spawn 2000 true w0
  let w2 := spawnDrop rnd { w1 with spawnInterval := some h }
  (setTimer .deadline GameKey.colorCatch.duration false w2).1

/-- Order in which due timers fire: by due time, then by the time they were set. -/
def Timer.before (a b : Timer) : Bool :=
  a.due < b.due ∨ (a.due = b.due ∧ (a.since < b.since ∨ (a.since = b.since ∧ a.handle < b.handle)))

/-- The timer that fires next. -/
def nextTimer : List Timer → Option Timer
  | [] => none
  | t :: ts =>
    match nextTimer ts with
    | none => some t
    | some u => if u.before t then some u else some t

/-- Let the next timer fire: the clock moves to its due time, an interval is set
again, a timeout is removed, and the callback runs. -/
def fire (rnd : Nat → Nat) (w : CatchWorld) : CatchWorld :=
  match nextTimer w.timers with
  | none => w
  | some t =>
    let clock := max w.clock t.due
    let others := w.timers.filter (fun u => u.handle ≠ t.handle)
    let timers :=
      match t.period with
      | some ms => others ++ [{ t with due := clock + ms, since := clock }]
      | none => others
    let w1 := { w with clock := clock, timers := timers }
    match t.cb with
    | .fall d => fallTick rnd t.handle d w1
    | .spawn => spawnDrop rnd w1
    | .deadline => deadlineTick rnd w1

/-- Let the next `n` timers fire, with no click in between. -/
def runTimers (rnd : Nat → Nat) : Nat → CatchWorld → CatchWorld
  | 0, w => w
  | n + 1, w => runTimers rnd n (fire rnd w)

/-- A page whose document has the ticket container and one ticket cell, and no
element of class `ticket-locked-overlay`. -/
def samplePage : Page :=
  Page.initial
    [{ tag := "div".toList, id := "ticketContainer".toList, classes := [],
       pointerEvents := [], opacity := [], view := .none },
     { tag := "div".toList, id := [], classes := ["ticket-cell".toList],
       pointerEvents := [], opacity := [], view := .none }]
    .undefined

/-- Color Catcher as `showRandomGame` starts it on `samplePage` at time 0, with a
game area 304 pixels high and `Math.random()` outcomes `rnd`. -/
def sampleCatch (rnd : Nat → Nat) : CatchWorld :=
  match showRandomGameStep 1 0 samplePage with
  | (p, some container) => startColorCatch rnd 304 0 container p
  | (p, none) => startColorCatch rnd 304 0 0 p

/-- What happens to a running Color Catcher game: the next timer fires, or the bucket
of a colour is clicked. -/
inductive CatchEvent where
  | timer
  | click (bucket : Nat)

/-- One event of a Color Catcher game. -/
def CatchWorld.step (rnd : Nat → Nat) (e : CatchEvent) (w : CatchWorld) : CatchWorld :=
  match e with
  | .timer => fire rnd w
  | .click bucket => clickBucket bucket w

/-- The state after a list of events. -/
def CatchWorld.run (rnd : Nat → Nat) : List CatchEvent → CatchWorld → CatchWorld
  | [], w => w
  | e :: es, w => CatchWorld.run rnd es (CatchWorld.step rnd e w)

/-! ## Sample inputs -/

/-- A Result as `endGame` builds it. -/
def sampleResult : JsVal :=
  .obj [("game".toList, .str "quickMath".toList), ("won".toList, .bool true),
    ("score".toList, .num 90), ("time".toList, .num 1000),
    ("code".toList, .str "ABC234".toList), ("player".toList, .str "Unknown".toList)]

/-- A Result whose player name has a character above U+00FF (the first letter, U+0141). -/
def sampleResultWide : JsVal :=
  .obj [("game".toList, .str "quickMath".toList), ("won".toList, .bool true),
    ("score".toList, .num 90), ("time".toList, .num 1000),
    ("code".toList, .str "ABC234".toList),
    ("player".toList, .str (Char.ofNat 321 :: "ukasz".toList))]

/-- The document of `samplePage` with one more element, of class
`ticket-locked-overlay`, as the host page adds it to lock the ticket. -/
def lockedPage : Page :=
  { samplePage with
    dom := samplePage.dom ++
      [{ tag := "div".toList, id := [], classes := ["ticket-locked-overlay".toList],
         pointerEvents := [], opacity := [], view := .none }] }

/-- The base64 text of the JSON object whose only member is `code` with the empty
string as its value. -/
def emptyCodeToken : List Char := "eyJjb2RlIjoiIn0=".toList

/-! ## Quick Math -/

/-- The `answer` of the problem `startQuickMath` generates.  `op` is the index drawn
into `operations` (`+`, `-`, `*`), `ra` and `rb` are the values of
`Math.floor(Math.random() * n)` drawn for the operands (`n` is 50 and 50 for `+`, 50
and 30 for `-`, 12 and 12 for `*`). -/
def quickMathAnswer (op : Fin 3) (ra rb : Nat) : Int :=
  match op with
  | 0 => ((ra : Int) + 10) + ((rb : Int) + 10)
  | 1 => ((ra : Int) + 30) - ((rb : Int) + 10)
  | 2 => ((ra : Int) + 2) * ((rb : Int) + 2)

/-- The bound `n` of the draw `Math.floor(Math.random() * n)` for the first operand. -/
def firstOperandBound (op : Fin 3) : Nat :=
  match op with
  | 0 => 50
  | 1 => 50
  | 2 => 12

/-- The bound `n` of the draw `Math.floor(Math.random() * n)` for the second operand. -/
def secondOperandBound (op : Fin 3) : Nat :=
  match op with
  | 0 => 50
  | 1 => 30
  | 2 => 12

/-- The `while` loop of `generateMathOptions`: `draw k` is the value of
`Math.floor(Math.random() * 20)` in the `k`-th pass.  The loop has no bound in the
source; `none` means that `fuel` passes were made without reaching four options. -/
def optionsLoop : Nat → (Nat → Nat) → Nat → Int → List Int → Option (List Int)
  | 0, _, _, _, _ => none
  | fuel + 1, draw, k, correct, options =>
    if options.length < 4 then
      if correct + ((draw k : Int) - 10) > 0 ∧ ¬ (correct + ((draw k : Int) - 10)) ∈ options then
        optionsLoop fuel draw (k + 1) correct (options ++ [correct + ((draw k : Int) - 10)])
      else optionsLoop fuel draw (k + 1) correct options
    else some options

/-- The function `generateMathOptions(correct)`.  The final `sort` with a random
comparison function is the parameter `shuffle`, which rearranges the array. -/
def generateMathOptions (fuel : Nat) (draw : Nat → Nat) (shuffle : List Int → List Int)
    (correct : Int) : Option (List Int) :=
  (optionsLoop fuel draw 0 correct [correct]).map shuffle

/-- The click handler of an option button: the call `endGame(won, score)` it makes.
`selected` is the number on the button, `startTime` and `now` are the values of
`Date.now()` at the start of the game and at the click. -/
def quickMathClick (answer startTime now selected : Int) : Bool × Int :=
  let timeTaken := now - startTime
  let score := max (100 - timeTaken / 100) 10
  (decide (selected = answer), if selected = answer then score else 0)

/-- A running Quick Math game: the countdown in seconds, whether the countdown interval
is still set, and whether the option buttons are still in the document. -/
structure QuickMath where
  answer : Int
  startTime : Int
  timeLeft : Int
  timer : Bool
  buttons : Bool

/-- What happens to a Quick Math game: the countdown interval fires, or an option
button is clicked at time `now`. -/
inductive QuickMathEvent where
  | tick
  | click (selected : Int) (now : Int)

/-- The state after `startQuickMath`: the countdown is `config.duration / 1000`. -/
def QuickMath.start (answer startTime : Int) : QuickMath :=
  { answer := answer, startTime := startTime,
    timeLeft := (GameKey.quickMath.duration : Int) / 1000, timer := true, buttons := true }

/-- One event of a Quick Math game: the new state and the calls of `endGame` made.
After `endGame` the container shows the result, so the buttons are gone. -/
def QuickMath.step (e : QuickMathEvent) (s : QuickMath) : QuickMath × List (Bool × Int) :=
  match e with
  | .tick =>
    if s.timer then
      if s.timeLeft - 1 ≤ 0 then
        ({ s with timeLeft := s.timeLeft - 1, timer := false, buttons := false }, [(false, 0)])
      else ({ s with timeLeft := s.timeLeft - 1 }, [])
    else (s, [])
  | .click selected now =>
    if s.buttons then
      ({ s with timer := false, buttons := false },
        [quickMathClick s.answer s.startTime now selected])
    else (s, [])

/-! ## Memory Flash -/

/-- The array `symbols` of `startMemoryFlash`, as code points. -/
def symbols : List Nat :=
  [0x1F31F, 0x1F388, 0x1F3AF, 0x1F3AA, 0x1F3A8, 0x1F3AD, 0x1F3AA, 0x1F3B8]

/-- The number of grid buttons rendered: one for each element of `symbols.slice(0, 9)`,
with `data-index` from 0. -/
def memoryButtons : Nat := (symbols.take 9).length

/-- The test `sequence.every((val, idx) => val === playerSequence[idx])`. -/
def everyMatch : List Nat → List Nat → Bool
  | [], _ => true
  | _ :: _, [] => false
  | v :: vs, p :: ps => decide (v = p) && everyMatch vs ps

/-- A running Memory Flash game: the variables of `startMemoryFlash`, the `disabled`
property of the grid buttons (all are set together), the counter `i` of every running
`showInterval`, the numbers of pending timeouts that end a playback (500 ms) and that
call `showSequence` (1500 ms), the pending timeouts that call `endGame` (1000 ms,
`true` for the one of a win), whether the grid is still in the document, and the
number of exceptions thrown out of callbacks. -/
structure MemoryFlash where
  sequence : List Nat
  playerSequence : List Nat
  level : Nat
  showingSequence : Bool
  disabled : Bool
  playbacks : List Nat
  pendingReady : Nat
  pendingShow : Nat
  pendingEnd : List Bool
  attached : Bool
  uncaught : Nat

/-- What happens to a Memory Flash game: a click on the grid button `index` (with the
value `next` of `Math.floor(Math.random() * 9)`, drawn if the check succeeds below
level 5), the interval of playback `k` fires, a timeout that ends a playback fires, a
timeout that calls `showSequence` fires, the pending `endGame` timeout `k` fires. -/
inductive MemoryEvent where
  | click (index : Nat) (next : Fin 9)
  | tick (k : Nat)
  | ready
  | show
  | finish (k : Nat)

/-- The function `showSequence()` up to the start of its interval. -/
def showSequence (s : MemoryFlash) : MemoryFlash :=
  { s with showingSequence := true, disabled := true, playbacks := s.playbacks ++ [0] }

/-- The state after `startMemoryFlash`; `r1` and `r2` are the two values of
`Math.floor(Math.random() * 9)`. -/
def MemoryFlash.start (r1 r2 : Fin 9) : MemoryFlash :=
  showSequence
    { sequence := [r1.val, r2.val], playerSequence := [], level := 1, showingSequence := true,
      disabled := true, playbacks := [], pendingReady := 0, pendingShow := 0, pendingEnd := [],
      attached := true, uncaught := 0 }

/-- Whether `buttons[index]` is an element (otherwise reading its `style` throws). -/
def hasButton (index : Nat) : Bool := decide (index < memoryButtons)

/-- Whether `buttons[sequence[j]]` is an element. -/
def buttonAt (sequence : List Nat) (j : Nat) : Bool :=
  match sequence.get? j with
  | some index => hasButton index
  | none => false

/-- The function `checkSequence()`; `next` is the index drawn for `sequence.push`. -/
def checkSequence (next : Fin 9) (s : MemoryFlash) : MemoryFlash :=
  if everyMatch s.sequence s.playerSequence then
    if s.level + 1 > 5 then
      { s with level := s.level + 1, pendingEnd := s.pendingEnd ++ [true] }
    else
      { s with level := s.level + 1, sequence := s.sequence ++ [next.val],
               pendingShow := s.pendingShow + 1 }
  else { s with pendingEnd := s.pendingEnd ++ [false] }

/-- The callback of a `showInterval` whose counter is `i`, at position `k` among the
running playbacks. -/
def playbackTick (k i : Nat) (s : MemoryFlash) : MemoryFlash :=
  if i > 0 ∧ buttonAt s.sequence (i - 1) = false then
    { s with uncaught := s.uncaught + 1 }
  else if i < s.sequence.length then
    if buttonAt s.sequence i then { s with playbacks := s.playbacks.set k (i + 1) }
    else { s with uncaught := s.uncaught + 1 }
  else { s with playbacks := s.playbacks.eraseIdx k, pendingReady := s.pendingReady + 1 }

/-- The call `endGame(won, score)` a pending timeout makes when it fires: the level is
read at that time. -/
def memoryCall (win : Bool) (s : MemoryFlash) : Bool × Int :=
  if win then (true, (s.level : Int) * 20) else (false, ((s.level : Int) - 1) * 20)

/-- One event of a Memory Flash game: the new state and the calls of `endGame` made. -/
def MemoryFlash.step (e : MemoryEvent) (s : MemoryFlash) : MemoryFlash × List (Bool × Int) :=
  match e with
  | .click index next =>
    if s.attached ∧ hasButton index ∧ s.showingSequence = false ∧ s.disabled = false then
      let s1 := { s with playerSequence := s.playerSequence ++ [index] }
      if s1.playerSequence.length = s1.sequence.length then (checkSequence next s1, [])
      else (s1, [])
    else (s, [])
  | .tick k =>
    match s.playbacks.get? k with
    | some i => (playbackTick k i s, [])
    | none => (s, [])
  | .ready =>
    if s.pendingReady > 0 then
      if buttonAt s.sequence (s.sequence.length - 1) then
        ({ s with pendingReady := s.pendingReady - 1, showingSequence := false,
                  disabled := false, playerSequence := [] }, [])
      else ({ s with pendingReady := s.pendingReady - 1, uncaught := s.uncaught + 1 }, [])
    else (s, [])
  | .show =>
    if s.pendingShow > 0 then (showSequence { s with pendingShow := s.pendingShow - 1 }, [])
    else (s, [])
  | .finish k =>
    match s.pendingEnd.get? k with
    | some win =>
      ({ s with pendingEnd := s.pendingEnd.eraseIdx k, attached := false }, [memoryCall win s])
    | none => (s, [])

/-- The state after a list of events. -/
def MemoryFlash.run : List MemoryEvent → MemoryFlash → MemoryFlash
  | [], s => s
  | e :: es, s => MemoryFlash.run es (MemoryFlash.step e s).1

/-- The number of events in a list at which `checkSequence` ran and found the input
equal to the sequence. -/
def MemoryFlash.successes : List MemoryEvent → MemoryFlash → Nat
  | [], _ => 0
  | e :: es, s =>
    (if (MemoryFlash.step e s).1.level = s.level + 1 then 1 else 0) +
      MemoryFlash.successes es (MemoryFlash.step e s).1

/-- The events of one round played without a mistake: the playback of `sequence`
(its interval fires once for each element and once more to stop), the timeout that
hands over to the player, and a click on each element in order. -/
def playRound (sequence : List Nat) (next : Fin 9) : List MemoryEvent :=
  List.replicate (sequence.length + 1) (.tick 0) ++ [.ready] ++
    sequence.map (fun index => .click index next)

/-- Five rounds played without a mistake from `MemoryFlash.start 0 1`, every index
drawn for `sequence.push` being 2. -/
def sampleWin : List MemoryEvent :=
  playRound [0, 1] 2 ++ [.show] ++ playRound [0, 1, 2] 2 ++ [.show] ++
    playRound [0, 1, 2, 2] 2 ++ [.show] ++ playRound [0, 1, 2, 2, 2] 2 ++ [.show] ++
    playRound [0, 1, 2, 2, 2, 2] 2

/-- A game from `MemoryFlash.start 0 1` with a stray click and a failed check before the
win.  Three rounds are played without a mistake.  Within the 1500 ms after the third
check the player clicks button 2 once more; the index just appended is 2, so this
fourth check succeeds too and a second playback is scheduled.  Both playbacks run, the
second a little behind the first.  After the first hands over, the player enters
0, 1, 2, 2, 2, 3: the check fails.  Then the timeout of the second playback clears the
input, and the player enters 0, 1, 2, 2, 2, 2 before the `endGame` timeout of the failed
check (1000 ms) has fired: the fifth check succeeds.  (With the stray click 1400 ms
after the third check and the first hand-over at time `T`: wrong click at `T + 1300`,
second hand-over at `T + 1400`, last click at `T + 2200`, `endGame(false, …)` at
`T + 2300`, `endGame(true, …)` at `T + 3200`.) -/
def sampleRace : List MemoryEvent :=
  playRound [0, 1] 2 ++ [.show] ++ playRound [0, 1, 2] 2 ++ [.show] ++
    playRound [0, 1, 2, 2] 2 ++ [.click 2 2, .show, .show] ++
    (List.replicate 6 [MemoryEvent.tick 0, .tick 1]).flatten ++
    [.tick 0, .ready] ++
    [.click 0 2, .click 1 2, .click 2 2, .click 2 2, .click 2 2, .tick 0, .click 3 2] ++
    [.ready] ++
    [.click 0 2, .click 1 2, .click 2 2, .click 2 2, .click 2 2, .click 2 2]

/-! ## Lucky Wheel -/

/-- The array `segments`: label and value. -/
def segments : List (List Char × Int) :=
  [("WIN".toList, 100), ("LOSE".toList, 0), ("WIN".toList, 100), ("LOSE".toList, 0),
   ("MEGA".toList, 200), ("LOSE".toList, 0), ("WIN".toList, 100), ("LOSE".toList, 0)]

/-- Rounding toward zero. -/
def truncate (x : ℚ) : Int := if 0 ≤ x then ⌊x⌋ else ⌈x⌉

/-- The remainder operator `%` on Numbers: the result has the sign of the dividend.
The remainder of two binary64 numbers is a binary64 number, so nothing is rounded. -/
def jsRem (x y : ℚ) : ℚ := x - y * (truncate (x / y) : ℚ)

/-- The constant `normalizedAngle`, `(360 - (finalAngle % 360)) % 360`: the
subtraction is rounded to binary64. -/
def normalizedAngle (finalAngle : ℚ) : ℚ :=
  jsRem (roundDouble (360 - jsRem finalAngle 360)) 360

/-- The constant `segmentAngle`, `360 / segments.length`. -/
def segmentAngle : ℚ := roundDouble (360 / (segments.length : ℚ))

/-- The constant `winningIndex`, `Math.floor(normalizedAngle / segmentAngle)`: the
division is rounded to binary64. -/
def winningIndex (finalAngle : ℚ) : Int :=
  ⌊roundDouble (normalizedAngle finalAngle / segmentAngle)⌋

/-- The constant `winner`: `none` is `undefined`. -/
def winner (finalAngle : ℚ) : Option (List Char × Int) :=
  if 0 ≤ winningIndex finalAngle then segments.get? (winningIndex finalAngle).toNat else none

/-- The call `endGame(winner.value > 0, winner.value)` that ends a spin with the given
`finalAngle`; `none` when `winner` is `undefined` and reading its label throws. -/
def wheelCall (finalAngle : ℚ) : Option (Bool × Int) :=
  match winner finalAngle with
  | some seg => some (decide (seg.2 > 0), seg.2)
  | none => none

/-- A Lucky Wheel game: whether the spin button is disabled, the `finalAngle` of a
pending 4000 ms timeout, and the pending 1500 ms timeouts that call `endGame`. -/
structure LuckyWheel where
  disabled : Bool
  spinning : Option ℚ
  pendingEnd : List (Bool × Int)

/-- What happens to a Lucky Wheel game: the spin button is clicked (with the value
`finalAngle` of `Math.random() * 360`), the 4000 ms timeout fires, the pending
`endGame` timeout `k` fires. -/
inductive WheelEvent where
  | spin (finalAngle : ℚ)
  | settle
  | finish (k : Nat)

/-- The state after `startLuckyWheel`. -/
def LuckyWheel.start : LuckyWheel := { disabled := false, spinning := none, pendingEnd := [] }

/-- One event of a Lucky Wheel game: the new state and the calls of `endGame` made. -/
def LuckyWheel.step (e : WheelEvent) (s : LuckyWheel) : LuckyWheel × List (Bool × Int) :=
  match e with
  | .spin finalAngle =>
    if s.disabled then (s, []) else ({ s with disabled := true, spinning := some finalAngle }, [])
  | .settle =>
    match s.spinning with
    | some finalAngle =>
      match wheelCall finalAngle with
      | some call => ({ s with spinning := none, pendingEnd := s.pendingEnd ++ [call] }, [])
      | none => ({ s with spinning := none }, [])
    | none => (s, [])
  | .finish k =>
    match s.pendingEnd.get? k with
    | some call => ({ s with pendingEnd := s.pendingEnd.eraseIdx k }, [call])
    | none => (s, [])

/-- The state after a list of events. -/
def LuckyWheel.run : List WheelEvent → LuckyWheel → LuckyWheel
  | [], s => s
  | e :: es, s => LuckyWheel.run es (LuckyWheel.step e s).1

/-! ## Reaction Test -/

/-- The colours the module gives the reaction box. -/
inductive BoxColor where
  | red
  | green
  | indigo
  deriving DecidableEq, Repr

/-- The function `Math.round` on a quotient: the nearest integer, halves upward. -/
def mathRound (x : ℚ) : Int := ⌊x + 1 / 2⌋

/-- A running Reaction Test: the variables of `startReactionTest`, the colour of the
box, whether the timeout whose handle is in `timeout` is still pending, the pending
1500 ms timeouts that call `endGame`, and whether the box is still in the document. -/
structure ReactionTest where
  round : Int
  totalReactionTime : Int
  waitingForGreen : Bool
  background : BoxColor
  greenShowTime : Int
  timeout : Bool
  pendingEnd : List (Bool × Int)
  attached : Bool

/-- What happens to a Reaction Test: the box is clicked at time `now`, the timeout
that switches to green fires at time `now`, the pending `endGame` timeout `k`
fires. -/
inductive ReactionEvent where
  | click (now : Int)
  | go (now : Int)
  | finish (k : Nat)

/-- The state after `startReactionTest`. -/
def ReactionTest.start : ReactionTest :=
  { round := 0, totalReactionTime := 0, waitingForGreen := false, background := .red,
    greenShowTime := 0, timeout := false, pendingEnd := [], attached := true }

/-- The constant `avgTime` of the click handler. -/
def avgTime (totalReactionTime round : Int) : Int :=
  mathRound ((totalReactionTime : ℚ) / (round : ℚ))

/-- The click handler `box.onclick` at time `now`. -/
def reactionClick (now : Int) (s : ReactionTest) : ReactionTest :=
  if s.waitingForGreen = false ∧ s.round < 3 then
    { s with round := s.round + 1, background := .red, waitingForGreen := true, timeout := true }
  else if s.waitingForGreen = true ∧ s.background = .green then
    let total := s.totalReactionTime + (now - s.greenShowTime)
    let avg := avgTime total s.round
    let s1 := { s with totalReactionTime := total, waitingForGreen := false,
                       background := .indigo }
    if s.round ≥ 3 then
      { s1 with pendingEnd := s1.pendingEnd ++ [(decide (avg < 500), max (100 - avg / 5) 0)] }
    else s1
  else if s.waitingForGreen = true then
    { s with timeout := false, waitingForGreen := false, background := .red,
             round := s.round - 1 }
  else s

/-- One event of a Reaction Test: the new state and the calls of `endGame` made. -/
def ReactionTest.step (e : ReactionEvent) (s : ReactionTest) :
    ReactionTest × List (Bool × Int) :=
  match e with
  | .click now => if s.attached then (reactionClick now s, []) else (s, [])
  | .go now =>
    if s.timeout then
      ({ s with timeout := false, background := .green, greenShowTime := now }, [])
    else (s, [])
  | .finish k =>
    match s.pendingEnd.get? k with
    | some call => ({ s with pendingEnd := s.pendingEnd.eraseIdx k, attached := false }, [call])
    | none => (s, [])

/-- The state after a list of events. -/
def ReactionTest.run : List ReactionEvent → ReactionTest → ReactionTest
  | [], s => s
  | e :: es, s => ReactionTest.run es (ReactionTest.step e s).1

/-! ## Initialisation -/

/-- The number of a value (`ToNumber`) where the embedding has it as an integer: the
outer `none` is a value it has no number for (a string, a literal with a fraction, an
array, an object), the inner `none` is `NaN`. -/
def toNumber : JsVal → Option (Option Int)
  | .undefined => some none
  | .null => some (some 0)
  | .bool b => some (some (if b then 1 else 0))
  | .num n => some (some n)
  | _ => none

/-- The part of `window` that `init` writes: `window.miniGameConfig` and the delays, in
milliseconds, of the pending timeouts that call `showRandomGame`. -/
structure Window where
  miniGameConfig : JsVal
  autoShow : List Int

/-- The value of the property `k` of a value that is not `null` or `undefined`
(`undefined` when there is no such property). -/
def readProp (v : JsVal) (k : List Char) : JsVal :=
  match getProp v k with
  | .ok c => c
  | .error _ => .undefined

/-- The function `init(config)`.  The result is `none` when `config.showAfterMinutes`
is a value the embedding has no number for. -/
def init (config : JsVal) (w : Window) : Option Window :=
  if truthy config = false ∨ truthy (readProp config "enabled".toList) = false then some w
  else
    match toNumber (readProp config "showAfterMinutes".toList) with
    | none => none
    | some none => some { w with miniGameConfig := config }
    | some (some m) =>
      if m > 0 then
        some { miniGameConfig := config, autoShow := w.autoShow ++ [m * 60 * 1000] }
      else some { w with miniGameConfig := config }

/-! # Theorems -/

/-! ## binary64 rounding -/

theorem roundHalfEven_cases (x : ℚ) :
    roundHalfEven x = ⌊x⌋ ∨ roundHalfEven x = ⌊x⌋ + 1 := by
  unfold roundHalfEven
  split_ifs <;> simp

theorem roundHalfEven_abs_sub_le (x : ℚ) : |(roundHalfEven x : ℚ) - x| ≤ 1 / 2 := by
  have h1 := Int.floor_le x
  have h2 := Int.lt_floor_add_one x
  unfold roundHalfEven
  rw [abs_le]
  split_ifs with ha hb hc
  · constructor <;> linarith
  · push_cast
    constructor <;> linarith
  · constructor <;> linarith
  · push_cast
    constructor <;> linarith

theorem roundHalfEven_intCast (n : Int) : roundHalfEven (n : ℚ) = n := by
  unfold roundHalfEven
  rw [Int.floor_intCast]
  simp

theorem roundHalfEven_le (x : ℚ) (n : Int) (h : x ≤ n) : roundHalfEven x ≤ n := by
  rcases roundHalfEven_cases x with hc | hc
  · rw [hc]
    have h2 : (⌊x⌋ : ℚ) ≤ (n : ℚ) := (Int.floor_le x).trans h
    exact_mod_cast h2
  · by_cases hx : x = n
    · rw [hx, roundHalfEven_intCast]
    · have hlt : x < n := lt_of_le_of_ne h hx
      have : ⌊x⌋ < n := Int.floor_lt.mpr hlt
      rw [hc]
      omega

theorem roundHalfEven_ge (x : ℚ) (n : Int) (h : (n : ℚ) ≤ x) : n ≤ roundHalfEven x := by
  have hf : n ≤ ⌊x⌋ := Int.le_floor.mpr h
  rcases roundHalfEven_cases x with hc | hc <;> rw [hc] <;> omega

theorem roundHalfEven_eq (x : ℚ) (k : Int) (h : |x - k| < 1 / 2) : roundHalfEven x = k := by
  have hr := roundHalfEven_abs_sub_le x
  rw [abs_lt] at h
  rw [abs_le] at hr
  have h1 : ((roundHalfEven x - k : Int) : ℚ) < 1 := by
    push_cast
    linarith
  have h2 : (-1 : ℚ) < ((roundHalfEven x - k : Int) : ℚ) := by
    push_cast
    linarith
  have h3 : roundHalfEven x - k < 1 := by exact_mod_cast h1
  have h4 : -1 < roundHalfEven x - k := by exact_mod_cast h2
  omega

theorem two_zpow_pos (e : Int) : (0 : ℚ) < (2 : ℚ) ^ e := zpow_pos (by norm_num) e

theorem binaryExponent_spec (x : ℚ) (hx : x ≠ 0) :
    (2 : ℚ) ^ binaryExponent x ≤ |x| ∧ |x| < (2 : ℚ) ^ (binaryExponent x + 1) := by
  have hn : x.num.natAbs ≠ 0 := by
    simpa using hx
  have hd : x.den ≠ 0 := x.den_nz
  have hn1 := Nat.log2_self_le hn
  have hn2 := @Nat.lt_log2_self x.num.natAbs
  have hd1 := Nat.log2_self_le hd
  have hd2 := @Nat.lt_log2_self x.den
  have habs : |x| = (x.num.natAbs : ℚ) / (x.den : ℚ) := by
    conv_lhs => rw [← Rat.num_div_den x]
    rw [abs_div, Nat.abs_cast]
    congr 1
    rw [Nat.cast_natAbs, Int.cast_abs]
  have hdpos : (0 : ℚ) < (x.den : ℚ) := by exact_mod_cast Nat.pos_of_ne_zero hd
  set a := Nat.log2 x.num.natAbs with ha
  set b := Nat.log2 x.den with hb
  have hq1 : ((2 : ℚ) ^ a) ≤ (x.num.natAbs : ℚ) := by exact_mod_cast hn1
  have hq2 : (x.num.natAbs : ℚ) < (2 : ℚ) ^ (a + 1) := by exact_mod_cast hn2
  have hq3 : ((2 : ℚ) ^ b) ≤ (x.den : ℚ) := by exact_mod_cast hd1
  have hq4 : (x.den : ℚ) < (2 : ℚ) ^ (b + 1) := by exact_mod_cast hd2
  have e1 : (2 : ℚ) ^ ((a : Int) - (b : Int) + 1) = (2 : ℚ) ^ (a + 1) / (2 : ℚ) ^ b := by
    rw [show ((a : Int) - (b : Int) + 1) = ((a + 1 : ℕ) : Int) - ((b : ℕ) : Int) by push_cast; ring]
    rw [zpow_sub₀ (by norm_num), zpow_natCast, zpow_natCast]
  have e2 : (2 : ℚ) ^ ((a : Int) - (b : Int) - 1) = (2 : ℚ) ^ a / (2 : ℚ) ^ (b + 1) := by
    rw [show ((a : Int) - (b : Int) - 1) = ((a : ℕ) : Int) - ((b + 1 : ℕ) : Int) by push_cast; ring]
    rw [zpow_sub₀ (by norm_num), zpow_natCast, zpow_natCast]
  have hupper : |x| < (2 : ℚ) ^ ((a : Int) - (b : Int) + 1) := by
    rw [e1, habs, div_lt_div_iff₀ hdpos (by positivity)]
    calc (x.num.natAbs : ℚ) * 2 ^ b ≤ (x.num.natAbs : ℚ) * (x.den : ℚ) := by
          apply mul_le_mul_of_nonneg_left hq3 (by positivity)
      _ < 2 ^ (a + 1) * (x.den : ℚ) := by
          apply mul_lt_mul_of_pos_right hq2 hdpos
  have hlower : (2 : ℚ) ^ ((a : Int) - (b : Int) - 1) ≤ |x| := by
    rw [e2, habs, div_le_div_iff₀ (by positivity) hdpos]
    calc (2 : ℚ) ^ a * (x.den : ℚ) ≤ (x.num.natAbs : ℚ) * (x.den : ℚ) := by
          apply mul_le_mul_of_nonneg_right hq1 (by positivity)
      _ ≤ (x.num.natAbs : ℚ) * 2 ^ (b + 1) := by
          apply mul_le_mul_of_nonneg_left hq4.le (by positivity)
  unfold binaryExponent
  split_ifs with h
  · exact ⟨h, hupper⟩
  · refine ⟨hlower, ?_⟩
    rw [sub_add_cancel]
    exact lt_of_not_le h

theorem binaryExponent_eq (x : ℚ) (e : Int) (h1 : (2 : ℚ) ^ e ≤ |x|)
    (h2 : |x| < (2 : ℚ) ^ (e + 1)) : binaryExponent x = e := by
  have hx : x ≠ 0 := by
    intro h0
    rw [h0, abs_zero] at h1
    exact absurd h1 (not_le.mpr (two_zpow_pos e))
  obtain ⟨s1, s2⟩ := binaryExponent_spec x hx
  have a1 : (2 : ℚ) ^ e < (2 : ℚ) ^ (binaryExponent x + 1) := lt_of_le_of_lt h1 s2
  have a2 : (2 : ℚ) ^ binaryExponent x < (2 : ℚ) ^ (e + 1) := lt_of_le_of_lt s1 h2
  rw [zpow_lt_zpow_iff_right₀ (by norm_num)] at a1 a2
  omega

theorem binaryExponent_zero : binaryExponent 0 = -1 := by
  unfold binaryExponent
  norm_num [Nat.log2]

theorem binaryExponent_le (x : ℚ) (e : Int) (he : -1 ≤ e) (h : |x| < (2 : ℚ) ^ (e + 1)) :
    binaryExponent x ≤ e := by
  by_cases hx : x = 0
  · rw [hx, binaryExponent_zero]
    exact he
  · obtain ⟨s1, -⟩ := binaryExponent_spec x hx
    have a2 : (2 : ℚ) ^ binaryExponent x < (2 : ℚ) ^ (e + 1) := lt_of_le_of_lt s1 h
    rw [zpow_lt_zpow_iff_right₀ (by norm_num)] at a2
    omega

theorem quantum_pos (x : ℚ) : 0 < quantum x := two_zpow_pos _

/-- Below `2 ^ (e + 1)` the spacing `2 ^ (e - 52)` is a whole multiple of the spacing at
`x`. -/
theorem quantum_dvd (x : ℚ) (e : Int) (he : -1 ≤ e) (h : |x| < (2 : ℚ) ^ (e + 1)) :
    ∃ n : ℕ, (2 : ℚ) ^ (e - 52) = (n : ℚ) * quantum x := by
  have hle := binaryExponent_le x e he h
  have hk : max (binaryExponent x) (-1022) ≤ e := max_le hle (by omega)
  refine ⟨2 ^ (e - max (binaryExponent x) (-1022)).toNat, ?_⟩
  unfold quantum
  push_cast
  rw [← zpow_natCast, Int.toNat_of_nonneg (by omega), ← zpow_add₀ (by norm_num)]
  congr 1
  ring

theorem roundDouble_of_multiple (x : ℚ) (n : Int) (h : x = (n : ℚ) * quantum x) :
    roundDouble x = x := by
  have hq := quantum_pos x
  unfold roundDouble
  have : x / quantum x = (n : ℚ) := by
    rw [div_eq_iff hq.ne']
    exact h
  rw [this, roundHalfEven_intCast]
  exact h.symm

/-- A multiple of `2 ^ (e - 52)` below `2 ^ (e + 1)` in absolute value is a binary64
number. -/
theorem roundDouble_exact (x : ℚ) (e : Int) (m : Int) (he : -1 ≤ e)
    (h : |x| < (2 : ℚ) ^ (e + 1)) (hm : x = (m : ℚ) * (2 : ℚ) ^ (e - 52)) :
    roundDouble x = x := by
  obtain ⟨n, hn⟩ := quantum_dvd x e he h
  apply roundDouble_of_multiple x (m * n)
  calc x = (m : ℚ) * (2 : ℚ) ^ (e - 52) := hm
    _ = (m : ℚ) * ((n : ℚ) * quantum x) := by rw [hn]
    _ = ((m * n : Int) : ℚ) * quantum x := by push_cast; ring

theorem roundDouble_le (x b : ℚ) (e : Int) (m : Int) (he : -1 ≤ e)
    (h : |x| < (2 : ℚ) ^ (e + 1)) (hm : b = (m : ℚ) * (2 : ℚ) ^ (e - 52)) (hxb : x ≤ b) :
    roundDouble x ≤ b := by
  obtain ⟨n, hn⟩ := quantum_dvd x e he h
  have hq := quantum_pos x
  have hb : b = ((m * n : Int) : ℚ) * quantum x := by
    rw [hm, hn]
    push_cast
    ring
  unfold roundDouble
  rw [hb]
  apply mul_le_mul_of_nonneg_right _ hq.le
  have : roundHalfEven (x / quantum x) ≤ m * n := by
    apply roundHalfEven_le
    rw [div_le_iff₀ hq, ← hb]
    exact hxb
  exact_mod_cast this

theorem roundDouble_ge (x b : ℚ) (e : Int) (m : Int) (he : -1 ≤ e)
    (h : |x| < (2 : ℚ) ^ (e + 1)) (hm : b = (m : ℚ) * (2 : ℚ) ^ (e - 52)) (hbx : b ≤ x) :
    b ≤ roundDouble x := by
  obtain ⟨n, hn⟩ := quantum_dvd x e he h
  have hq := quantum_pos x
  have hb : b = ((m * n : Int) : ℚ) * quantum x := by
    rw [hm, hn]
    push_cast
    ring
  unfold roundDouble
  rw [hb]
  apply mul_le_mul_of_nonneg_right _ hq.le
  have : m * n ≤ roundHalfEven (x / quantum x) := by
    apply roundHalfEven_ge
    rw [le_div_iff₀ hq, ← hb]
    exact hbx
  exact_mod_cast this

theorem roundDouble_nonneg (x : ℚ) (h : 0 ≤ x) : 0 ≤ roundDouble x := by
  unfold roundDouble
  apply mul_nonneg _ (quantum_pos x).le
  have : (0 : Int) ≤ roundHalfEven (x / quantum x) := by
    apply roundHalfEven_ge
    simpa using div_nonneg h (quantum_pos x).le
  exact_mod_cast this

theorem roundDouble_abs_sub_le (x : ℚ) : |roundDouble x - x| ≤ quantum x / 2 := by
  have hq := quantum_pos x
  have h := roundHalfEven_abs_sub_le (x / quantum x)
  unfold roundDouble
  have e : (roundHalfEven (x / quantum x) : ℚ) * quantum x - x
      = ((roundHalfEven (x / quantum x) : ℚ) - x / quantum x) * quantum x := by
    field_simp
  rw [e, abs_mul, abs_of_pos hq]
  calc |(roundHalfEven (x / quantum x) : ℚ) - x / quantum x| * quantum x
      ≤ 1 / 2 * quantum x := mul_le_mul_of_nonneg_right h hq.le
    _ = quantum x / 2 := by ring

theorem quantum_of_exponent (x : ℚ) (e : Int) (he : -1022 ≤ e) (h1 : (2 : ℚ) ^ e ≤ |x|)
    (h2 : |x| < (2 : ℚ) ^ (e + 1)) : quantum x = (2 : ℚ) ^ (e - 52) := by
  unfold quantum
  rw [binaryExponent_eq x e h1 h2, max_eq_left he]

/-- The rounding of a number whose binary exponent is known. -/
theorem roundDouble_of_exponent (x : ℚ) (e : Int) (he : -1022 ≤ e) (h1 : (2 : ℚ) ^ e ≤ |x|)
    (h2 : |x| < (2 : ℚ) ^ (e + 1)) :
    roundDouble x = (roundHalfEven (x / (2 : ℚ) ^ (e - 52)) : ℚ) * (2 : ℚ) ^ (e - 52) := by
  unfold roundDouble
  rw [quantum_of_exponent x e he h1 h2]

theorem roundDouble_zero : roundDouble 0 = 0 := by
  have h := roundHalfEven_intCast 0
  unfold roundDouble
  rw [zero_div]
  simp only [Int.cast_zero] at h
  rw [h]
  simp

/-- The rounding error below `2 ^ (e + 1)` is at most half of `2 ^ (e - 52)`. -/
theorem roundDouble_error (x : ℚ) (e : Int) (he : -1 ≤ e) (h : |x| < (2 : ℚ) ^ (e + 1)) :
    |roundDouble x - x| ≤ (2 : ℚ) ^ (e - 52) / 2 := by
  have herr := roundDouble_abs_sub_le x
  obtain ⟨n, hn⟩ := quantum_dvd x e he h
  have hq := quantum_pos x
  have hn1 : (1 : ℚ) ≤ n := by
    rcases Nat.eq_zero_or_pos n with h0 | h0
    · rw [h0] at hn
      have hp := two_zpow_pos (e - 52)
      rw [hn] at hp
      simp at hp
    · exact_mod_cast h0
  have hql : quantum x ≤ (2 : ℚ) ^ (e - 52) := by
    rw [hn]
    calc quantum x = 1 * quantum x := by ring
      _ ≤ n * quantum x := mul_le_mul_of_nonneg_right hn1 hq.le
  linarith

/-! ## JSON: reading back what `JSON.stringify` wrote -/

theorem char_eq_ofNat_of_toNat {c : Char} {n : Nat} (h : c.toNat = n) : c = Char.ofNat n := by
  rw [← h, Char.ofNat_toNat]

theorem hex4_hexChar (n : Nat) (h : n < 32) :
    hex4 '0' '0' (hexChar (n / 16)) (hexChar (n % 16)) = some n := by
  interval_cases n <;> decide

theorem parseStringBody_quoteChar (fuel : Nat) (c : Char) (rest : List Char) :
    parseStringBody (fuel + 1) (quoteChar c ++ rest) = consResult c (parseStringBody fuel rest) := by
  unfold quoteChar
  split_ifs with h1 h2 h3 h4 h5 h6 h7 h8
  · subst h1; simp [parseStringBody, readEscape, simpleEscape]
  · subst h2; simp [parseStringBody, readEscape, simpleEscape]
  · have := char_eq_ofNat_of_toNat h3; subst this; simp [parseStringBody, readEscape, simpleEscape]
  · have := char_eq_ofNat_of_toNat h4; subst this; simp [parseStringBody, readEscape, simpleEscape]
  · have := char_eq_ofNat_of_toNat h5; subst this; simp [parseStringBody, readEscape, simpleEscape]
  · have := char_eq_ofNat_of_toNat h6; subst this; simp [parseStringBody, readEscape, simpleEscape]
  · have := char_eq_ofNat_of_toNat h7; subst this; simp [parseStringBody, readEscape, simpleEscape]
  · have hx := hex4_hexChar c.toNat h8
    have hlt : ¬ (55296 ≤ c.toNat ∧ c.toNat < 56320) := by omega
    have hlt2 : ¬ (56320 ≤ c.toNat ∧ c.toNat < 57344) := by omega
    simp [parseStringBody, readEscape, readUnicode, readHex4, hx, hlt, hlt2, Char.ofNat_toNat]
  · simp [parseStringBody, h1, h2, h8]

theorem parseStringBody_quoteBody (s rest : List Char) (fuel : Nat) (h : s.length < fuel) :
    parseStringBody fuel (quoteBody s ++ '"' :: rest) = some (s, rest) := by
  induction s generalizing fuel with
  | nil =>
    obtain ⟨f, rfl⟩ : ∃ f, fuel = f + 1 := ⟨fuel - 1, by simp at h; omega⟩
    simp [quoteBody, parseStringBody]
  | cons c cs ih =>
    obtain ⟨f, rfl⟩ : ∃ f, fuel = f + 1 := ⟨fuel - 1, by simp at h; omega⟩
    have hf : cs.length < f := by simp at h; omega
    simp only [quoteBody, List.append_assoc]
    rw [parseStringBody_quoteChar, ih f hf]
    rfl

theorem quoteChar_length_pos (c : Char) : 1 ≤ (quoteChar c).length := by
  unfold quoteChar
  split_ifs <;> simp

theorem quoteBody_length (s : List Char) : s.length ≤ (quoteBody s).length := by
  induction s with
  | nil => simp [quoteBody]
  | cons c cs ih =>
    have := quoteChar_length_pos c
    simp only [quoteBody, List.length_append, List.length_cons]
    omega

theorem parseString_quoteBody (s rest : List Char) :
    parseString (quoteBody s ++ '"' :: rest) = some (s, rest) := by
  unfold parseString
  apply parseStringBody_quoteBody
  have := quoteBody_length s
  simp only [List.length_append, List.length_cons]
  omega

/-! numbers -/

theorem isDigit_digitChar (d : Nat) (h : d < 10) : isDigit (digitChar d) = true := by
  interval_cases d <;> decide

theorem digitChar_val (d : Nat) (h : d < 10) : (digitChar d).toNat - 48 = d := by
  interval_cases d <;> decide

theorem digitChar_ne_zero (d : Nat) (h : d < 10) (h0 : d ≠ 0) : digitChar d ≠ '0' := by
  interval_cases d <;> first | contradiction | decide

theorem digitsVal_append (xs : List Char) (c : Char) :
    digitsVal (xs ++ [c]) = digitsVal xs * 10 + (c.toNat - 48) := by
  simp [digitsVal, List.foldl_append]

theorem natDigits_all (fuel n : Nat) : ∀ c ∈ natDigits fuel n, isDigit c = true := by
  induction fuel generalizing n with
  | zero => simp [natDigits]
  | succ f ih =>
    intro c hc
    unfold natDigits at hc
    split_ifs at hc with h
    · simp at hc; subst hc; exact isDigit_digitChar n h
    · simp at hc
      rcases hc with hc | hc
      · exact ih _ c hc
      · subst hc; exact isDigit_digitChar _ (Nat.mod_lt _ (by norm_num))

theorem digitsVal_natDigits (fuel n : Nat) (h : n < fuel) : digitsVal (natDigits fuel n) = n := by
  induction fuel generalizing n with
  | zero => omega
  | succ f ih =>
    unfold natDigits
    split_ifs with h10
    · simp [digitsVal, digitChar_val n h10]
    · rw [digitsVal_append, ih (n / 10) (by omega), digitChar_val _ (Nat.mod_lt _ (by norm_num))]
      omega

/-- For a positive number the first digit is not zero. -/
theorem natDigits_head (fuel n : Nat) (h : n < fuel) (hpos : 0 < n) :
    ∃ c cs, natDigits fuel n = c :: cs ∧ c ≠ '0' := by
  induction fuel generalizing n with
  | zero => omega
  | succ f ih =>
    unfold natDigits
    split_ifs with h10
    · exact ⟨digitChar n, [], rfl, digitChar_ne_zero n h10 (by omega)⟩
    · obtain ⟨c, cs, hcs, hc⟩ := ih (n / 10) (by omega) (by omega)
      exact ⟨c, cs ++ [digitChar (n % 10)], by simp [hcs], hc⟩

theorem natDigits_zero (fuel : Nat) : natDigits (fuel + 1) 0 = ['0'] := by
  simp [natDigits, digitChar]

theorem spanDigits_append (ds rest : List Char) (hds : ∀ c ∈ ds, isDigit c = true)
    (hrest : ∀ c r, rest = c :: r → isDigit c = false) :
    spanDigits (ds ++ rest) = (ds, rest) := by
  induction ds with
  | nil =>
    cases rest with
    | nil => simp [spanDigits]
    | cons c r => simp [spanDigits, hrest c r rfl]
  | cons d ds ih =>
    have hd : isDigit d = true := hds d (by simp)
    have := ih (fun c hc => hds c (by simp [hc]))
    simp [spanDigits, hd, this]

theorem parseIntPart_natDigits (m : Nat) (rest : List Char)
    (hrest : ∀ c r, rest = c :: r → isDigit c = false) :
    parseIntPart (natDigits (m + 1) m ++ rest) = some (natDigits (m + 1) m, rest) := by
  rcases Nat.eq_zero_or_pos m with h0 | hpos
  · subst h0
    simp [natDigits_zero, parseIntPart]
  · obtain ⟨c, cs, hcs, hc⟩ := natDigits_head (m + 1) m (by omega) hpos
    have hall := natDigits_all (m + 1) m
    have hspan := spanDigits_append (natDigits (m + 1) m) rest hall hrest
    rw [hcs] at hspan hall ⊢
    have hd : isDigit c = true := hall c (by simp)
    simp only [List.cons_append, parseIntPart, hc, if_false, hd, if_true]
    rw [← List.cons_append, hspan]

theorem parseFrac_end (rest : List Char) (h : ∀ c r, rest = c :: r → c ≠ '.') :
    parseFrac rest = some ([], rest) := by
  cases rest with
  | nil => rfl
  | cons c r => simp [parseFrac, h c r rfl]

theorem parseExp_end (rest : List Char) (h : ∀ c r, rest = c :: r → c ≠ 'e' ∧ c ≠ 'E') :
    parseExp rest = some ([], rest) := by
  cases rest with
  | nil => rfl
  | cons c r => simp [parseExp, (h c r rfl).1, (h c r rfl).2]

theorem parseUnsigned_natDigits (neg : Bool) (m : Nat) (rest : List Char) (h : MemberEnd rest) :
    parseUnsigned neg (natDigits (m + 1) m ++ rest) =
      some (.num (if neg then -(m : Int) else (m : Int)), rest) := by
  have h1 : ∀ c r, rest = c :: r → isDigit c = false := by
    intro c r hc
    obtain ⟨r', h | h⟩ := h <;> (rw [h] at hc; injection hc with hc _; subst hc; decide)
  have h2 : ∀ c r, rest = c :: r → c ≠ '.' := by
    intro c r hc
    obtain ⟨r', h | h⟩ := h <;> (rw [h] at hc; injection hc with hc _; subst hc; decide)
  have h3 : ∀ c r, rest = c :: r → c ≠ 'e' ∧ c ≠ 'E' := by
    intro c r hc
    obtain ⟨r', h | h⟩ := h <;> (rw [h] at hc; injection hc with hc _; subst hc; decide)
  unfold parseUnsigned
  rw [parseIntPart_natDigits m rest h1]
  simp only [parseFrac_end rest h2, parseExp_end rest h3, and_self, if_true,
    digitsVal_natDigits (m + 1) m (by omega)]

theorem natDigits_head_ne_minus (m : Nat) :
    ∃ c cs, natDigits (m + 1) m = c :: cs ∧ c ≠ '-' := by
  rcases Nat.eq_zero_or_pos m with h0 | hpos
  · subst h0; exact ⟨'0', [], natDigits_zero 0, by decide⟩
  · obtain ⟨c, cs, hcs, _⟩ := natDigits_head (m + 1) m (by omega) hpos
    refine ⟨c, cs, hcs, ?_⟩
    have := natDigits_all (m + 1) m c (by simp [hcs])
    intro hc; subst hc; revert this; decide

theorem parseNumber_intText (n : Int) (rest : List Char) (h : MemberEnd rest) :
    parseNumber (intText n ++ rest) = some (.num n, rest) := by
  unfold intText
  split_ifs with hneg
  · simp only [List.cons_append, parseNumber, if_true]
    rw [parseUnsigned_natDigits true n.natAbs rest h]
    have e : (-(n.natAbs : Int)) = n := by omega
    simp only [if_true, e]
  · obtain ⟨c, cs, hcs, hc⟩ := natDigits_head_ne_minus n.natAbs
    have := parseUnsigned_natDigits false n.natAbs rest h
    rw [hcs] at this ⊢
    simp only [List.cons_append, parseNumber, hc, if_false]
    rw [← List.cons_append, this]
    have e : ((n.natAbs : Nat) : Int) = n := by omega
    simp only [Bool.false_eq_true, if_false, e]

theorem skipWs_memberEnd (rest : List Char) (h : MemberEnd rest) : skipWs rest = rest := by
  obtain ⟨r, h | h⟩ := h <;> subst h <;> simp [skipWs, isJsonWs]

theorem intText_head (n : Int) :
    ∃ c cs, intText n = c :: cs ∧ isJsonWs c = false ∧ c ≠ '{' ∧ c ≠ '[' ∧ c ≠ '"' ∧
      c ≠ 't' ∧ c ≠ 'f' ∧ c ≠ 'n' := by
  unfold intText
  split_ifs with hneg
  · exact ⟨'-', _, rfl, by decide⟩
  · rcases Nat.eq_zero_or_pos n.natAbs with h0 | hpos
    · rw [h0]; exact ⟨'0', [], natDigits_zero 0, by decide⟩
    · obtain ⟨c, cs, hcs, _⟩ := natDigits_head (n.natAbs + 1) n.natAbs (by omega) hpos
      refine ⟨c, cs, hcs, ?_⟩
      have hd := natDigits_all (n.natAbs + 1) n.natAbs c (by simp [hcs])
      simp only [isDigit, decide_eq_true_eq] at hd
      have e : ∀ d : Char, c = d → c.toNat = d.toNat := fun d h => by rw [h]
      refine ⟨?_, ?_, ?_, ?_, ?_, ?_, ?_⟩
      · simp [isJsonWs]; omega
      all_goals (intro hc; have := e _ hc; revert this; simp; omega)

/-- A value without parts is read back, whatever member separator follows it. -/
theorem parseValue_scalar (v : JsVal) (t : List Char) (hv : isScalar v = true)
    (ht : stringifyVal v = some t) (fuel : Nat) (rest : List Char) (h : MemberEnd rest) :
    parseValue (fuel + 1) (t ++ rest) = some (v, rest) := by
  cases v with
  | undefined => simp [isScalar] at hv
  | numLit _ => simp [isScalar] at hv
  | arr _ => simp [isScalar] at hv
  | obj _ => simp [isScalar] at hv
  | null =>
    simp [stringifyVal] at ht
    subst ht
    simp [parseValue, skipWs, isJsonWs, stripLiteral]
  | bool b =>
    cases b
    · simp [stringifyVal] at ht
      subst ht
      simp [parseValue, skipWs, isJsonWs, stripLiteral]
    · simp [stringifyVal] at ht
      subst ht
      simp [parseValue, skipWs, isJsonWs, stripLiteral]
  | num n =>
    simp [stringifyVal] at ht
    subst ht
    obtain ⟨c, cs, hcs, hws, h1, h2, h3, h4, h5, h6⟩ := intText_head n
    have hp := parseNumber_intText n rest h
    rw [hcs] at hp ⊢
    simp only [List.cons_append] at hp ⊢
    simp [parseValue, skipWs, hws, h1, h2, h3, h4, h5, h6, hp]
  | str s =>
    simp [stringifyVal] at ht
    subst ht
    have := parseString_quoteBody s rest
    simp [parseValue, skipWs, isJsonWs, quoteJSON, this]

theorem stringifyVal_scalar (v : JsVal) (hv : isScalar v = true) :
    ∃ t, stringifyVal v = some t := by
  cases v with
  | undefined => simp [isScalar] at hv
  | numLit _ => simp [isScalar] at hv
  | arr _ => simp [isScalar] at hv
  | obj _ => simp [isScalar] at hv
  | null => exact ⟨_, rfl⟩
  | bool b => cases b <;> exact ⟨_, rfl⟩
  | num n => exact ⟨_, rfl⟩
  | str s => exact ⟨_, rfl⟩

theorem setField_append (k : List Char) (v : JsVal) (acc : List (List Char × JsVal))
    (h : k ∉ acc.map Prod.fst) : setField k v acc = acc ++ [(k, v)] := by
  induction acc with
  | nil => rfl
  | cons kv tl ih =>
    obtain ⟨k', v'⟩ := kv
    simp only [List.map_cons, List.mem_cons, not_or] at h
    have hk : ¬ k' = k := fun e => h.1 e.symm
    simp [setField, hk, ih h.2]

theorem parseMembers_member (k : List Char) (v : JsVal) (t : List Char)
    (hv : isScalar v = true) (ht : stringifyVal v = some t) (fuel : Nat)
    (rest : List Char) (h : MemberEnd rest) (acc : List (List Char × JsVal)) :
    parseMembers (fuel + 2) (quoteJSON k ++ ':' :: (t ++ rest)) acc =
      match skipWs rest with
      | [] => none
      | sep :: r4 =>
        if sep = ',' then parseMembers (fuel + 1) r4 (setField k v acc)
        else if sep = '}' then some (.obj (setField k v acc), r4)
        else none := by
  have hs := parseString_quoteBody k (':' :: (t ++ rest))
  have hp := parseValue_scalar v t hv ht fuel rest h
  simp only [quoteJSON, List.cons_append, List.append_assoc, List.singleton_append] 
  rw [parseMembers]
  simp [skipWs, isJsonWs, hs, hp]

theorem parseMembers_flat (fs : List (List Char × JsVal)) (hne : fs ≠ [])
    (hs : ∀ kv ∈ fs, isScalar kv.2 = true) (acc : List (List Char × JsVal))
    (hnd : ((acc ++ fs).map Prod.fst).Nodup) (fuel : Nat) (hf : fs.length < fuel)
    (rest : List Char) :
    parseMembers fuel (joinComma (stringifyFields fs) ++ '}' :: rest) acc =
      some (.obj (acc ++ fs), rest) := by
  induction fs generalizing acc fuel with
  | nil => exact absurd rfl hne
  | cons kv tl ih =>
    obtain ⟨k, v⟩ := kv
    have hv : isScalar v = true := hs (k, v) (by simp)
    obtain ⟨t, ht⟩ := stringifyVal_scalar v hv
    have hk : k ∉ acc.map Prod.fst := by
      intro hmem
      simp only [List.map_append, List.map_cons] at hnd
      have := (List.nodup_append.mp hnd).2.2
      exact this hmem (List.mem_cons_self _ _)
    have hset := setField_append k v acc hk
    obtain ⟨f, rfl⟩ : ∃ f, fuel = f + 2 := ⟨fuel - 2, by simp at hf; omega⟩
    cases tl with
    | nil =>
      simp only [stringifyFields, ht, joinComma]
      rw [List.append_assoc, List.cons_append, parseMembers_member k v t hv ht f _ ⟨rest, Or.inr rfl⟩]
      simp [skipWs, isJsonWs, hset]
    | cons kv2 tl2 =>
      obtain ⟨k2, v2⟩ := kv2
      have hv2 : isScalar v2 = true := hs (k2, v2) (by simp)
      obtain ⟨t2, ht2⟩ := stringifyVal_scalar v2 hv2
      have ih' := ih (by simp) (fun kv h => hs kv (by simp [h])) (acc ++ [(k, v)])
        (by simpa using hnd) (f + 1) (by simp at hf ⊢; omega)
      simp only [stringifyFields, ht, ht2, joinComma] at ih' ⊢
      rw [List.append_assoc, List.cons_append, List.append_assoc, List.cons_append,
        parseMembers_member k v t hv ht f _ ⟨_, Or.inl rfl⟩]
      simp only [skipWs, isJsonWs]
      simp [hset]
      simpa using ih'

theorem joinComma_length (xs : List (List Char)) (h : ∀ x ∈ xs, x ≠ []) :
    xs.length ≤ (joinComma xs).length := by
  induction xs with
  | nil => simp [joinComma]
  | cons x tl ih =>
    have hx : 1 ≤ x.length := by
      have := h x (by simp)
      cases x with
      | nil => exact absurd rfl this
      | cons _ _ => simp
    cases tl with
    | nil => simpa [joinComma] using hx
    | cons y ys =>
      have := ih (fun z hz => h z (by simp [hz]))
      simp only [joinComma, List.length_append, List.length_cons] at this ⊢
      omega

theorem stringifyFields_scalar (fs : List (List Char × JsVal))
    (hs : ∀ kv ∈ fs, isScalar kv.2 = true) :
    (stringifyFields fs).length = fs.length ∧
      ∀ x ∈ stringifyFields fs, ∃ x', x = '"' :: x' := by
  induction fs with
  | nil => simp [stringifyFields]
  | cons kv tl ih =>
    obtain ⟨k, v⟩ := kv
    obtain ⟨t, ht⟩ := stringifyVal_scalar v (hs (k, v) (by simp))
    obtain ⟨h1, h2⟩ := ih (fun kv h => hs kv (by simp [h]))
    simp only [stringifyFields, ht, List.length_cons, h1, List.mem_cons, true_and]
    rintro x (rfl | hx)
    · exact ⟨_, rfl⟩
    · exact h2 x hx

theorem joinComma_head (xs : List (List Char)) (hne : xs ≠ [])
    (h : ∀ x ∈ xs, ∃ x', x = '"' :: x') : ∃ j, joinComma xs = '"' :: j := by
  cases xs with
  | nil => exact absurd rfl hne
  | cons x tl =>
    obtain ⟨x', rfl⟩ := h x (by simp)
    cases tl with
    | nil => exact ⟨x', rfl⟩
    | cons y ys => exact ⟨_, rfl⟩

/-- `JSON.parse` reads back the text `JSON.stringify` writes for an object whose
members have distinct keys and values without parts. -/
theorem parse_stringify_flat (fs : List (List Char × JsVal))
    (hs : ∀ kv ∈ fs, isScalar kv.2 = true) (hnd : (fs.map Prod.fst).Nodup) :
    JSON.parse (jsonText (.obj fs)) = .ok (.obj fs) := by
  cases hfs : fs with
  | nil => rfl
  | cons kv tl =>
    rw [← hfs]
    have hne : fs ≠ [] := by simp [hfs]
    obtain ⟨hlen, hq⟩ := stringifyFields_scalar fs hs
    have hne' : stringifyFields fs ≠ [] := by
      intro h; rw [h] at hlen; simp [hfs] at hlen
    obtain ⟨j, hj⟩ := joinComma_head _ hne' hq
    have hjl := joinComma_length (stringifyFields fs)
      (fun x hx => by obtain ⟨x', rfl⟩ := hq x hx; simp)
    have hm := parseMembers_flat fs hne hs [] (by simpa using hnd)
      ((jsonText (.obj fs)).length) (by
        simp only [jsonText, JSON.stringify, stringifyVal, Option.getD_some, List.length_cons,
          List.length_append, List.length_nil]
        omega) []
    simp only [jsonText, JSON.stringify, stringifyVal, Option.getD_some, List.nil_append] at hm ⊢
    unfold JSON.parse
    simp only [List.length_cons]
    rw [parseValue]
    rw [hj] at hm ⊢
    simp only [List.cons_append] at hm ⊢
    have hl : ('{' :: '"' :: (j ++ ['}'])).length = j.length + 1 + 1 + 1 := by simp
    rw [hl] at hm
    simp [skipWs, isJsonWs, hm]

/-! ## base64 -/

theorem b64Val_b64Char (n : Nat) (h : n < 64) : b64Val (b64Char n) = some n := by
  interval_cases n <;> rfl

theorem b64Char_plain (n : Nat) (h : n < 64) :
    isAsciiWs (b64Char n) = false ∧ b64Char n ≠ '=' ∧ b64Char n ≠ '-' ∧ b64Char n ≠ '_' ∧
      (b64Char n).toNat < 65536 := by
  interval_cases n <;> decide

theorem b64Encode_eq : ∀ bytes : List Nat,
    b64Encode bytes = (sextets bytes).map b64Char ++ List.replicate (padCount bytes) '='
  | [] => rfl
  | [_] => rfl
  | [_, _] => rfl
  | a :: b :: c :: rest => by
    simp only [b64Encode, sextets, padCount, List.map_cons, List.cons_append]
    rw [b64Encode_eq rest]

theorem sextets_lt : ∀ bytes : List Nat, (∀ x ∈ bytes, x < 256) → ∀ s ∈ sextets bytes, s < 64
  | [], _ => by simp [sextets]
  | [a], h => by
    have := h a (by simp)
    simp only [sextets, List.mem_cons, List.mem_singleton, List.not_mem_nil, or_false]
    rintro s (rfl | rfl) <;> omega
  | [a, b], h => by
    have := h a (by simp)
    have := h b (by simp)
    simp only [sextets, List.mem_cons, List.mem_singleton, List.not_mem_nil, or_false]
    rintro s (rfl | rfl | rfl) <;> omega
  | a :: b :: c :: rest, h => by
    have := h a (by simp)
    have := h b (by simp)
    have := h c (by simp)
    have ih := sextets_lt rest (fun x hx => h x (by simp [hx]))
    simp only [sextets, List.mem_cons]
    rintro s (rfl | rfl | rfl | rfl | hs)
    · omega
    · omega
    · omega
    · omega
    · exact ih s hs

theorem b64Groups_sextets : ∀ bytes : List Nat, (∀ x ∈ bytes, x < 256) →
    b64Groups (sextets bytes) = bytes
  | [], _ => rfl
  | [a], h => by
    have := h a (by simp)
    simp only [sextets, b64Groups, List.cons.injEq, and_true]
    omega
  | [a, b], h => by
    have := h a (by simp)
    have := h b (by simp)
    simp only [sextets, b64Groups, List.cons.injEq, and_true]
    constructor <;> omega
  | a :: b :: c :: rest, h => by
    have := h a (by simp)
    have := h b (by simp)
    have := h c (by simp)
    have ih := b64Groups_sextets rest (fun x hx => h x (by simp [hx]))
    simp only [sextets, b64Groups, ih, List.cons.injEq, and_true]
    refine ⟨?_, ?_, ?_⟩ <;> omega

theorem sextets_length : ∀ bytes : List Nat,
    (sextets bytes).length % 4 = (4 - padCount bytes) % 4 ∧ padCount bytes ≤ 2
  | [] => by simp [sextets, padCount]
  | [_] => by simp [sextets, padCount]
  | [_, _] => by simp [sextets, padCount]
  | _ :: _ :: _ :: rest => by
    have := sextets_length rest
    simp only [sextets, padCount, List.length_cons]
    omega

theorem b64Vals_map (ss : List Nat) (h : ∀ s ∈ ss, s < 64) :
    b64Vals (ss.map b64Char) = some ss := by
  induction ss with
  | nil => rfl
  | cons s tl ih =>
    have h1 := b64Val_b64Char s (h s (by simp))
    have h2 := ih (fun x hx => h x (by simp [hx]))
    simp [b64Vals, h1, h2]

theorem dropPadRev_plain (l : List Char) (h : ∀ c ∈ l, c ≠ '=') :
    dropPadRev l = l ∧ dropPadRev ('=' :: l) = l ∧ dropPadRev ('=' :: '=' :: l) = l := by
  cases l with
  | nil => exact ⟨rfl, rfl, rfl⟩
  | cons c cs =>
    have hc : c ≠ '=' := h c (by simp)
    refine ⟨?_, ?_, rfl⟩
    · unfold dropPadRev
      split
      · rename_i heq; injection heq with h1 _; exact absurd h1 hc
      · rename_i heq; injection heq with h1 _; exact absurd h1 hc
      · rfl
    · unfold dropPadRev
      split
      · rename_i heq; injection heq with _ h2; injection h2 with h2 _; exact absurd h2 hc
      · rename_i heq; injection heq with _ h2; exact h2.symm
      · rename_i _ hne; exact (hne (c :: cs) rfl).elim

theorem filter_ws_plain (l : List Char) (h : ∀ c ∈ l, isAsciiWs c = false) :
    l.filter (fun c => !isAsciiWs c) = l := by
  rw [List.filter_eq_self]
  intro c hc
  simp [h c hc]

/-- The decoder `atob` reads back what `b64Encode` wrote. -/
theorem atob_b64Encode (bytes : List Nat) (h : ∀ x ∈ bytes, x < 256) :
    atob (b64Encode bytes) = .ok (bytes.map Char.ofNat) := by
  have hlt := sextets_lt bytes h
  obtain ⟨hlen, hk⟩ := sextets_length bytes
  have hxs : ∀ c ∈ (sextets bytes).map b64Char, isAsciiWs c = false ∧ c ≠ '=' := by
    intro c hc
    obtain ⟨s, hs, rfl⟩ := List.mem_map.mp hc
    exact ⟨(b64Char_plain s (hlt s hs)).1, (b64Char_plain s (hlt s hs)).2.1⟩
  have hfilter : (b64Encode bytes).filter (fun c => !isAsciiWs c) = b64Encode bytes := by
    apply filter_ws_plain
    intro c hc
    rw [b64Encode_eq, List.mem_append] at hc
    rcases hc with hc | hc
    · exact (hxs c hc).1
    · rw [List.eq_of_mem_replicate hc]; decide
  have hl4 : (b64Encode bytes).length % 4 = 0 := by
    rw [b64Encode_eq, List.length_append, List.length_replicate, List.length_map]
    omega
  have hdrop : (dropPadRev (b64Encode bytes).reverse).reverse = (sextets bytes).map b64Char := by
    have hp := dropPadRev_plain ((sextets bytes).map b64Char).reverse
      (fun c hc => (hxs c (List.mem_reverse.mp hc)).2)
    rw [b64Encode_eq, List.reverse_append, List.reverse_replicate]
    have : padCount bytes = 0 ∨ padCount bytes = 1 ∨ padCount bytes = 2 := by omega
    rcases this with e | e | e <;> rw [e]
    · simp only [List.replicate_zero, List.nil_append, hp.1, List.reverse_reverse]
    · simp only [List.replicate_one, List.singleton_append, hp.2.1, List.reverse_reverse]
    · have : List.replicate 2 '=' = ['=', '='] := rfl
      simp only [this, List.cons_append, List.nil_append, hp.2.2, List.reverse_reverse]
  have hne1 : ((sextets bytes).map b64Char).length % 4 ≠ 1 := by
    rw [List.length_map]
    omega
  unfold atob
  simp only [hfilter, hl4, if_true, hdrop, hne1, if_false, b64Vals_map _ hlt,
    b64Groups_sextets bytes h]

theorem jsLength_bmp (l : List Char) (h : ∀ c ∈ l, c.toNat < 65536) : jsLength l = l.length := by
  induction l with
  | nil => rfl
  | cons c cs ih =>
    have := h c (by simp)
    simp only [jsLength, this, if_true, List.length_cons, ih (fun d hd => h d (by simp [hd]))]
    omega

theorem b64Char_urlsafe (n : Nat) (h : n < 64) :
    swapChar '_' '/' (swapChar '-' '+' (swapChar '/' '_' (swapChar '+' '-' (b64Char n))))
      = b64Char n ∧
    swapChar '/' '_' (swapChar '+' '-' (b64Char n)) ≠ '=' ∧
    (swapChar '/' '_' (swapChar '+' '-' (b64Char n))).toNat < 65536 := by
  interval_cases n <;> decide

theorem replaceChar_id (a b : Char) (l : List Char) (h : ∀ c ∈ l, c ≠ a) :
    replaceChar a b l = l := by
  unfold replaceChar
  conv_rhs => rw [← List.map_id l]
  apply List.map_congr_left
  intro c hc
  simp [swapChar, h c hc]

/-- Restoring the padding of a plain base64 text changes nothing. -/
theorem restoreBase64_plain (bytes : List Nat) (h : ∀ x ∈ bytes, x < 256) :
    restoreBase64 (b64Encode bytes) = b64Encode bytes := by
  have hlt := sextets_lt bytes h
  obtain ⟨hlen, hk⟩ := sextets_length bytes
  have hc : ∀ c ∈ b64Encode bytes, c ≠ '-' ∧ c ≠ '_' ∧ c.toNat < 65536 := by
    intro c hc
    rw [b64Encode_eq, List.mem_append] at hc
    rcases hc with hc | hc
    · obtain ⟨s, hs, rfl⟩ := List.mem_map.mp hc
      have := b64Char_plain s (hlt s hs)
      exact ⟨this.2.2.1, this.2.2.2.1, this.2.2.2.2⟩
    · rw [List.eq_of_mem_replicate hc]; decide
  have h1 : replaceChar '-' '+' (b64Encode bytes) = b64Encode bytes :=
    replaceChar_id _ _ _ (fun c hcm => (hc c hcm).1)
  have h2 : replaceChar '_' '/' (b64Encode bytes) = b64Encode bytes :=
    replaceChar_id _ _ _ (fun c hcm => (hc c hcm).2.1)
  have hjs : jsLength (b64Encode bytes) = (b64Encode bytes).length :=
    jsLength_bmp _ (fun c hcm => (hc c hcm).2.2)
  have hl4 : (b64Encode bytes).length % 4 = 0 := by
    rw [b64Encode_eq, List.length_append, List.length_replicate, List.length_map]
    omega
  unfold restoreBase64 padEnd
  rw [h1, h2, hjs, hl4]
  simp

/-- The URL-safe token made from a base64 text. -/
theorem urlsafe_b64Encode (bytes : List Nat) (h : ∀ x ∈ bytes, x < 256) :
    removeChar '=' (replaceChar '/' '_' (replaceChar '+' '-' (b64Encode bytes))) =
      (sextets bytes).map (fun n => swapChar '/' '_' (swapChar '+' '-' (b64Char n))) := by
  have hlt := sextets_lt bytes h
  rw [b64Encode_eq]
  unfold removeChar replaceChar
  rw [List.map_append, List.map_append, List.filter_append, List.map_map, List.map_map,
    List.map_replicate, List.map_replicate]
  have e1 : List.filter (fun c => decide (c ≠ '='))
      (List.replicate (padCount bytes) (swapChar '/' '_' (swapChar '+' '-' '='))) = [] := by
    rw [List.filter_eq_nil_iff]
    intro c hcm
    rw [List.eq_of_mem_replicate hcm]
    decide
  rw [e1, List.append_nil, List.filter_eq_self.mpr]
  · rfl
  · intro c hcm
    obtain ⟨s, hs, rfl⟩ := List.mem_map.mp hcm
    have := (b64Char_urlsafe s (hlt s hs)).2.1
    simpa using this

/-- Restoring the padding of a URL-safe token gives the base64 text it was made from. -/
theorem restoreBase64_urlsafe (bytes : List Nat) (h : ∀ x ∈ bytes, x < 256) :
    restoreBase64 (removeChar '=' (replaceChar '/' '_' (replaceChar '+' '-' (b64Encode bytes))))
      = b64Encode bytes := by
  have hlt := sextets_lt bytes h
  obtain ⟨hlen, hk⟩ := sextets_length bytes
  have hjs : jsLength ((sextets bytes).map
      (fun n => swapChar '/' '_' (swapChar '+' '-' (b64Char n)))) = (sextets bytes).length := by
    rw [jsLength_bmp, List.length_map]
    intro c hcm
    obtain ⟨s, hs, rfl⟩ := List.mem_map.mp hcm
    exact (b64Char_urlsafe s (hlt s hs)).2.2
  have hback : replaceChar '_' '/' (replaceChar '-' '+' ((sextets bytes).map
      (fun n => swapChar '/' '_' (swapChar '+' '-' (b64Char n))))) = (sextets bytes).map b64Char := by
    unfold replaceChar
    rw [List.map_map, List.map_map]
    apply List.map_congr_left
    intro s hs
    simp only [Function.comp_apply]
    exact (b64Char_urlsafe s (hlt s hs)).1
  have hpad : (sextets bytes).length + (4 - (sextets bytes).length % 4) % 4 -
      (sextets bytes).length = padCount bytes := by omega
  rw [urlsafe_b64Encode bytes h]
  unfold restoreBase64 padEnd
  rw [hback, hjs]
  have hjs2 : jsLength ((sextets bytes).map b64Char) = (sextets bytes).length := by
    rw [jsLength_bmp, List.length_map]
    intro c hcm
    obtain ⟨s, hs, rfl⟩ := List.mem_map.mp hcm
    exact (b64Char_plain s (hlt s hs)).2.2.2.2
  rw [hjs2, hpad, b64Encode_eq]

/-! ## The codec: tokens and what they decode to -/

theorem map_ofNat_toNat (l : List Char) : (l.map Char.toNat).map Char.ofNat = l := by
  rw [List.map_map]
  conv_rhs => rw [← List.map_id l]
  apply List.map_congr_left
  intro c _
  simp [Char.ofNat_toNat]

theorem toNat_ofNat_byte (n : Nat) (h : n < 256) : (Char.ofNat n).toNat = n := by
  interval_cases n <;> rfl

theorem toBytes_bytes (bytes : List (Fin 256)) :
    toBytes ((bytes.map (fun x => x.val)).map Char.ofNat) = bytes := by
  unfold toBytes
  rw [List.map_map, List.map_map, List.map_map]
  conv_rhs => rw [← List.map_id bytes]
  apply List.map_congr_left
  intro x _
  simp only [Function.comp_apply, id_eq, toNat_ofNat_byte x.val x.isLt]
  exact Fin.ext (Nat.mod_eq_of_lt x.isLt)

theorem btoa_ok (s : List Char) (token : List Char) (h : btoa s = .ok token) :
    (∀ c ∈ s, c.toNat < 256) ∧ token = b64Encode (s.map Char.toNat) := by
  unfold btoa at h
  split_ifs at h with hall
  injection h with h
  refine ⟨?_, h.symm⟩
  intro c hc
  have := List.all_eq_true.mp hall c hc
  simpa using this

theorem btoa_latin1 (s : List Char) (h : ∀ c ∈ s, c.toNat < 256) :
    btoa s = .ok (b64Encode (s.map Char.toNat)) := by
  unfold btoa
  have : s.all (fun c => decide (c.toNat < 256)) = true := by
    rw [List.all_eq_true]
    intro c hc
    simpa using h c hc
  rw [if_pos this]

/-- Without `pako`, a plain base64 token of a text decodes to what `JSON.parse` makes of
the text, and to `null` when `JSON.parse` throws. -/
theorem decodeGameResult_plain (txt : List Char) (h : ∀ c ∈ txt, c.toNat < 256) :
    decodeGameResult none (b64Encode (txt.map Char.toNat)) =
      tryCatch (JSON.parse txt) (fun _ => pure .null) := by
  have hb : ∀ x ∈ txt.map Char.toNat, x < 256 := by
    intro x hx
    obtain ⟨c, hc, rfl⟩ := List.mem_map.mp hx
    exact h c hc
  unfold decodeGameResult
  simp only [restoreBase64_plain _ hb, atob_b64Encode _ hb, map_ofNat_toNat, bind, Except.bind]

/-- With `pako`, the URL-safe token of a deflated text decodes to what `JSON.parse` makes
of the text. -/
theorem decodeGameResult_urlsafe (p : Pako) (hp : p.RoundTrips) (txt : List Char) :
    decodeGameResult (some p)
        (removeChar '=' (replaceChar '/' '_' (replaceChar '+' '-'
          (b64Encode ((p.deflate txt).map (fun x => x.val))))))
      = tryCatch (JSON.parse txt) (fun _ => pure .null) := by
  have hb : ∀ x ∈ (p.deflate txt).map (fun x => x.val), x < 256 := by
    intro x hx
    obtain ⟨c, _, rfl⟩ := List.mem_map.mp hx
    exact c.isLt
  unfold decodeGameResult
  simp only [restoreBase64_urlsafe _ hb, atob_b64Encode _ hb, toBytes_bytes, hp txt, bind,
    Except.bind]

/-- The token `encodeGameResult` returns without `pako`, when it returns one. -/
theorem encodeGameResult_plain_ok (now : Int) (result : JsVal) (token : List Char)
    (h : encodeGameResult none now result = .ok token) :
    ∃ game won score time code player,
      getProp result "game".toList = .ok game ∧ getProp result "won".toList = .ok won ∧
      getProp result "score".toList = .ok score ∧ getProp result "time".toList = .ok time ∧
      getProp result "code".toList = .ok code ∧ getProp result "player".toList = .ok player ∧
      (∀ c ∈ jsonText (resultData now game won score time code player), c.toNat < 256) ∧
      token = b64Encode
        ((jsonText (resultData now game won score time code player)).map Char.toNat) := by
  unfold encodeGameResult at h
  simp only [bind, Except.bind] at h
  cases h1 : getProp result "game".toList with
  | error e => rw [h1] at h; cases h
  | ok game =>
  cases h2 : getProp result "won".toList with
  | error e => rw [h1, h2] at h; cases h
  | ok won =>
  cases h3 : getProp result "score".toList with
  | error e => rw [h1, h2, h3] at h; cases h
  | ok score =>
  cases h4 : getProp result "time".toList with
  | error e => rw [h1, h2, h3, h4] at h; cases h
  | ok time =>
  cases h5 : getProp result "code".toList with
  | error e => rw [h1, h2, h3, h4, h5] at h; cases h
  | ok code =>
  cases h6 : getProp result "player".toList with
  | error e => rw [h1, h2, h3, h4, h5, h6] at h; cases h
  | ok player =>
    rw [h1, h2, h3, h4, h5, h6] at h
    simp only at h
    refine ⟨game, won, score, time, code, player, rfl, rfl, rfl, rfl, rfl, rfl, ?_⟩
    cases hb : btoa (jsonText (resultData now game won score time code player)) with
    | error e => rw [hb] at h; simp only [tryCatch] at h; cases h
    | ok tok =>
      rw [hb] at h
      simp only [tryCatch] at h
      injection h with h
      subst h
      exact btoa_ok _ _ hb

/-- The token `encodeGameResult` returns with `pako`. -/
theorem encodeGameResult_pako (p : Pako) (now : Int) (result game won score time code player : JsVal)
    (h1 : getProp result "game".toList = .ok game) (h2 : getProp result "won".toList = .ok won)
    (h3 : getProp result "score".toList = .ok score) (h4 : getProp result "time".toList = .ok time)
    (h5 : getProp result "code".toList = .ok code)
    (h6 : getProp result "player".toList = .ok player) :
    encodeGameResult (some p) now result = .ok
      (removeChar '=' (replaceChar '/' '_' (replaceChar '+' '-'
        (b64Encode ((p.deflate (jsonText
          (resultData now game won score time code player))).map (fun x => x.val)))))) := by
  have hb : btoa ((p.deflate (jsonText (resultData now game won score time code player))).map
      (fun x => Char.ofNat x.val)) = .ok (b64Encode ((p.deflate (jsonText
        (resultData now game won score time code player))).map (fun x => x.val))) := by
    rw [btoa_latin1]
    · rw [List.map_map]
      congr 2
      apply List.map_congr_left
      intro x _
      exact toNat_ofNat_byte x.val x.isLt
    · intro c hc
      obtain ⟨x, _, rfl⟩ := List.mem_map.mp hc
      rw [toNat_ofNat_byte x.val x.isLt]
      exact x.isLt
  simp only [encodeGameResult, h1, h2, h3, h4, h5, h6, bind, Except.bind, hb, tryCatch, pure,
    Except.pure]

/-- The token `encodeGameResult` returns without `pako` for a text in Latin-1. -/
theorem encodeGameResult_plain (now : Int) (result game won score time code player : JsVal)
    (h1 : getProp result "game".toList = .ok game) (h2 : getProp result "won".toList = .ok won)
    (h3 : getProp result "score".toList = .ok score) (h4 : getProp result "time".toList = .ok time)
    (h5 : getProp result "code".toList = .ok code)
    (h6 : getProp result "player".toList = .ok player)
    (hl : ∀ c ∈ jsonText (resultData now game won score time code player), c.toNat < 256) :
    encodeGameResult none now result = .ok
      (b64Encode ((jsonText (resultData now game won score time code player)).map Char.toNat)) := by
  simp only [encodeGameResult, h1, h2, h3, h4, h5, h6, bind, Except.bind, btoa_latin1 _ hl,
    tryCatch]

theorem decodeGameResult_inflate_none (p : Pako) (encoded bin : List Char)
    (hbin : atob (restoreBase64 encoded) = .ok bin) (hinf : p.inflate (toBytes bin) = none) :
    decodeGameResult (some p) encoded = .ok .null := by
  simp [decodeGameResult, hbin, hinf, tryCatch, bind, Except.bind, throw, throwThe,
    MonadExceptOf.throw, pure, Except.pure]

theorem samplePako_checksHeader : samplePako.ChecksHeader := by
  intro bytes out h
  match bytes, h with
  | [], h => simp [samplePako] at h
  | [_], h => simp [samplePako] at h
  | b0 :: b1 :: rest, h =>
    simp only [samplePako] at h
    split_ifs at h with hb
    obtain ⟨h0, h1⟩ := hb
    subst h0; subst h1
    rfl

theorem bytesChars_charBytes (c : Char) (rest : List (Fin 256)) :
    bytesChars (charBytes c ++ rest) = c :: bytesChars rest := by
  have hv : c.toNat < 1114112 := by
    rcases c.valid with h | h
    · have : c.val.toNat < 55296 := h
      show c.val.toNat < 1114112
      omega
    · have : c.val.toNat < 1114112 := h.2
      exact this
  have e1 : (Fin.ofNat (c.toNat / 65536) : Fin 256).val = c.toNat / 65536 :=
    Nat.mod_eq_of_lt (by omega)
  have e2 : (Fin.ofNat (c.toNat / 256 % 256) : Fin 256).val = c.toNat / 256 % 256 :=
    Nat.mod_eq_of_lt (by omega)
  have e3 : (Fin.ofNat (c.toNat % 256) : Fin 256).val = c.toNat % 256 :=
    Nat.mod_eq_of_lt (by omega)
  simp only [charBytes, List.cons_append, List.nil_append, bytesChars, e1, e2, e3]
  congr 1
  have : c.toNat / 65536 * 65536 + c.toNat / 256 % 256 * 256 + c.toNat % 256 = c.toNat := by
    omega
  rw [this, Char.ofNat_toNat]

theorem samplePako_roundTrips : samplePako.RoundTrips := by
  intro s
  have h : ∀ l : List Char, bytesChars (l.map charBytes).flatten = l := by
    intro l
    induction l with
    | nil => rfl
    | cons c cs ih => rw [List.map_cons, List.flatten_cons, bytesChars_charBytes, ih]
  show (if (120 : Fin 256) = 120 ∧ (218 : Fin 256) = 218 then
    some (bytesChars (s.map charBytes).flatten) else none) = some s
  rw [if_pos ⟨rfl, rfl⟩, h]

/-! ## The codec: the claims -/

theorem mem_joinComma (xs : List (List Char)) (x : List Char) (c : Char) (hx : x ∈ xs)
    (hc : c ∈ x) : c ∈ joinComma xs := by
  induction xs with
  | nil => simp at hx
  | cons y tl ih =>
    cases tl with
    | nil =>
      simp only [List.mem_singleton] at hx
      subst hx
      simpa [joinComma] using hc
    | cons z zs =>
      simp only [joinComma, List.mem_append, List.mem_cons]
      rcases List.mem_cons.mp hx with h | h
      · subst h; exact Or.inl hc
      · exact Or.inr (Or.inr (ih h))

theorem mem_stringifyFields (fs : List (List Char × JsVal)) (k t : List Char) (v : JsVal)
    (hk : lookupField k fs = some v) (ht : stringifyVal v = some t) :
    (quoteJSON k ++ ':' :: t) ∈ stringifyFields fs := by
  induction fs with
  | nil => simp [lookupField] at hk
  | cons kv tl ih =>
    obtain ⟨k', v'⟩ := kv
    unfold lookupField at hk
    split_ifs at hk with h
    · injection hk with hk
      subst hk; subst h
      simp [stringifyFields, ht]
    · have := ih hk
      unfold stringifyFields
      split
      · exact this
      · exact List.mem_cons_of_mem _ this

theorem mem_quoteBody (s : List Char) (c : Char) (hc : c ∈ s) (h : 256 ≤ c.toNat) :
    c ∈ quoteBody s := by
  induction s with
  | nil => simp at hc
  | cons d ds ih =>
    simp only [quoteBody, List.mem_append]
    rcases List.mem_cons.mp hc with e | e
    · subst e
      left
      have h1 : c ≠ '"' := by intro e; rw [e] at h; revert h; decide
      have h2 : c ≠ '\\' := by intro e; rw [e] at h; revert h; decide
      have h3 : ¬ c.toNat < 32 := by omega
      have h4 : c.toNat ≠ 8 ∧ c.toNat ≠ 12 ∧ c.toNat ≠ 10 ∧ c.toNat ≠ 13 ∧ c.toNat ≠ 9 := by
        omega
      simp [quoteChar, h1, h2, h3, h4]
    · exact Or.inr (ih e)

theorem btoa_wide (s : List Char) (c : Char) (hc : c ∈ s) (h : 256 ≤ c.toNat) :
    btoa s = .error .invalidCharacter := by
  unfold btoa
  have : s.all (fun c => decide (c.toNat < 256)) = false := by
    rw [List.all_eq_false]
    exact ⟨c, hc, by simp; omega⟩
  simp [this]

/-- C1, the defect.  Without `pako`, `encodeGameResult` throws for every Result whose
player name has a character above U+00FF: `btoa` rejects the JSON text in the `try`
block and again in the `catch` block, so there is no token to decode. -/
theorem encodeGameResult_wide_player_throws (now : Int) (fields : List (List Char × JsVal))
    (name : List Char) (c : Char)
    (hplayer : lookupField "player".toList fields = some (.str name))
    (hc : c ∈ name) (hwide : 256 ≤ c.toNat) :
    encodeGameResult none now (.obj fields) = .error .invalidCharacter := by
  have hmem : c ∈ jsonText (resultData now
      ((lookupField "game".toList fields).getD .undefined)
      ((lookupField "won".toList fields).getD .undefined)
      ((lookupField "score".toList fields).getD .undefined)
      ((lookupField "time".toList fields).getD .undefined)
      ((lookupField "code".toList fields).getD .undefined)
      (.str name)) := by
    simp only [jsonText, JSON.stringify, resultData, stringifyVal, Option.getD_some,
      List.mem_cons, List.mem_append]
    right; left
    apply mem_joinComma _ (quoteJSON "player".toList ++ ':' :: quoteJSON name) c
    · apply mem_stringifyFields _ _ _ (.str name)
      · simp [lookupField]
      · rfl
    · simp only [List.mem_append, List.mem_cons, quoteJSON]
      right; right; right; left
      exact mem_quoteBody name c hc hwide
  have hb := btoa_wide _ c hmem hwide
  simp only [encodeGameResult, getProp, hplayer, Option.getD_some, bind, Except.bind, pure,
    Except.pure, tryCatch, hb]

/-- C1, the defect at a concrete Result. -/
theorem encodeGameResult_wide_player_throws_witness :
    lookupField "player".toList
        [("game".toList, .str "quickMath".toList), ("won".toList, .bool true),
          ("score".toList, .num 90), ("time".toList, .num 1000),
          ("code".toList, .str "ABC234".toList),
          ("player".toList, .str (Char.ofNat 321 :: "ukasz".toList))]
      = some (.str (Char.ofNat 321 :: "ukasz".toList)) ∧
    encodeGameResult none 1700000000000 sampleResultWide = .error .invalidCharacter :=
  ⟨by rfl, encodeGameResult_wide_player_throws 1700000000000 _ _ (Char.ofNat 321) (by rfl)
    (List.mem_cons_self _ _) (by decide)⟩

theorem resultData_parse (now : Int) (game won score time code player : JsVal)
    (h1 : isScalar game = true) (h2 : isScalar won = true) (h3 : isScalar score = true)
    (h4 : isScalar time = true) (h5 : isScalar code = true) (h6 : isScalar player = true) :
    JSON.parse (jsonText (resultData now game won score time code player)) =
      .ok (resultData now game won score time code player) := by
  unfold resultData
  apply parse_stringify_flat
  · intro kv hkv
    simp only [List.mem_cons, List.mem_singleton, List.not_mem_nil, or_false] at hkv
    rcases hkv with h | h | h | h | h | h | h <;> subst h <;> first | assumption | rfl
  · simp only [List.map_cons, List.map_nil]
    decide

/-- The round trip where it holds.  For a Result object whose six fields are values
without parts, with the same library at both ends (a `pako` that inflates what it
deflated, or no `pako` and a JSON text within Latin-1), `encodeGameResult` returns a
token and `decodeGameResult` gives back the six fields and the timestamp. -/
theorem decodeGameResult_encodeGameResult (pako : Option Pako) (now : Int)
    (fields : List (List Char × JsVal)) (game won score time code player : JsVal)
    (hg : lookupField "game".toList fields = some game)
    (hw : lookupField "won".toList fields = some won)
    (hs : lookupField "score".toList fields = some score)
    (ht : lookupField "time".toList fields = some time)
    (hc : lookupField "code".toList fields = some code)
    (hp : lookupField "player".toList fields = some player)
    (h1 : isScalar game = true) (h2 : isScalar won = true) (h3 : isScalar score = true)
    (h4 : isScalar time = true) (h5 : isScalar code = true) (h6 : isScalar player = true)
    (hpako : ∀ p, pako = some p → p.RoundTrips)
    (hlatin : pako = none →
      ∀ c ∈ jsonText (resultData now game won score time code player), c.toNat < 256) :
    ∃ token, encodeGameResult pako now (.obj fields) = .ok token ∧
      decodeGameResult pako token = .ok (resultData now game won score time code player) := by
  have g1 : getProp (.obj fields) "game".toList = .ok game := by simp only [getProp, hg]; rfl
  have g2 : getProp (.obj fields) "won".toList = .ok won := by simp only [getProp, hw]; rfl
  have g3 : getProp (.obj fields) "score".toList = .ok score := by simp only [getProp, hs]; rfl
  have g4 : getProp (.obj fields) "time".toList = .ok time := by simp only [getProp, ht]; rfl
  have g5 : getProp (.obj fields) "code".toList = .ok code := by simp only [getProp, hc]; rfl
  have g6 : getProp (.obj fields) "player".toList = .ok player := by simp only [getProp, hp]; rfl
  have hparse := resultData_parse now game won score time code player h1 h2 h3 h4 h5 h6
  cases pako with
  | none =>
    refine ⟨_, encodeGameResult_plain now _ _ _ _ _ _ _ g1 g2 g3 g4 g5 g6 (hlatin rfl), ?_⟩
    rw [decodeGameResult_plain _ (hlatin rfl), hparse]
    rfl
  | some p =>
    refine ⟨_, encodeGameResult_pako p now _ _ _ _ _ _ _ g1 g2 g3 g4 g5 g6, ?_⟩
    rw [decodeGameResult_urlsafe p (hpako p rfl), hparse]
    rfl

theorem stringifyFields_quoted (fs : List (List Char × JsVal)) :
    ∀ x ∈ stringifyFields fs, ∃ x', x = '"' :: x' := by
  induction fs with
  | nil => simp [stringifyFields]
  | cons kv tl ih =>
    obtain ⟨k, v⟩ := kv
    unfold stringifyFields
    split
    · exact ih
    · intro x hx
      rcases List.mem_cons.mp hx with h | h
      · exact ⟨_, by rw [h]; rfl⟩
      · exact ih x h

theorem jsonText_resultData_head (now : Int) (game won score time code player : JsVal) :
    ∃ rest, jsonText (resultData now game won score time code player) = '{' :: '"' :: rest := by
  have hmem : (quoteJSON "timestamp".toList ++ ':' :: intText now) ∈
      stringifyFields [("game".toList, game), ("won".toList, won), ("score".toList, score),
        ("time".toList, time), ("code".toList, code), ("player".toList, player),
        ("timestamp".toList, .num now)] := by
    apply mem_stringifyFields _ _ _ (.num now)
    · simp [lookupField]
    · rfl
  obtain ⟨j, hj⟩ := joinComma_head _ (List.ne_nil_of_mem hmem) (stringifyFields_quoted _)
  exact ⟨j ++ ['}'], by
    simp only [jsonText, JSON.stringify, resultData, stringifyVal, Option.getD_some, hj,
      List.cons_append]⟩

theorem intText_latin1 (n : Int) : ∀ c ∈ intText n, c.toNat < 256 := by
  have hd : ∀ c ∈ natDigits (n.natAbs + 1) n.natAbs, c.toNat < 256 := by
    intro c hc
    have := natDigits_all _ _ c hc
    simp only [isDigit, decide_eq_true_eq] at this
    omega
  intro c hc
  unfold intText at hc
  split_ifs at hc
  · rcases List.mem_cons.mp hc with h | h
    · rw [h]; decide
    · exact hd c h
  · exact hd c hc

theorem timestampText_latin1 (now : Int) :
    ∀ c ∈ jsonText (resultData now .undefined .undefined .undefined .undefined .undefined
      .undefined), c.toNat < 256 := by
  intro c hc
  have e : jsonText (resultData now .undefined .undefined .undefined .undefined .undefined
      .undefined) = "\x7b\"timestamp\":".toList ++ (intText now ++ "\x7d".toList) := by
    simp [jsonText, JSON.stringify, resultData, stringifyVal, stringifyFields, joinComma,
      quoteJSON, quoteBody, quoteChar]
  rw [e] at hc
  have h1 : ∀ d ∈ "\x7b\"timestamp\":".toList, d.toNat < 256 := by decide
  have h2 : ∀ d ∈ "\x7d".toList, d.toNat < 256 := by decide
  rcases List.mem_append.mp hc with h | h
  · exact h1 c h
  · rcases List.mem_append.mp h with h | h
    · exact intText_latin1 now c h
    · exact h2 c h

/-- C2, the defect.  `encodeConfig` passes the config to `encodeGameResult`, which
copies only the six Result fields; a config has none of them, so the token carries the
timestamp alone.  With the same library at both ends, `decodeConfig(encodeConfig(c))`
is the object with the single member `timestamp`, whatever the config: no config field
survives the round trip. -/
theorem decodeConfig_encodeConfig_drops_fields (pako : Option Pako) (now : Int)
    (fields : List (List Char × JsVal))
    (hg : lookupField "game".toList fields = none)
    (hw : lookupField "won".toList fields = none)
    (hs : lookupField "score".toList fields = none)
    (ht : lookupField "time".toList fields = none)
    (hc : lookupField "code".toList fields = none)
    (hp : lookupField "player".toList fields = none)
    (hpako : ∀ p, pako = some p → p.RoundTrips) :
    ∃ token, encodeConfig pako now (.obj fields) = .ok token ∧
      decodeConfig pako token = .ok (.obj [("timestamp".toList, .num now)]) := by
  have g1 : getProp (.obj fields) "game".toList = .ok .undefined := by simp only [getProp, hg]; rfl
  have g2 : getProp (.obj fields) "won".toList = .ok .undefined := by simp only [getProp, hw]; rfl
  have g3 : getProp (.obj fields) "score".toList = .ok .undefined := by
    simp only [getProp, hs]; rfl
  have g4 : getProp (.obj fields) "time".toList = .ok .undefined := by simp only [getProp, ht]; rfl
  have g5 : getProp (.obj fields) "code".toList = .ok .undefined := by simp only [getProp, hc]; rfl
  have g6 : getProp (.obj fields) "player".toList = .ok .undefined := by
    simp only [getProp, hp]; rfl
  have htxt : jsonText (resultData now .undefined .undefined .undefined .undefined .undefined
      .undefined) = jsonText (.obj [("timestamp".toList, .num now)]) := rfl
  have hparse : JSON.parse (jsonText (resultData now .undefined .undefined .undefined .undefined
      .undefined .undefined)) = .ok (.obj [("timestamp".toList, .num now)]) := by
    rw [htxt]
    exact parse_stringify_flat _ (by simp [isScalar]) (by simp)
  unfold encodeConfig decodeConfig
  cases pako with
  | none =>
    refine ⟨_, encodeGameResult_plain now _ _ _ _ _ _ _ g1 g2 g3 g4 g5 g6
      (timestampText_latin1 now), ?_⟩
    rw [decodeGameResult_plain _ (timestampText_latin1 now), hparse]
    rfl
  | some p =>
    refine ⟨_, encodeGameResult_pako p now _ _ _ _ _ _ _ g1 g2 g3 g4 g5 g6, ?_⟩
    rw [decodeGameResult_urlsafe p (hpako p rfl), hparse]
    rfl

/-- C2, the defect on the default config of `getConfigOptions`, with the stand-in
library at both ends. -/
theorem decodeConfig_encodeConfig_drops_fields_witness :
    samplePako.RoundTrips ∧
    lookupField "game".toList
        [("enabled".toList, .bool false), ("showAfterMinutes".toList, .num 5),
          ("prizeMode".toList, .str "fixed".toList), ("prizeAmount".toList, .num 10),
          ("multiplier".toList, .num 2), ("allowMultipleGames".toList, .bool false)] = none ∧
    ∃ token, encodeConfig (some samplePako) 1700000000000 getConfigOptions = .ok token ∧
      decodeConfig (some samplePako) token
        = .ok (.obj [("timestamp".toList, .num 1700000000000)]) :=
  ⟨samplePako_roundTrips, by rfl,
    decodeConfig_encodeConfig_drops_fields (some samplePako) 1700000000000 _ (by rfl) (by rfl)
      (by rfl) (by rfl) (by rfl) (by rfl)
      (fun p h => by
        injection h with h
        subst h
        exact samplePako_roundTrips)⟩

/-- C3, the defect.  A token `encodeGameResult` returns when `pako` is missing is plain
base64 of the JSON text.  On a page where `pako` is present, `decodeGameResult` hands
the bytes of that text to `pako.inflate`, which rejects them for their header (the
text starts with a brace and a quote), and the `catch` block returns `null`: there is
no second attempt to parse the bytes directly.  This holds for every payload. -/
theorem decodeGameResult_plain_token_null (p : Pako) (hp : p.ChecksHeader) (now : Int)
    (result : JsVal) (token : List Char)
    (htoken : encodeGameResult none now result = .ok token) :
    decodeGameResult (some p) token = .ok .null := by
  obtain ⟨game, won, score, time, code, player, _, _, _, _, _, _, hl, rfl⟩ :=
    encodeGameResult_plain_ok now result token htoken
  have hb : ∀ x ∈ (jsonText (resultData now game won score time code player)).map Char.toNat,
      x < 256 := by
    intro x hx
    obtain ⟨c, hc, rfl⟩ := List.mem_map.mp hx
    exact hl c hc
  have hbin : atob (restoreBase64 (b64Encode
      ((jsonText (resultData now game won score time code player)).map Char.toNat)))
      = .ok (jsonText (resultData now game won score time code player)) := by
    rw [restoreBase64_plain _ hb, atob_b64Encode _ hb, map_ofNat_toNat]
  apply decodeGameResult_inflate_none p _ _ hbin
  cases hinf : p.inflate (toBytes (jsonText (resultData now game won score time code player))) with
  | none => rfl
  | some out =>
    have hh := hp _ _ hinf
    obtain ⟨rest, hrest⟩ := jsonText_resultData_head now game won score time code player
    rw [hrest] at hh
    have hf : hasStreamHeader (toBytes ('{' :: '"' :: rest)) = false := rfl
    rw [hf] at hh
    cases hh

/-- C3, the defect for `sampleResult` and the stand-in library. -/
theorem decodeGameResult_plain_token_null_witness :
    samplePako.ChecksHeader ∧
    encodeGameResult none 1700000000000 sampleResult = .ok
      "eyJnYW1lIjoicXVpY2tNYXRoIiwid29uIjp0cnVlLCJzY29yZSI6OTAsInRpbWUiOjEwMDAsImNvZGUiOiJBQkMyMzQiLCJwbGF5ZXIiOiJVbmtub3duIiwidGltZXN0YW1wIjoxNzAwMDAwMDAwMDAwfQ==".toList ∧
    decodeGameResult (some samplePako)
      "eyJnYW1lIjoicXVpY2tNYXRoIiwid29uIjp0cnVlLCJzY29yZSI6OTAsInRpbWUiOjEwMDAsImNvZGUiOiJBQkMyMzQiLCJwbGF5ZXIiOiJVbmtub3duIiwidGltZXN0YW1wIjoxNzAwMDAwMDAwMDAwfQ==".toList
      = .ok .null :=
  ⟨samplePako_checksHeader, by rfl,
    decodeGameResult_plain_token_null samplePako samplePako_checksHeader 1700000000000
      sampleResult _ (by rfl)⟩

/-- C4, the defect.  Without `pako` the token for `sampleResult` is the unmodified
output of `btoa`: it ends in two `=` characters. -/
theorem encodeGameResult_plain_token_has_padding :
    encodeGameResult none 1700000000000 sampleResult = .ok
      "eyJnYW1lIjoicXVpY2tNYXRoIiwid29uIjp0cnVlLCJzY29yZSI6OTAsInRpbWUiOjEwMDAsImNvZGUiOiJBQkMyMzQiLCJwbGF5ZXIiOiJVbmtub3duIiwidGltZXN0YW1wIjoxNzAwMDAwMDAwMDAwfQ==".toList ∧
    '=' ∈ "eyJnYW1lIjoicXVpY2tNYXRoIiwid29uIjp0cnVlLCJzY29yZSI6OTAsInRpbWUiOjEwMDAsImNvZGUiOiJBQkMyMzQiLCJwbGF5ZXIiOiJVbmtub3duIiwidGltZXN0YW1wIjoxNzAwMDAwMDAwMDAwfQ==".toList :=
  ⟨by rfl, by decide⟩

theorem b64Char_urlsafe_chars (n : Nat) (h : n < 64) :
    swapChar '/' '_' (swapChar '+' '-' (b64Char n)) ≠ '+' ∧
    swapChar '/' '_' (swapChar '+' '-' (b64Char n)) ≠ '/' ∧
    swapChar '/' '_' (swapChar '+' '-' (b64Char n)) ≠ '=' := by
  interval_cases n <;> decide

/-- With `pako` the token has none of the characters `+`, `/` and `=`. -/
theorem encodeGameResult_pako_urlsafe (p : Pako) (now : Int) (fields : List (List Char × JsVal))
    (token : List Char) (h : encodeGameResult (some p) now (.obj fields) = .ok token) :
    '+' ∉ token ∧ '/' ∉ token ∧ '=' ∉ token := by
  have e := encodeGameResult_pako p now (.obj fields) _ _ _ _ _ _ rfl rfl rfl rfl rfl rfl
  rw [e] at h
  injection h with h
  subst h
  have hb : ∀ x ∈ (p.deflate (jsonText (resultData now
      ((lookupField "game".toList fields).getD .undefined)
      ((lookupField "won".toList fields).getD .undefined)
      ((lookupField "score".toList fields).getD .undefined)
      ((lookupField "time".toList fields).getD .undefined)
      ((lookupField "code".toList fields).getD .undefined)
      ((lookupField "player".toList fields).getD .undefined)))).map (fun x => x.val), x < 256 := by
    intro x hx
    obtain ⟨c, _, rfl⟩ := List.mem_map.mp hx
    exact c.isLt
  rw [urlsafe_b64Encode _ hb]
  have hlt := sextets_lt _ hb
  refine ⟨?_, ?_, ?_⟩ <;> intro hmem <;> obtain ⟨s, hs, hsc⟩ := List.mem_map.mp hmem
  · exact (b64Char_urlsafe_chars s (hlt s hs)).1 hsc
  · exact (b64Char_urlsafe_chars s (hlt s hs)).2.1 hsc
  · exact (b64Char_urlsafe_chars s (hlt s hs)).2.2 hsc

theorem decodeGameResult_atob_error (pako : Option Pako) (encoded : List Char) (e : JsError)
    (h : atob (restoreBase64 encoded) = .error e) :
    decodeGameResult pako encoded = .ok .null := by
  cases pako <;>
    simp [decodeGameResult, h, tryCatch, bind, Except.bind, pure, Except.pure]

theorem decodeGameResult_ok (pako : Option Pako) (encoded : List Char) :
    ∃ v, decodeGameResult pako encoded = .ok v := by
  unfold decodeGameResult tryCatch
  split
  · exact ⟨_, rfl⟩
  · exact ⟨_, rfl⟩

/-- C5.  `decodeGameResult` never throws: it always returns a value, and that value is
`null` when `atob` rejects the restored base64 text, when `pako.inflate` rejects the
bytes, and when `JSON.parse` rejects the text (the inflated text with `pako`, the
decoded text without); in particular the input `not-valid-base64!!!` gives `null`. -/
theorem decodeGameResult_never_raises (pako : Option Pako) (encoded : List Char) :
    (∃ v, decodeGameResult pako encoded = .ok v) ∧
    (∀ e, atob (restoreBase64 encoded) = .error e →
      decodeGameResult pako encoded = .ok .null) ∧
    (∀ p bin, pako = some p → atob (restoreBase64 encoded) = .ok bin →
      p.inflate (toBytes bin) = none → decodeGameResult pako encoded = .ok .null) ∧
    (∀ p bin text e, pako = some p → atob (restoreBase64 encoded) = .ok bin →
      p.inflate (toBytes bin) = some text → JSON.parse text = .error e →
      decodeGameResult pako encoded = .ok .null) ∧
    (∀ bin e, pako = none → atob (restoreBase64 encoded) = .ok bin →
      JSON.parse bin = .error e → decodeGameResult pako encoded = .ok .null) ∧
    decodeGameResult pako "not-valid-base64!!!".toList = .ok .null := by
  refine ⟨decodeGameResult_ok pako encoded, ?_, ?_, ?_, ?_, ?_⟩
  · exact fun e h => decodeGameResult_atob_error pako encoded e h
  · intro p bin hp hbin hinf
    subst hp
    exact decodeGameResult_inflate_none p encoded bin hbin hinf
  · intro p bin text e hp hbin hinf hparse
    subst hp
    simp [decodeGameResult, hbin, hinf, hparse, tryCatch, bind, Except.bind, pure, Except.pure]
  · intro bin e hp hbin hparse
    subst hp
    simp [decodeGameResult, hbin, hparse, tryCatch, bind, Except.bind, pure, Except.pure]
  · exact decodeGameResult_atob_error pako _ .invalidCharacter (by rfl)

/-- C5 at inputs that fail at each stage: a character outside the alphabet, bytes
that are no compressed stream, and text that is no JSON. -/
theorem decodeGameResult_never_raises_witness :
    (atob (restoreBase64 "not-valid-base64!!!".toList) = .error .invalidCharacter ∧
      decodeGameResult none "not-valid-base64!!!".toList = .ok .null) ∧
    (atob (restoreBase64 "e30".toList) = .ok "\x7b\x7d".toList ∧
      samplePako.inflate (toBytes "\x7b\x7d".toList) = none ∧
      decodeGameResult (some samplePako) "e30".toList = .ok .null) ∧
    (atob (restoreBase64 "e3E".toList) = .ok "\x7bq".toList ∧
      JSON.parse "\x7bq".toList = .error .syntaxError ∧
      decodeGameResult none "e3E".toList = .ok .null) :=
  ⟨⟨by rfl, (decodeGameResult_never_raises none "not-valid-base64!!!".toList).2.1 _ (by rfl)⟩,
   ⟨by rfl, by rfl,
     (decodeGameResult_never_raises (some samplePako) "e30".toList).2.2.1 samplePako _ rfl
       (by rfl) (by rfl)⟩,
   ⟨by rfl, by rfl,
     (decodeGameResult_never_raises none "e3E".toList).2.2.2.2.1 _ _ rfl (by rfl) (by rfl)⟩⟩

/-! ## Verification and the end of a game -/

theorem jsonText_obj_ne_nil (fs : List (List Char × JsVal)) :
    ∃ c cs, jsonText (.obj fs) = c :: cs :=
  ⟨'{', _, rfl⟩

theorem verifyGameCode_stored (pako : Option Pako) (store : Storage) (code : List Char)
    (fs : List (List Char × JsVal)) (hs : ∀ kv ∈ fs, isScalar kv.2 = true)
    (hnd : (fs.map Prod.fst).Nodup)
    (hget : Storage.getItem ("miniGameResult_".toList ++ code) store = some (jsonText (.obj fs))) :
    verifyGameCode pako store code = .ok (.obj fs) := by
  obtain ⟨c, cs, hc⟩ := jsonText_obj_ne_nil fs
  have hp := parse_stringify_flat fs hs hnd
  unfold verifyGameCode
  rw [hget]
  rw [hc] at hp ⊢
  exact hp

theorem verifyGameCode_not_stored (pako : Option Pako) (store : Storage) (code : List Char)
    (decoded : JsVal)
    (hget : Storage.getItem ("miniGameResult_".toList ++ code) store = none)
    (hdec : decodeGameResult pako code = .ok decoded) :
    verifyGameCode pako store code =
      .ok (if truthy decoded && truthy (codeOf decoded) then decoded else .null) := by
  unfold verifyGameCode
  rw [hget, hdec]
  cases decoded <;> simp [truthy, codeOf, getProp]
  all_goals (split <;> simp_all)

/-- C6, as amended.  `verifyGameCode(code)` returns the stored record when the
storage holds the serialisation of a Result under the key `miniGameResult_<code>`
(keys are compared exactly); when nothing is stored under that key it returns the
value of `decodeGameResult(code)` if that value is truthy and its `code` property is
truthy, and `null` otherwise; so a code that is neither stored nor decodable gives
`null`. -/
theorem verifyGameCode_spec (pako : Option Pako) (store : Storage) (code : List Char) :
    (∀ fs : List (List Char × JsVal), (∀ kv ∈ fs, isScalar kv.2 = true) →
      (fs.map Prod.fst).Nodup →
      Storage.getItem ("miniGameResult_".toList ++ code) store = some (jsonText (.obj fs)) →
      verifyGameCode pako store code = .ok (.obj fs)) ∧
    (Storage.getItem ("miniGameResult_".toList ++ code) store = none →
      ∀ decoded, decodeGameResult pako code = .ok decoded →
        verifyGameCode pako store code =
          .ok (if truthy decoded && truthy (codeOf decoded) then decoded else .null)) ∧
    (Storage.getItem ("miniGameResult_".toList ++ code) store = none →
      decodeGameResult pako code = .ok .null → verifyGameCode pako store code = .ok .null) := by
  refine ⟨fun fs hs hnd hget => verifyGameCode_stored pako store code fs hs hnd hget,
    fun hget decoded hdec => verifyGameCode_not_stored pako store code decoded hget hdec, ?_⟩
  intro hget hdec
  rw [verifyGameCode_not_stored pako store code .null hget hdec]
  rfl

/-- C6 at a stored Result, at a token that decodes to a Result, and at a string that is
neither. -/
theorem verifyGameCode_spec_witness :
    verifyGameCode none
        [("miniGameResult_ABC234".toList, jsonText sampleResult)] "ABC234".toList
      = .ok sampleResult ∧
    verifyGameCode none []
        "eyJnYW1lIjoicXVpY2tNYXRoIiwid29uIjp0cnVlLCJzY29yZSI6OTAsInRpbWUiOjEwMDAsImNvZGUiOiJBQkMyMzQiLCJwbGF5ZXIiOiJVbmtub3duIiwidGltZXN0YW1wIjoxNzAwMDAwMDAwMDAwfQ==".toList
      = .ok (resultData 1700000000000 (.str "quickMath".toList) (.bool true) (.num 90)
          (.num 1000) (.str "ABC234".toList) (.str "Unknown".toList)) ∧
    verifyGameCode none [] "ZZZZZZ".toList = .ok .null :=
  ⟨(verifyGameCode_spec none _ "ABC234".toList).1 _ (by decide) (by decide) (by rfl),
   ((verifyGameCode_spec none [] _).2.1 (by rfl) _ (by rfl)).trans (by rfl),
   (verifyGameCode_spec none [] "ZZZZZZ".toList).2.2 (by rfl) (by rfl)⟩

/-- C6 as stated fails.  The token `eyJjb2RlIjoiIn0=` is not a stored code, it decodes
without error to the object whose only member is `code` with the empty string as
value, a payload that carries a `code` field, and yet
`verifyGameCode` returns `null` instead of the decoded payload. -/
theorem verifyGameCode_empty_code_counterexample :
    Storage.getItem ("miniGameResult_".toList ++ emptyCodeToken) [] = none ∧
    decodeGameResult none emptyCodeToken = .ok (.obj [("code".toList, .str [])]) ∧
    lookupField "code".toList [("code".toList, .str [])] = some (.str []) ∧
    verifyGameCode none [] emptyCodeToken = .ok .null ∧
    verifyGameCode none [] emptyCodeToken ≠ decodeGameResult none emptyCodeToken := by
  have h1 : decodeGameResult none emptyCodeToken = .ok (.obj [("code".toList, .str [])]) := by
    rfl
  have h2 : verifyGameCode none [] emptyCodeToken = .ok .null := by rfl
  refine ⟨rfl, h1, by rfl, h2, ?_⟩
  rw [h1, h2]
  intro h
  injection h with h
  cases h

theorem getItem_setItem (key value : List Char) (store : Storage) :
    Storage.getItem key (Storage.setItem key value store) = some value := by
  induction store with
  | nil => simp [Storage.setItem, Storage.getItem]
  | cons kv tl ih =>
    obtain ⟨k, v⟩ := kv
    unfold Storage.setItem
    split_ifs with h
    · simp [Storage.getItem]
    · simp [Storage.getItem, h, ih]

theorem charAt_codeChars_length (n : Nat) (h : n < 32) : (charAt codeChars n).length = 1 := by
  interval_cases n <;> rfl

theorem generateGameCode_length (r : Nat → Nat) (hr : ∀ i, i < 6 → r i < 32) :
    (generateGameCode r).length = 6 := by
  have e : List.range 6 = [0, 1, 2, 3, 4, 5] := by decide
  simp only [generateGameCode, e, List.foldl_cons, List.foldl_nil, List.length_append,
    List.nil_append, charAt_codeChars_length _ (hr 0 (by omega)),
    charAt_codeChars_length _ (hr 1 (by omega)), charAt_codeChars_length _ (hr 2 (by omega)),
    charAt_codeChars_length _ (hr 3 (by omega)), charAt_codeChars_length _ (hr 4 (by omega)),
    charAt_codeChars_length _ (hr 5 (by omega))]

theorem showGameResult_keeps (p : Page) :
    (showGameResult p).1.storage = p.storage ∧ (showGameResult p).1.gameResult = p.gameResult ∧
      (showGameResult p).1.gameCode = p.gameCode := by
  unfold showGameResult
  split <;> simp

theorem endGame_fields (r : Nat → Nat) (now : Int) (won : Bool) (score : Int) (p : Page) :
    (endGame r now won score p).1.gameResult = buildResult p now won score (generateGameCode r) ∧
    (endGame r now won score p).1.gameCode = some (generateGameCode r) ∧
    (endGame r now won score p).1.storage =
      Storage.setItem ("miniGameResult_".toList ++ generateGameCode r)
        (jsonText (buildResult p now won score (generateGameCode r))) p.storage := by
  unfold endGame
  simp only
  refine ⟨?_, ?_, ?_⟩
  · rw [(showGameResult_keeps _).2.1]
  · rw [(showGameResult_keeps _).2.2]
  · rw [(showGameResult_keeps _).1]

/-- C7.  For a game started as `g` at time `t0`, with `window.playerName` a string or
not set, `endGame(won, score)` at time `now` makes `gameResult` the record with the
game, `won`, `score`, the time `now - t0`, the fresh code of six characters, and the
player name (`Unknown` when the name is not set or empty); it stores the
serialisation under `miniGameResult_<code>`, and `verifyGameCode(code)` then returns
that record. -/
theorem endGame_builds_and_stores (pako : Option Pako) (r : Nat → Nat) (now : Int) (won : Bool)
    (score : Int) (p : Page) (g : GameKey) (t0 : Int)
    (hg : p.currentGame = some g) (ht : p.gameStartTime = some t0)
    (hr : ∀ i, i < 6 → r i < 32)
    (hname : p.playerName = .undefined ∨ ∃ s, p.playerName = .str s) :
    ∃ player : List Char,
      (p.playerName = .undefined → player = "Unknown".toList) ∧
      (p.playerName = .str [] → player = "Unknown".toList) ∧
      (∀ s, p.playerName = .str s → s ≠ [] → player = s) ∧
      (generateGameCode r).length = 6 ∧
      (endGame r now won score p).1.gameResult =
        .obj [("game".toList, .str g.key), ("won".toList, .bool won),
          ("score".toList, .num score), ("time".toList, .num (now - t0)),
          ("code".toList, .str (generateGameCode r)), ("player".toList, .str player)] ∧
      Storage.getItem ("miniGameResult_".toList ++ generateGameCode r)
          (endGame r now won score p).1.storage
        = some (jsonText (endGame r now won score p).1.gameResult) ∧
      verifyGameCode pako (endGame r now won score p).1.storage (generateGameCode r)
        = .ok (endGame r now won score p).1.gameResult := by
  obtain ⟨hres, _, hstore⟩ := endGame_fields r now won score p
  have key : ∀ player : List Char,
      buildResult p now won score (generateGameCode r) =
        .obj [("game".toList, .str g.key), ("won".toList, .bool won),
          ("score".toList, .num score), ("time".toList, .num (now - t0)),
          ("code".toList, .str (generateGameCode r)), ("player".toList, .str player)] →
      Storage.getItem ("miniGameResult_".toList ++ generateGameCode r)
          (endGame r now won score p).1.storage
        = some (jsonText (endGame r now won score p).1.gameResult) ∧
      verifyGameCode pako (endGame r now won score p).1.storage (generateGameCode r)
        = .ok (endGame r now won score p).1.gameResult := by
    intro player hb
    have hget : Storage.getItem ("miniGameResult_".toList ++ generateGameCode r)
        (endGame r now won score p).1.storage
        = some (jsonText (endGame r now won score p).1.gameResult) := by
      rw [hstore, hres, getItem_setItem]
    refine ⟨hget, ?_⟩
    rw [hres, hb] at hget ⊢
    exact verifyGameCode_stored pako _ _ _ (by simp [isScalar])
      (by simp only [List.map_cons, List.map_nil]; decide) hget
  rcases hname with hu | ⟨s, hs⟩
  · have hb : buildResult p now won score (generateGameCode r) =
        .obj [("game".toList, .str g.key), ("won".toList, .bool won),
          ("score".toList, .num score), ("time".toList, .num (now - t0)),
          ("code".toList, .str (generateGameCode r)),
          ("player".toList, .str "Unknown".toList)] := by
      simp [buildResult, hg, ht, hu, truthy]
    refine ⟨"Unknown".toList, fun _ => rfl, fun _ => rfl, ?_, generateGameCode_length r hr,
      hres.trans hb, key _ hb⟩
    intro s hs; rw [hu] at hs; cases hs
  · cases s with
    | nil =>
      have hb : buildResult p now won score (generateGameCode r) =
          .obj [("game".toList, .str g.key), ("won".toList, .bool won),
            ("score".toList, .num score), ("time".toList, .num (now - t0)),
            ("code".toList, .str (generateGameCode r)),
            ("player".toList, .str "Unknown".toList)] := by
        simp [buildResult, hg, ht, hs, truthy]
      refine ⟨"Unknown".toList, fun _ => rfl, fun _ => rfl, ?_, generateGameCode_length r hr,
        hres.trans hb, key _ hb⟩
      intro s' hs' hne; rw [hs] at hs'; injection hs' with hs'; exact absurd hs'.symm hne
    | cons c cs =>
      have hb : buildResult p now won score (generateGameCode r) =
          .obj [("game".toList, .str g.key), ("won".toList, .bool won),
            ("score".toList, .num score), ("time".toList, .num (now - t0)),
            ("code".toList, .str (generateGameCode r)),
            ("player".toList, .str (c :: cs))] := by
        simp [buildResult, hg, ht, hs, truthy]
      refine ⟨c :: cs, ?_, ?_, ?_, generateGameCode_length r hr, hres.trans hb, key _ hb⟩
      · intro h; rw [hs] at h; cases h
      · intro h; rw [hs] at h; cases h
      · intro s' hs' _; rw [hs] at hs'; cases hs'; rfl

/-- C7 for Quick Math started on `samplePage` at time 1000 and won with score 90 at
time 2000. -/
theorem endGame_builds_and_stores_witness :
    (showRandomGame 0 1000 samplePage).currentGame = some .quickMath ∧
    (showRandomGame 0 1000 samplePage).gameStartTime = some 1000 ∧
    (endGame (fun i => i) 2000 true 90 (showRandomGame 0 1000 samplePage)).1.gameResult =
      .obj [("game".toList, .str "quickMath".toList), ("won".toList, .bool true),
        ("score".toList, .num 90), ("time".toList, .num 1000),
        ("code".toList, .str "ABCDEF".toList), ("player".toList, .str "Unknown".toList)] ∧
    verifyGameCode none
        (endGame (fun i => i) 2000 true 90 (showRandomGame 0 1000 samplePage)).1.storage
        (generateGameCode (fun i => i))
      = .ok (endGame (fun i => i) 2000 true 90 (showRandomGame 0 1000 samplePage)).1.gameResult :=
  ⟨by rfl, by rfl, by rfl,
    match endGame_builds_and_stores none (fun i => i) 2000 true 90
        (showRandomGame 0 1000 samplePage) .quickMath 1000 (by rfl) (by rfl)
        (fun i hi => by show i < 32; omega) (Or.inl (by rfl)) with
    | ⟨_, _, _, _, _, _, _, h⟩ => h⟩

/-! ## Session control -/

theorem any_hasClass_setView (cls : List Char) (i : Nat) (v : View) (dom : List Elem) :
    (setView i v dom).any (Elem.hasClass cls) = dom.any (Elem.hasClass cls) := by
  induction dom generalizing i with
  | nil => simp [setView]
  | cons e es ih =>
    cases i with
    | zero => simp [setView, Elem.hasClass]
    | succ j => simp [setView, ih j]

theorem countId_setView (id : List Char) (i : Nat) (v : View) (dom : List Elem) :
    countId id (setView i v dom) = countId id dom := by
  induction dom generalizing i with
  | nil => simp [setView]
  | cons e es ih =>
    cases i with
    | zero =>
      simp only [setView, countId, List.filter_cons]
      split_ifs <;> simp
    | succ j =>
      have := ih j
      simp only [countId, setView, List.filter_cons] at this ⊢
      split_ifs <;> simp [this]

theorem lockTicket_dom (p : Page) :
    ∃ extra, (lockTicket p).dom =
        p.dom.map (fun e =>
          if e.hasClass "ticket-cell".toList then
            { e with pointerEvents := "none".toList, opacity := "0.5".toList }
          else e) ++ extra ∧
      (extra = [] ∨ extra = [lockOverlay]) := by
  unfold lockTicket
  simp only
  split
  · exact ⟨[lockOverlay], rfl, Or.inr rfl⟩
  · exact ⟨[], by simp, Or.inl rfl⟩

theorem lockTicket_keeps (p : Page) :
    (lockTicket p).currentGame = p.currentGame ∧ (lockTicket p).started = p.started ∧
      (lockTicket p).gameStartTime = p.gameStartTime := by
  unfold lockTicket
  simp only
  split <;> simp

theorem any_hasClass_lockTicket (p : Page) :
    querySelectorClass "ticket-locked-overlay".toList (lockTicket p).dom =
      querySelectorClass "ticket-locked-overlay".toList p.dom := by
  obtain ⟨extra, hdom, hextra⟩ := lockTicket_dom p
  have hmap : ∀ dom : List Elem,
      (dom.map (fun e =>
          if e.hasClass "ticket-cell".toList then
            { e with pointerEvents := "none".toList, opacity := "0.5".toList }
          else e)).any (Elem.hasClass "ticket-locked-overlay".toList)
        = dom.any (Elem.hasClass "ticket-locked-overlay".toList) := by
    intro dom
    induction dom with
    | nil => rfl
    | cons e es ih =>
      simp only [List.map_cons, List.any_cons, ih]
      congr 1
      split_ifs <;> rfl
  unfold querySelectorClass
  rw [hdom, List.any_append, hmap]
  rcases hextra with h | h <;> subst h
  · simp only [List.any_nil, Bool.or_false]
  · have : Elem.hasClass "ticket-locked-overlay".toList lockOverlay = false := by decide
    simp only [List.any_cons, this, List.any_nil, Bool.or_false]

theorem countId_lockTicket (p : Page) :
    countId "miniGameModal".toList (lockTicket p).dom = countId "miniGameModal".toList p.dom := by
  obtain ⟨extra, hdom, hextra⟩ := lockTicket_dom p
  have hmap : ∀ dom : List Elem,
      countId "miniGameModal".toList (dom.map (fun e =>
          if e.hasClass "ticket-cell".toList then
            { e with pointerEvents := "none".toList, opacity := "0.5".toList }
          else e))
        = countId "miniGameModal".toList dom := by
    intro dom
    induction dom with
    | nil => rfl
    | cons e es ih =>
      simp only [countId, List.map_cons, List.filter_cons] at ih ⊢
      split_ifs <;> simp_all
  have happ : ∀ a b : List Elem, countId "miniGameModal".toList (a ++ b) =
      countId "miniGameModal".toList a + countId "miniGameModal".toList b := by
    intro a b; simp [countId]
  rw [hdom, happ, hmap]
  rcases hextra with h | h <;> subst h
  · rfl
  · have : countId "miniGameModal".toList [lockOverlay] = 0 := by decide
    rw [this]; rfl

/-- What one call of `showRandomGame` does when the lock check finds nothing. -/
theorem showRandomGame_unlocked (pick : Fin 5) (now : Int) (p : Page)
    (h : querySelectorClass "ticket-locked-overlay".toList p.dom = false) :
    (showRandomGame pick now p).currentGame = some (gameKeys pick) ∧
    (showRandomGame pick now p).gameStartTime = some now ∧
    (showRandomGame pick now p).started = p.started ++ [gameKeys pick] ∧
    countId "miniGameModal".toList (showRandomGame pick now p).dom =
      countId "miniGameModal".toList p.dom + 1 ∧
    querySelectorClass "ticket-locked-overlay".toList (showRandomGame pick now p).dom = false := by
  have hk := lockTicket_keeps { p with currentGame := some (gameKeys pick) }
  have hq := any_hasClass_lockTicket { p with currentGame := some (gameKeys pick) }
  have hc := countId_lockTicket { p with currentGame := some (gameKeys pick) }
  have hm : countId "miniGameModal".toList modalElems = 1 := by decide
  have hmq : modalElems.any (Elem.hasClass "ticket-locked-overlay".toList) = false := by decide
  simp only [showRandomGame, showRandomGameStep, h, Bool.false_eq_true, if_false, startGame,
    createGameModal]
  refine ⟨hk.1, trivial, by rw [hk.2.1], ?_, ?_⟩
  · rw [countId_setView]
    simp only [countId, List.filter_append, List.length_append] at hc hm ⊢
    rw [hc, hm]
  · unfold querySelectorClass at hq h ⊢
    rw [any_hasClass_setView, List.any_append, hq, hmq]
    simpa using h

/-- C9, the defect.  The lock check of `showRandomGame` looks for an element of class
`ticket-locked-overlay`, and the overlay `lockTicket` adds has the id
`miniGameLockOverlay` and no class.  On a page without such an element a first call
starts a game and leaves the check still finding nothing, so a second call before
`closeGame` is not refused: it picks a game again, resets `gameStartTime`, starts a
second game engine and adds a second modal. -/
theorem showRandomGame_twice_starts_two_games (pick1 pick2 : Fin 5) (now1 now2 : Int) (p : Page)
    (h : querySelectorClass "ticket-locked-overlay".toList p.dom = false) :
    querySelectorClass "ticket-locked-overlay".toList (showRandomGame pick1 now1 p).dom = false ∧
    (showRandomGame pick2 now2 (showRandomGame pick1 now1 p)).currentGame
      = some (gameKeys pick2) ∧
    (showRandomGame pick2 now2 (showRandomGame pick1 now1 p)).gameStartTime = some now2 ∧
    (showRandomGame pick2 now2 (showRandomGame pick1 now1 p)).started
      = p.started ++ [gameKeys pick1, gameKeys pick2] ∧
    countId "miniGameModal".toList (showRandomGame pick2 now2 (showRandomGame pick1 now1 p)).dom
      = countId "miniGameModal".toList p.dom + 2 := by
  obtain ⟨_, _, hs1, hc1, hq1⟩ := showRandomGame_unlocked pick1 now1 p h
  obtain ⟨hg2, ht2, hs2, hc2, _⟩ :=
    showRandomGame_unlocked pick2 now2 (showRandomGame pick1 now1 p) hq1
  refine ⟨hq1, hg2, ht2, ?_, ?_⟩
  · rw [hs2, hs1]; simp
  · rw [hc2, hc1]

/-- C9, the defect on `samplePage`: Quick Math is started at time 0 and Memory Flash at
time 5000 while Quick Math is still open. -/
theorem showRandomGame_twice_starts_two_games_witness :
    querySelectorClass "ticket-locked-overlay".toList samplePage.dom = false ∧
    (showRandomGame 2 5000 (showRandomGame 0 0 samplePage)).currentGame = some .memoryFlash ∧
    (showRandomGame 2 5000 (showRandomGame 0 0 samplePage)).gameStartTime = some 5000 ∧
    (showRandomGame 2 5000 (showRandomGame 0 0 samplePage)).started
      = [.quickMath, .memoryFlash] ∧
    countId "miniGameModal".toList (showRandomGame 2 5000 (showRandomGame 0 0 samplePage)).dom
      = 2 :=
  ⟨by decide,
    (showRandomGame_twice_starts_two_games 0 2 0 5000 samplePage (by decide)).2.1,
    (showRandomGame_twice_starts_two_games 0 2 0 5000 samplePage (by decide)).2.2.1,
    (showRandomGame_twice_starts_two_games 0 2 0 5000 samplePage (by decide)).2.2.2.1,
    (showRandomGame_twice_starts_two_games 0 2 0 5000 samplePage (by decide)).2.2.2.2⟩

/-- C10.  When the document has an element of class `ticket-locked-overlay`,
`showRandomGame` returns at the lock check: the page is unchanged (so `currentGame`,
`gameStartTime`, `gameResult` and the document are, no lock overlay and no modal is
added) and no game is started. -/
theorem showRandomGame_locked_noop (pick : Fin 5) (now : Int) (p : Page)
    (h : querySelectorClass "ticket-locked-overlay".toList p.dom = true) :
    showRandomGame pick now p = p ∧
    (showRandomGameStep pick now p).2 = none ∧
    (showRandomGame pick now p).currentGame = p.currentGame ∧
    (showRandomGame pick now p).gameStartTime = p.gameStartTime ∧
    (showRandomGame pick now p).gameResult = p.gameResult ∧
    (showRandomGame pick now p).dom = p.dom ∧
    (showRandomGame pick now p).started = p.started := by
  have e : showRandomGameStep pick now p = (p, none) := by
    unfold showRandomGameStep
    rw [if_pos h]
  have e1 : showRandomGame pick now p = p := by
    unfold showRandomGame
    rw [e]
  rw [e1, e]
  exact ⟨rfl, rfl, rfl, rfl, rfl, rfl, rfl⟩

/-- C10 on `lockedPage`. -/
theorem showRandomGame_locked_noop_witness :
    querySelectorClass "ticket-locked-overlay".toList lockedPage.dom = true ∧
    (showRandomGame 3 1000 lockedPage).currentGame = none ∧
    (showRandomGame 3 1000 lockedPage).gameStartTime = none ∧
    countId "miniGameModal".toList (showRandomGame 3 1000 lockedPage).dom = 0 ∧
    (showRandomGame 3 1000 lockedPage).started = [] :=
  ⟨by decide,
    (showRandomGame_locked_noop 3 1000 lockedPage (by decide)).2.2.1,
    (showRandomGame_locked_noop 3 1000 lockedPage (by decide)).2.2.2.1,
    by rw [(showRandomGame_locked_noop 3 1000 lockedPage (by decide)).2.2.2.2.2.1]; decide,
    (showRandomGame_locked_noop 3 1000 lockedPage (by decide)).2.2.2.2.2.2⟩

/-- C8, the defect.  Color Catcher on `samplePage`, with a player who never clicks: the
third drop goes past the bottom at 11460 ms, `endGame(false, 0)` stores a first
Result, and the only timer left is the 15000 ms timeout set for the game's duration,
which nothing cancels.  When it fires, `endGame` runs a second time for the same
session: a second code is generated and a second Result is stored. -/
theorem colorCatch_deadline_ends_game_again :
    (runTimers id 524 (sampleCatch id)).clock = 11460 ∧
    (runTimers id 524 (sampleCatch id)).missed = 3 ∧
    (runTimers id 524 (sampleCatch id)).page.gameCode = some "GHJKLM".toList ∧
    (runTimers id 524 (sampleCatch id)).page.storage.map Prod.fst
      = ["miniGameResult_GHJKLM".toList] ∧
    (runTimers id 524 (sampleCatch id)).timers.map (fun t => t.due) = [15000] ∧
    (fire id (runTimers id 524 (sampleCatch id))).clock = 15000 ∧
    (fire id (runTimers id 524 (sampleCatch id))).page.gameCode = some "NPQRST".toList ∧
    (fire id (runTimers id 524 (sampleCatch id))).page.storage.map Prod.fst
      = ["miniGameResult_GHJKLM".toList, "miniGameResult_NPQRST".toList] := by
  decide!

/-! ## Quick Math -/

theorem optionsLoop_mem (fuel : Nat) (draw : Nat → Nat) (k : Nat) (correct : Int)
    (options result : List Int) (x : Int) (hx : x ∈ options)
    (h : optionsLoop fuel draw k correct options = some result) : x ∈ result := by
  induction fuel generalizing k options with
  | zero => simp [optionsLoop] at h
  | succ f ih =>
    unfold optionsLoop at h
    split_ifs at h with h1 h2
    · exact ih _ _ (List.mem_append_left _ hx) h
    · exact ih _ _ hx h
    · injection h with h
      rw [← h]
      exact hx

theorem length_le_three (correct : Int) (options : List Int) (hnd : options.Nodup)
    (hel : ∀ x ∈ options, x = correct ∨ x = 1 ∨ x = 2) : options.length ≤ 3 := by
  have hsub : options.toFinset ⊆ ({correct, 1, 2} : Finset Int) := by
    intro x hx
    rw [List.mem_toFinset] at hx
    rcases hel x hx with h | h | h <;> simp [h]
  have hcard := Finset.card_le_card hsub
  rw [List.toFinset_card_of_nodup hnd] at hcard
  exact hcard.trans Finset.card_le_three

theorem optionsLoop_stuck (draw : Nat → Nat) (correct : Int) (hdraw : ∀ j, draw j < 20)
    (hc : correct ≤ -7) (fuel k : Nat) (options : List Int) (hnd : options.Nodup)
    (hel : ∀ x ∈ options, x = correct ∨ x = 1 ∨ x = 2) :
    optionsLoop fuel draw k correct options = none := by
  induction fuel generalizing k options with
  | zero => rfl
  | succ f ih =>
    have hlen := length_le_three correct options hnd hel
    have hd := hdraw k
    unfold optionsLoop
    rw [if_pos (by omega)]
    split_ifs with h2
    · apply ih
      · rw [List.nodup_append]
        refine ⟨hnd, List.nodup_singleton _, ?_⟩
        intro a ha hb
        rw [List.mem_singleton] at hb
        subst hb
        exact h2.2 ha
      · intro x hx
        rcases List.mem_append.mp hx with h | h
        · exact hel x h
        · rw [List.mem_singleton] at h
          have := h2.1
          omega
    · exact ih _ _ hnd hel

/-- C19, the defect.  For a subtraction whose answer is -7 or less (the operands
`a = 30 .. 32` with `b = 37 .. 39` give -9 .. -7) fewer than three positive values lie
within the offsets -10 .. 9 of the answer, so the `while` loop of
`generateMathOptions` never reaches four options: whatever the random draws and
however many passes are made, it does not return. -/
theorem generateMathOptions_never_returns (fuel : Nat) (draw : Nat → Nat)
    (shuffle : List Int → List Int) (ra rb : Nat) (hdraw : ∀ j, draw j < 20)
    (hanswer : quickMathAnswer 1 ra rb ≤ -7) :
    generateMathOptions fuel draw shuffle (quickMathAnswer 1 ra rb) = none := by
  unfold generateMathOptions
  rw [optionsLoop_stuck draw _ hdraw hanswer fuel 0 _ (List.nodup_singleton _)
    (fun x hx => Or.inl (List.mem_singleton.mp hx))]
  rfl

/-- C19, the defect for `30 - 39`, operands the draws 0 (below 50) and 29 (below 30)
give. -/
theorem generateMathOptions_never_returns_witness :
    (0 < firstOperandBound 1 ∧ 29 < secondOperandBound 1) ∧
    quickMathAnswer 1 0 29 = -9 ∧
    generateMathOptions 1000 (fun k => k % 20) id (quickMathAnswer 1 0 29) = none :=
  ⟨by decide, by decide,
    generateMathOptions_never_returns 1000 (fun k => k % 20) id 0 29
      (fun j => Nat.mod_lt j (by decide)) (by decide)⟩

/-- C13, the defect.  When the answer is zero or negative (a subtraction with
`a ≤ b`), whatever `generateMathOptions` returns contains the answer, which is not a
positive integer. -/
theorem generateMathOptions_nonpositive_option (fuel : Nat) (draw : Nat → Nat)
    (shuffle : List Int → List Int) (ra rb : Nat) (result : List Int)
    (hshuffle : ∀ l, (shuffle l).Perm l)
    (hanswer : quickMathAnswer 1 ra rb ≤ 0)
    (hresult : generateMathOptions fuel draw shuffle (quickMathAnswer 1 ra rb) = some result) :
    quickMathAnswer 1 ra rb ∈ result ∧ ¬ (∀ x ∈ result, 0 < x) := by
  unfold generateMathOptions at hresult
  cases hloop : optionsLoop fuel draw 0 (quickMathAnswer 1 ra rb) [quickMathAnswer 1 ra rb] with
  | none => rw [hloop] at hresult; cases hresult
  | some opts =>
    rw [hloop] at hresult
    injection hresult with hresult
    have hmem := optionsLoop_mem _ _ _ _ _ _ _ (List.mem_singleton_self _) hloop
    have hmem2 : quickMathAnswer 1 ra rb ∈ result := by
      rw [← hresult]
      exact (hshuffle opts).mem_iff.mpr hmem
    refine ⟨hmem2, fun hall => ?_⟩
    have := hall _ hmem2
    omega

/-- C13, the defect for `30 - 36` with the offsets 7, 8 and 9 drawn: the options are
-6, 1, 2 and 3. -/
theorem generateMathOptions_nonpositive_option_witness :
    (0 < firstOperandBound 1 ∧ 26 < secondOperandBound 1) ∧
    quickMathAnswer 1 0 26 = -6 ∧
    generateMathOptions 10 (fun k => 17 + k) id (quickMathAnswer 1 0 26) = some [-6, 1, 2, 3] ∧
    ¬ (∀ x ∈ [(-6 : Int), 1, 2, 3], 0 < x) :=
  ⟨by decide, by decide, by decide,
    (generateMathOptions_nonpositive_option 10 (fun k => 17 + k) id 0 26 [-6, 1, 2, 3]
      (fun l => List.Perm.refl l) (by decide) (by decide)).2⟩

theorem optionsLoop_spec (fuel : Nat) (draw : Nat → Nat) (k : Nat) (correct : Int)
    (options result : List Int) (hpos : ∀ x ∈ options, 0 < x) (hnd : options.Nodup)
    (hlen : options.length ≤ 4)
    (h : optionsLoop fuel draw k correct options = some result) :
    result.length = 4 ∧ result.Nodup ∧ ∀ x ∈ result, 0 < x := by
  induction fuel generalizing k options with
  | zero => simp [optionsLoop] at h
  | succ f ih =>
    unfold optionsLoop at h
    split_ifs at h with h1 h2
    · apply ih _ _ _ _ _ h
      · intro x hx
        rcases List.mem_append.mp hx with hx | hx
        · exact hpos x hx
        · rw [List.mem_singleton] at hx; rw [hx]; exact h2.1
      · rw [List.nodup_append]
        refine ⟨hnd, List.nodup_singleton _, ?_⟩
        intro a ha hb
        rw [List.mem_singleton] at hb
        subst hb
        exact h2.2 ha
      · rw [List.length_append, List.length_singleton]; omega
    · exact ih _ _ hpos hnd hlen h
    · injection h with h
      subst h
      exact ⟨by omega, hnd, hpos⟩

/-- For a positive answer, what `generateMathOptions` returns has four entries, pairwise
distinct and positive, and the answer is among them exactly once. -/
theorem generateMathOptions_positive_answer (fuel : Nat) (draw : Nat → Nat)
    (shuffle : List Int → List Int) (correct : Int) (result : List Int)
    (hshuffle : ∀ l, (shuffle l).Perm l) (hpos : 0 < correct)
    (hresult : generateMathOptions fuel draw shuffle correct = some result) :
    result.length = 4 ∧ result.Nodup ∧ (∀ x ∈ result, 0 < x) ∧ result.count correct = 1 := by
  unfold generateMathOptions at hresult
  cases hloop : optionsLoop fuel draw 0 correct [correct] with
  | none => rw [hloop] at hresult; cases hresult
  | some opts =>
    rw [hloop] at hresult
    injection hresult with hresult
    subst hresult
    obtain ⟨h4, hnd, hp⟩ := optionsLoop_spec _ _ _ _ _ _
      (fun x hx => by rw [List.mem_singleton.mp hx]; exact hpos) (List.nodup_singleton _)
      (by simp) hloop
    have hmem := optionsLoop_mem _ _ _ _ _ _ _ (List.mem_singleton_self _) hloop
    have hperm := hshuffle opts
    refine ⟨by rw [hperm.length_eq]; exact h4, hperm.nodup_iff.mpr hnd,
      fun x hx => hp x (hperm.mem_iff.mp hx), ?_⟩
    rw [hperm.count_eq]
    exact List.count_eq_one_of_mem hnd hmem

/-- C14.  The click handler of a Quick Math option: the button with the answer ends the
game with `won = true` and the score `max(100 - floor(elapsed / 100), 10)`, any other
button with `won = false` and score 0, and that is the one call of `endGame` the click
makes; for `23 + 14` the answer is 37, and selecting 37 after 1000 ms scores 90. -/
theorem quickMathClick_spec (answer startTime now selected : Int) :
    (selected = answer →
      quickMathClick answer startTime now selected
        = (true, max (100 - (now - startTime) / 100) 10)) ∧
    (selected ≠ answer → quickMathClick answer startTime now selected = (false, 0)) ∧
    (QuickMath.step (.click selected now) (QuickMath.start answer startTime)).2
      = [quickMathClick answer startTime now selected] ∧
    quickMathAnswer 0 13 4 = 37 ∧
    quickMathClick (quickMathAnswer 0 13 4) 0 1000 37 = (true, 90) := by
  refine ⟨?_, ?_, rfl, by decide, by decide⟩
  · intro h
    simp [quickMathClick, h]
  · intro h
    simp [quickMathClick, h]

/-! ## Initialisation -/

/-- C11.  On a missing or disabled config (`config` or `config.enabled` falsy, whatever
else it holds) `init` returns with the window untouched: nothing stored, nothing
scheduled.  When `config.showAfterMinutes` is a number `r` (`none` for `NaN`): on an
enabled config with `showAfterMinutes = m > 0` it stores the config and schedules one
timeout with delay `m * 60000` ms; a timeout is scheduled if and only if the config is
present, enabled and `showAfterMinutes > 0`, and no other delay is ever used. -/
theorem init_schedules_iff (config : JsVal) (w : Window) :
    (truthy config = false ∨ truthy (readProp config "enabled".toList) = false →
      init config w = some w) ∧
    (∀ r, toNumber (readProp config "showAfterMinutes".toList) = some r →
      (∀ m, truthy config = true → truthy (readProp config "enabled".toList) = true →
        r = some m → 0 < m →
        init config w
          = some { miniGameConfig := config, autoShow := w.autoShow ++ [m * 60000] }) ∧
      (∃ w1, init config w = some w1 ∧
        (w1.autoShow ≠ w.autoShow ↔
          truthy config = true ∧ truthy (readProp config "enabled".toList) = true ∧
            ∃ m, r = some m ∧ 0 < m) ∧
        (w1.autoShow = w.autoShow ∨
          ∃ m, r = some m ∧ w1.autoShow = w.autoShow ++ [m * 60000]))) := by
  refine ⟨?_, fun r hnum => ⟨?_, ?_⟩⟩
  · intro h
    unfold init
    rw [if_pos h]
  · intro m h1 h2 hr hm
    unfold init
    rw [if_neg (by rw [h1, h2]; simp), hnum, hr]
    simp only [gt_iff_lt, hm, if_true]
    rw [mul_assoc]
    rfl
  · unfold init
    by_cases h : truthy config = false ∨ truthy (readProp config "enabled".toList) = false
    · rw [if_pos h]
      refine ⟨w, rfl, ?_, Or.inl rfl⟩
      constructor
      · intro hne
        exact absurd rfl hne
      · rintro ⟨h1, h2, -⟩
        rcases h with h | h
        · rw [h1] at h; cases h
        · rw [h2] at h; cases h
    · rw [if_neg h, hnum]
      have h12 : truthy config = true ∧ truthy (readProp config "enabled".toList) = true := by
        constructor
        · cases hc : truthy config
          · exact absurd (Or.inl hc) h
          · rfl
        · cases hc : truthy (readProp config "enabled".toList)
          · exact absurd (Or.inr hc) h
          · rfl
      cases r with
      | none =>
        refine ⟨_, rfl, ?_, Or.inl rfl⟩
        constructor
        · intro hne
          exact absurd rfl hne
        · rintro ⟨-, -, m, hm, -⟩
          cases hm
      | some m =>
        by_cases hm : m > 0
        · simp only [hm, if_true]
          refine ⟨_, rfl, ?_, Or.inr ⟨m, rfl, ?_⟩⟩
          · constructor
            · intro _
              exact ⟨h12.1, h12.2, m, rfl, hm⟩
            · intro _ heq
              have := congrArg List.length heq
              simp at this
          · show w.autoShow ++ [m * 60 * 1000] = w.autoShow ++ [m * 60000]
            rw [mul_assoc]
            rfl
        · simp only [hm, if_false]
          refine ⟨_, rfl, ?_, Or.inl rfl⟩
          constructor
          · intro hne
            exact absurd rfl hne
          · rintro ⟨-, -, m1, hm1, hpos⟩
            injection hm1 with hm1
            subst hm1
            exact absurd hpos hm

/-- C11 for an enabled config with `showAfterMinutes: 5`: the delay is 300000 ms. -/
theorem init_schedules_iff_witness :
    init (.obj [("enabled".toList, .bool true), ("showAfterMinutes".toList, .num 5)])
        { miniGameConfig := .undefined, autoShow := [] }
      = some { miniGameConfig :=
                 .obj [("enabled".toList, .bool true), ("showAfterMinutes".toList, .num 5)],
               autoShow := [] ++ [5 * 60000] } :=
  ((init_schedules_iff
      (.obj [("enabled".toList, .bool true), ("showAfterMinutes".toList, .num 5)])
      { miniGameConfig := .undefined, autoShow := [] }).2 (some 5) (by rfl)).1
    5 (by rfl) (by rfl) rfl (by decide)

/-! ## Lucky Wheel -/

theorem jsRem_small (x : ℚ) (h0 : 0 ≤ x) (h1 : x < 360) : jsRem x 360 = x := by
  unfold jsRem truncate
  have hdiv : 0 ≤ x / 360 := div_nonneg h0 (by norm_num)
  rw [if_pos hdiv]
  have hfl : ⌊x / 360⌋ = 0 := by
    rw [Int.floor_eq_iff]
    constructor
    · simpa using hdiv
    · rw [div_lt_iff₀ (by norm_num)]
      simpa using h1
  rw [hfl]
  simp

theorem jsRem_full : jsRem 360 360 = 0 := by
  unfold jsRem truncate
  norm_num

/-- The rounded difference `360 - a` for an angle in `[0, 360)`: it is 360 or at most
the binary64 number just below 360, and within `2 ^ (-45)` of the exact difference. -/
theorem roundDouble_turn (a : ℚ) (h0 : 0 ≤ a) (h1 : a < 360) :
    (roundDouble (360 - a) = 360 ∨
      (0 ≤ roundDouble (360 - a) ∧ roundDouble (360 - a) ≤ 360 - 1 / 2 ^ 44)) ∧
    |roundDouble (360 - a) - (360 - a)| ≤ 1 / 2 ^ 45 := by
  have hy0 : 0 < 360 - a := by linarith
  have hy1 : 360 - a ≤ 360 := by linarith
  have habs : |360 - a| = 360 - a := abs_of_pos hy0
  have hlt : |360 - a| < (2 : ℚ) ^ ((8 : Int) + 1) := by
    rw [habs]
    norm_num
    linarith
  have hnn := roundDouble_nonneg (360 - a) hy0.le
  constructor
  · by_cases hbig : (256 : ℚ) ≤ 360 - a
    · have hge : (2 : ℚ) ^ (8 : Int) ≤ |360 - a| := by
        rw [habs]
        norm_num
        linarith
      have hr := roundDouble_of_exponent (360 - a) 8 (by norm_num) hge hlt
      have hle := roundDouble_le (360 - a) 360 8 (360 * 2 ^ 44) (by norm_num) hlt
        (by norm_num) hy1
      rw [hr] at hle ⊢
      set k := roundHalfEven ((360 - a) / (2 : ℚ) ^ ((8 : Int) - 52)) with hk
      have hpow : (2 : ℚ) ^ ((8 : Int) - 52) = 1 / 2 ^ 44 := by norm_num
      rw [hpow] at hle ⊢
      have hk1 : (k : ℚ) ≤ 360 * 2 ^ 44 := by
        have : (k : ℚ) * (1 / 2 ^ 44) * 2 ^ 44 ≤ 360 * 2 ^ 44 :=
          mul_le_mul_of_nonneg_right hle (by positivity)
        have e : (k : ℚ) * (1 / 2 ^ 44) * 2 ^ 44 = k := by field_simp
        rw [e] at this
        exact this
      have hk2 : k ≤ 360 * 2 ^ 44 := by exact_mod_cast hk1
      rcases lt_or_eq_of_le hk2 with hlt2 | heq
      · right
        refine ⟨by rw [← hpow, ← hr]; exact hnn, ?_⟩
        have hk3 : k ≤ 360 * 2 ^ 44 - 1 := by omega
        have hk4 : (k : ℚ) ≤ 360 * 2 ^ 44 - 1 := by exact_mod_cast hk3
        calc (k : ℚ) * (1 / 2 ^ 44) ≤ (360 * 2 ^ 44 - 1) * (1 / 2 ^ 44) :=
              mul_le_mul_of_nonneg_right hk4 (by positivity)
          _ = 360 - 1 / 2 ^ 44 := by field_simp
      · left
        rw [heq]
        push_cast
        norm_num
    · right
      refine ⟨hnn, ?_⟩
      have hle := roundDouble_le (360 - a) 256 8 (256 * 2 ^ 44) (by norm_num) hlt
        (by norm_num) (by linarith)
      calc roundDouble (360 - a) ≤ 256 := hle
        _ ≤ 360 - 1 / 2 ^ 44 := by norm_num
  · have herr := roundDouble_error (360 - a) 8 (by norm_num) hlt
    calc |roundDouble (360 - a) - (360 - a)| ≤ (2 : ℚ) ^ ((8 : Int) - 52) / 2 := herr
      _ = 1 / 2 ^ 45 := by norm_num

theorem normalizedAngle_eq (a : ℚ) (h0 : 0 ≤ a) (h1 : a < 360) :
    normalizedAngle a
      = if roundDouble (360 - a) = 360 then 0 else roundDouble (360 - a) := by
  unfold normalizedAngle
  rw [jsRem_small a h0 h1]
  split_ifs with h
  · rw [h]
    exact jsRem_full
  · rcases (roundDouble_turn a h0 h1).1 with h360 | ⟨hnn, hle⟩
    · exact absurd h360 h
    · exact jsRem_small _ hnn (by
        have : (0 : ℚ) < 1 / 2 ^ 44 := by positivity
        linarith)

theorem normalizedAngle_range (a : ℚ) (h0 : 0 ≤ a) (h1 : a < 360) :
    0 ≤ normalizedAngle a ∧ normalizedAngle a ≤ 360 - 1 / 2 ^ 44 := by
  rw [normalizedAngle_eq a h0 h1]
  split_ifs with h
  · constructor <;> norm_num
  · rcases (roundDouble_turn a h0 h1).1 with h360 | ⟨hnn, hle⟩
    · exact absurd h360 h
    · exact ⟨hnn, hle⟩

theorem segmentAngle_eq : segmentAngle = 45 := by
  unfold segmentAngle segments
  have e : (360 : ℚ) / (([("WIN".toList, (100 : Int)), ("LOSE".toList, 0), ("WIN".toList, 100),
      ("LOSE".toList, 0), ("MEGA".toList, 200), ("LOSE".toList, 0), ("WIN".toList, 100),
      ("LOSE".toList, 0)] : List (List Char × Int)).length : ℚ) = 45 := by
    norm_num
  rw [e]
  exact roundDouble_exact 45 5 (45 * 2 ^ 47) (by norm_num) (by norm_num) (by norm_num)

theorem winningIndex_range (a : ℚ) (h0 : 0 ≤ a) (h1 : a < 360) :
    0 ≤ winningIndex a ∧ winningIndex a ≤ 7 := by
  obtain ⟨hn0, hn1⟩ := normalizedAngle_range a h0 h1
  unfold winningIndex
  rw [segmentAngle_eq]
  have hq0 : 0 ≤ normalizedAngle a / 45 := div_nonneg hn0 (by norm_num)
  have hq1 : normalizedAngle a / 45 ≤ 8 - 1 / 2 ^ 50 := by
    rw [div_le_iff₀ (by norm_num)]
    calc normalizedAngle a ≤ 360 - 1 / 2 ^ 44 := hn1
      _ ≤ (8 - 1 / 2 ^ 50) * 45 := by norm_num
  have habs : |normalizedAngle a / 45| < (2 : ℚ) ^ ((2 : Int) + 1) := by
    rw [abs_of_nonneg hq0]
    calc normalizedAngle a / 45 ≤ 8 - 1 / 2 ^ 50 := hq1
      _ < (2 : ℚ) ^ ((2 : Int) + 1) := by norm_num
  have hle := roundDouble_le (normalizedAngle a / 45) (8 - 1 / 2 ^ 50) 2 (2 ^ 53 - 1)
    (by norm_num) habs (by norm_num) hq1
  have hnn := roundDouble_nonneg _ hq0
  constructor
  · exact Int.floor_nonneg.mpr hnn
  · have : ⌊roundDouble (normalizedAngle a / 45)⌋ < 8 := by
      rw [Int.floor_lt]
      calc roundDouble (normalizedAngle a / 45) ≤ 8 - 1 / 2 ^ 50 := hle
        _ < ((8 : Int) : ℚ) := by norm_num
    omega

theorem segments_entry (i : Int) (h0 : 0 ≤ i) (h7 : i ≤ 7) :
    ∃ seg, segments.get? i.toNat = some seg ∧
      seg.2 = (if i = 4 then 200 else if i = 0 ∨ i = 2 ∨ i = 6 then 100 else 0) ∧
      seg.1 = (if i = 4 then "MEGA".toList else if i = 0 ∨ i = 2 ∨ i = 6 then "WIN".toList
        else "LOSE".toList) := by
  interval_cases i <;> exact ⟨_, rfl, by decide, by decide⟩

theorem normalizedAngle_160 : normalizedAngle 160 = 200 := by
  rw [normalizedAngle_eq 160 (by norm_num) (by norm_num)]
  have h : roundDouble (360 - 160) = 200 := by
    norm_num
    exact roundDouble_exact 200 7 (200 * 2 ^ 45) (by norm_num) (by norm_num) (by norm_num)
  rw [h]
  norm_num

theorem winningIndex_160 : winningIndex 160 = 4 := by
  unfold winningIndex
  rw [normalizedAngle_160, segmentAngle_eq, Int.floor_eq_iff]
  have habs : |(200 : ℚ) / 45| < (2 : ℚ) ^ ((2 : Int) + 1) := by
    rw [abs_of_nonneg (by norm_num)]
    norm_num
  constructor
  · exact roundDouble_ge (200 / 45) ((4 : Int) : ℚ) 2 (2 ^ 52) (by norm_num) habs (by norm_num)
      (by norm_num)
  · have := roundDouble_le (200 / 45) (9 / 2) 2 (9 * 2 ^ 49) (by norm_num) habs (by norm_num)
      (by norm_num)
    calc roundDouble (200 / 45) ≤ 9 / 2 := this
      _ < ((4 : Int) : ℚ) + 1 := by norm_num

theorem normalizedAngle_tiny : normalizedAngle (1 / 2 ^ 58) = 0 := by
  rw [normalizedAngle_eq _ (by positivity) (by norm_num)]
  have h : roundDouble (360 - 1 / 2 ^ 58) = 360 := by
    have hge : (2 : ℚ) ^ (8 : Int) ≤ |360 - 1 / 2 ^ 58| := by
      rw [abs_of_nonneg (by norm_num)]
      norm_num
    have hlt : |(360 : ℚ) - 1 / 2 ^ 58| < (2 : ℚ) ^ ((8 : Int) + 1) := by
      rw [abs_of_nonneg (by norm_num)]
      norm_num
    rw [roundDouble_of_exponent _ 8 (by norm_num) hge hlt]
    rw [roundHalfEven_eq _ (360 * 2 ^ 44) (by
      rw [abs_lt]
      constructor <;> norm_num)]
    norm_num
  rw [if_pos h]

theorem winningIndex_tiny : winningIndex (1 / 2 ^ 58) = 0 := by
  unfold winningIndex
  rw [normalizedAngle_tiny, zero_div, roundDouble_zero]
  simp

theorem wheelCall_of_index (a : ℚ) (i : Int) (seg : List Char × Int) (hi : winningIndex a = i)
    (h0 : 0 ≤ i) (hseg : segments.get? i.toNat = some seg) :
    wheelCall a = some (decide (seg.2 > 0), seg.2) := by
  unfold wheelCall winner
  rw [hi, if_pos h0, hseg]

theorem wheelCall_160 : wheelCall 160 = some (true, 200) :=
  wheelCall_of_index 160 4 ("MEGA".toList, 200) winningIndex_160 (by decide) rfl

theorem wheelCall_tiny : wheelCall (1 / 2 ^ 58) = some (true, 100) :=
  wheelCall_of_index (1 / 2 ^ 58) 0 ("WIN".toList, 100) winningIndex_tiny (by decide) rfl

/-- C17.  For every final angle `a` in `[0, 360)`: `normalizedAngle` is the rounded
difference `360 - a`, and 0 when that difference rounds to 360 (the rounding moves it
by at most `2 ^ (-45)`); it lies in `[0, 360)`; `winningIndex` is the floor of the
rounded quotient `normalizedAngle / 45` and lies in `[0, 7]`; the segment at that index
exists, has value 200 (MEGA) at index 4, 100 (WIN) at 0, 2 and 6, 0 (LOSE) at 1, 3, 5
and 7, and the spin ends the game with the one call `endGame(value > 0, value)`.  The
final angle 160 has normalised angle 200, index 4, segment MEGA, value 200 and
`won = true`; the final angle `2 ^ (-58)` has normalised angle 0 and index 0. -/
theorem luckyWheel_spin (a : ℚ) (h0 : 0 ≤ a) (h1 : a < 360) :
    (normalizedAngle a = (if roundDouble (360 - a) = 360 then 0 else roundDouble (360 - a)) ∧
      |roundDouble (360 - a) - (360 - a)| ≤ 1 / 2 ^ 45) ∧
    (0 ≤ normalizedAngle a ∧ normalizedAngle a < 360) ∧
    (winningIndex a = ⌊roundDouble (normalizedAngle a / 45)⌋ ∧
      |roundDouble (normalizedAngle a / 45) - normalizedAngle a / 45| ≤ 1 / 2 ^ 51) ∧
    (0 ≤ winningIndex a ∧ winningIndex a ≤ 7) ∧
    (∃ seg, segments.get? (winningIndex a).toNat = some seg ∧
      seg.2 = (if winningIndex a = 4 then 200
        else if winningIndex a = 0 ∨ winningIndex a = 2 ∨ winningIndex a = 6 then 100 else 0) ∧
      seg.1 = (if winningIndex a = 4 then "MEGA".toList
        else if winningIndex a = 0 ∨ winningIndex a = 2 ∨ winningIndex a = 6 then "WIN".toList
        else "LOSE".toList) ∧
      wheelCall a = some (decide (seg.2 > 0), seg.2) ∧
      (LuckyWheel.step (.finish 0)
          (LuckyWheel.run [.spin a, .settle] LuckyWheel.start)).2
        = [(decide (seg.2 > 0), seg.2)]) ∧
    (normalizedAngle 160 = 200 ∧ winningIndex 160 = 4 ∧
      segments.get? 4 = some ("MEGA".toList, 200) ∧ wheelCall 160 = some (true, 200)) ∧
    (normalizedAngle (1 / 2 ^ 58) = 0 ∧ winningIndex (1 / 2 ^ 58) = 0 ∧
      wheelCall (1 / 2 ^ 58) = some (true, 100)) := by
  have hidx := winningIndex_range a h0 h1
  have hrange := normalizedAngle_range a h0 h1
  obtain ⟨seg, hseg, hval, hlabel⟩ := segments_entry _ hidx.1 hidx.2
  have hcall : wheelCall a = some (decide (seg.2 > 0), seg.2) :=
    wheelCall_of_index a _ seg rfl hidx.1 hseg
  have hq0 : 0 ≤ normalizedAngle a / 45 := div_nonneg hrange.1 (by norm_num)
  have habs : |normalizedAngle a / 45| < (2 : ℚ) ^ ((2 : Int) + 1) := by
    rw [abs_of_nonneg hq0, div_lt_iff₀ (by norm_num)]
    have : (0 : ℚ) < 1 / 2 ^ 44 := by positivity
    norm_num
    linarith [hrange.2]
  refine ⟨⟨normalizedAngle_eq a h0 h1, (roundDouble_turn a h0 h1).2⟩, ⟨hrange.1, ?_⟩, ⟨?_, ?_⟩,
    hidx, ⟨seg, hseg, hval, hlabel, hcall, ?_⟩, ?_, ?_⟩
  · have : (0 : ℚ) < 1 / 2 ^ 44 := by positivity
    linarith [hrange.2]
  · unfold winningIndex
    rw [segmentAngle_eq]
  · calc |roundDouble (normalizedAngle a / 45) - normalizedAngle a / 45|
        ≤ (2 : ℚ) ^ ((2 : Int) - 52) / 2 := roundDouble_error _ 2 (by norm_num) habs
      _ = 1 / 2 ^ 51 := by norm_num
  · simp only [LuckyWheel.run, LuckyWheel.step, LuckyWheel.start, Bool.false_eq_true, if_false,
      hcall, List.nil_append, List.get?_cons_zero]
  · exact ⟨normalizedAngle_160, winningIndex_160, rfl, wheelCall_160⟩
  · exact ⟨normalizedAngle_tiny, winningIndex_tiny, wheelCall_tiny⟩

/-- C17 at the final angle 160: the call is `endGame(true, 200)`. -/
theorem luckyWheel_spin_witness :
    (LuckyWheel.step (.finish 0) (LuckyWheel.run [.spin 160, .settle] LuckyWheel.start)).2
      = [(true, 200)] := by
  obtain ⟨-, -, -, -, ⟨seg, -, -, -, hcall, hrun⟩, ⟨-, -, -, h⟩, -⟩ :=
    luckyWheel_spin 160 (by norm_num) (by norm_num)
  rw [h] at hcall
  injection hcall with hcall
  rw [hrun, ← hcall]

/-! ## Memory Flash -/

theorem everyMatch_iff (sequence input : List Nat) (hlen : input.length = sequence.length) :
    everyMatch sequence input = true ↔ input = sequence := by
  induction sequence generalizing input with
  | nil =>
    cases input with
    | nil => simp [everyMatch]
    | cons p ps => simp at hlen
  | cons v vs ih =>
    cases input with
    | nil => simp at hlen
    | cons p ps =>
      simp only [List.length_cons, Nat.add_right_cancel_iff] at hlen
      simp only [everyMatch, Bool.and_eq_true, decide_eq_true_eq, ih ps hlen, List.cons.injEq]
      constructor
      · rintro ⟨h1, h2⟩
        exact ⟨h1.symm, h2⟩
      · rintro ⟨h1, h2⟩
        exact ⟨h1.symm, h2⟩

/-- What one event does to the level, the sequence and the pending `endGame`
timeouts. -/
theorem MemoryFlash.step_cases (e : MemoryEvent) (s : MemoryFlash) :
    ((MemoryFlash.step e s).1.level = s.level ∧
      (MemoryFlash.step e s).1.sequence = s.sequence ∧
      (∀ b ∈ (MemoryFlash.step e s).1.pendingEnd, b ∈ s.pendingEnd ∨ b = false)) ∨
    ((MemoryFlash.step e s).1.level = s.level + 1 ∧
      (∃ index next, e = .click index next ∧ s.playerSequence ++ [index] = s.sequence ∧
        ((s.level + 1 ≤ 5 ∧ (MemoryFlash.step e s).1.sequence = s.sequence ++ [next.val] ∧
            (MemoryFlash.step e s).1.pendingEnd = s.pendingEnd) ∨
          (5 < s.level + 1 ∧ (MemoryFlash.step e s).1.sequence = s.sequence ∧
            (MemoryFlash.step e s).1.pendingEnd = s.pendingEnd ++ [true])))) := by
  cases e with
  | click index next =>
    simp only [MemoryFlash.step]
    split_ifs with h1 h2
    · have hm := everyMatch_iff s.sequence (s.playerSequence ++ [index]) h2
      simp only [checkSequence]
      split_ifs with h3 h4
      · right
        exact ⟨rfl, index, next, rfl, hm.mp h3, Or.inr ⟨h4, rfl, rfl⟩⟩
      · right
        exact ⟨rfl, index, next, rfl, hm.mp h3, Or.inl ⟨by omega, rfl, rfl⟩⟩
      · left
        refine ⟨rfl, rfl, ?_⟩
        intro b hb
        rcases List.mem_append.mp hb with hb | hb
        · exact Or.inl hb
        · exact Or.inr (List.mem_singleton.mp hb)
    · left
      exact ⟨rfl, rfl, fun b hb => Or.inl hb⟩
    · left
      exact ⟨rfl, rfl, fun b hb => Or.inl hb⟩
  | tick k =>
    left
    simp only [MemoryFlash.step]
    split
    · simp only [playbackTick]
      split_ifs <;> exact ⟨rfl, rfl, fun b hb => Or.inl hb⟩
    · exact ⟨rfl, rfl, fun b hb => Or.inl hb⟩
  | ready =>
    left
    simp only [MemoryFlash.step]
    split_ifs <;> exact ⟨rfl, rfl, fun b hb => Or.inl hb⟩
  | «show» =>
    left
    simp only [MemoryFlash.step, showSequence]
    split_ifs <;> exact ⟨rfl, rfl, fun b hb => Or.inl hb⟩
  | finish k =>
    left
    simp only [MemoryFlash.step]
    split
    · exact ⟨rfl, rfl, fun b hb => Or.inl (List.mem_of_mem_eraseIdx hb)⟩
    · exact ⟨rfl, rfl, fun b hb => Or.inl hb⟩

theorem MemoryFlash.run_invariant (P : MemoryFlash → Prop)
    (hstep : ∀ e s, P s → P (MemoryFlash.step e s).1) (events : List MemoryEvent)
    (s : MemoryFlash) (hs : P s) : P (MemoryFlash.run events s) := by
  induction events generalizing s with
  | nil => exact hs
  | cons e es ih => exact ih _ (hstep e s hs)

theorem MemoryFlash.level_pos (r1 r2 : Fin 9) (events : List MemoryEvent) :
    1 ≤ (MemoryFlash.run events (MemoryFlash.start r1 r2)).level := by
  apply MemoryFlash.run_invariant (fun s => 1 ≤ s.level)
  · intro e s hs
    rcases MemoryFlash.step_cases e s with h | h
    · show 1 ≤ (MemoryFlash.step e s).1.level
      rw [h.1]; exact hs
    · show 1 ≤ (MemoryFlash.step e s).1.level
      rw [h.1]; omega
  · exact Nat.le_refl 1

theorem MemoryFlash.level_successes (events : List MemoryEvent) (s : MemoryFlash) :
    (MemoryFlash.run events s).level = s.level + MemoryFlash.successes events s := by
  induction events generalizing s with
  | nil => rfl
  | cons e es ih =>
    simp only [MemoryFlash.run, MemoryFlash.successes]
    rw [ih]
    rcases MemoryFlash.step_cases e s with h | h
    · rw [h.1, if_neg (by omega)]
      omega
    · rw [h.1, if_pos rfl]
      omega

theorem MemoryFlash.win_pending_level (r1 r2 : Fin 9) (events : List MemoryEvent) :
    true ∈ (MemoryFlash.run events (MemoryFlash.start r1 r2)).pendingEnd →
      6 ≤ (MemoryFlash.run events (MemoryFlash.start r1 r2)).level := by
  apply MemoryFlash.run_invariant (fun s => true ∈ s.pendingEnd → 6 ≤ s.level)
  · intro e s hs
    show true ∈ (MemoryFlash.step e s).1.pendingEnd → 6 ≤ (MemoryFlash.step e s).1.level
    intro hmem
    rcases MemoryFlash.step_cases e s with h | ⟨hl, _, _, _, _, h | h⟩
    · rw [h.1]
      rcases h.2.2 true hmem with h1 | h1
      · exact hs h1
      · cases h1
    · rw [hl]
      rw [h.2.2] at hmem
      have := hs hmem
      omega
    · rw [hl]
      omega
  · intro h
    simp [MemoryFlash.start, showSequence] at h

theorem MemoryFlash.finish_call (k : Nat) (s : MemoryFlash) (c : Bool × Int)
    (hc : c ∈ (MemoryFlash.step (.finish k) s).2) :
    ∃ win, win ∈ s.pendingEnd ∧ c = memoryCall win s := by
  simp only [MemoryFlash.step] at hc
  split at hc
  · rename_i win hget
    exact ⟨win, List.get?_mem hget, List.mem_singleton.mp hc⟩
  · cases hc

theorem MemoryFlash.only_finish_calls (e : MemoryEvent) (s : MemoryFlash) (c : Bool × Int)
    (hc : c ∈ (MemoryFlash.step e s).2) : ∃ k, e = .finish k := by
  cases e with
  | click index next =>
    simp only [MemoryFlash.step] at hc
    split_ifs at hc <;> cases hc
  | tick k =>
    simp only [MemoryFlash.step] at hc
    split at hc <;> cases hc
  | ready =>
    simp only [MemoryFlash.step] at hc
    split_ifs at hc <;> cases hc
  | «show» =>
    simp only [MemoryFlash.step] at hc
    split_ifs at hc <;> cases hc
  | finish k => exact ⟨k, rfl⟩

/-- C15, a reachable state against the claim: after five rounds played without a
mistake the level is 6 and the sequence has 6 elements, not 7; the fifth increment of
the level appended nothing. -/
theorem memoryFlash_level_six_counterexample :
    (MemoryFlash.run sampleWin (MemoryFlash.start 0 1)).level = 6 ∧
    (MemoryFlash.run sampleWin (MemoryFlash.start 0 1)).sequence = [0, 1, 2, 2, 2, 2] ∧
    (MemoryFlash.run sampleWin (MemoryFlash.start 0 1)).sequence.length
      ≠ (MemoryFlash.run sampleWin (MemoryFlash.start 0 1)).level + 1 := by
  decide

/-- C15, amended.  In every reachable state of Memory Flash the sequence has
`min(level, 5) + 1` elements: the game starts at level 1 with 2 indices, the length is
`level + 1` up to level 5, an increment of the level to 5 or less appends exactly one
index, and an increment above 5 (the one that wins) appends none. -/
theorem memoryFlash_sequence_length (r1 r2 : Fin 9) (events : List MemoryEvent) :
    (MemoryFlash.start r1 r2).level = 1 ∧ (MemoryFlash.start r1 r2).sequence = [r1.val, r2.val] ∧
    (MemoryFlash.run events (MemoryFlash.start r1 r2)).sequence.length
      = min (MemoryFlash.run events (MemoryFlash.start r1 r2)).level 5 + 1 ∧
    ((MemoryFlash.run events (MemoryFlash.start r1 r2)).level ≤ 5 →
      (MemoryFlash.run events (MemoryFlash.start r1 r2)).sequence.length
        = (MemoryFlash.run events (MemoryFlash.start r1 r2)).level + 1) ∧
    (∀ e, (MemoryFlash.step e (MemoryFlash.run events (MemoryFlash.start r1 r2))).1.level
        ≠ (MemoryFlash.run events (MemoryFlash.start r1 r2)).level →
      (MemoryFlash.step e (MemoryFlash.run events (MemoryFlash.start r1 r2))).1.level
        = (MemoryFlash.run events (MemoryFlash.start r1 r2)).level + 1 ∧
      (MemoryFlash.step e (MemoryFlash.run events (MemoryFlash.start r1 r2))).1.sequence.length
        = (MemoryFlash.run events (MemoryFlash.start r1 r2)).sequence.length +
          (if (MemoryFlash.run events (MemoryFlash.start r1 r2)).level + 1 ≤ 5 then 1 else 0)) := by
  have hinv : (MemoryFlash.run events (MemoryFlash.start r1 r2)).sequence.length
      = min (MemoryFlash.run events (MemoryFlash.start r1 r2)).level 5 + 1 := by
    apply MemoryFlash.run_invariant (fun s => s.sequence.length = min s.level 5 + 1)
    · intro e s hs
      show (MemoryFlash.step e s).1.sequence.length = min (MemoryFlash.step e s).1.level 5 + 1
      rcases MemoryFlash.step_cases e s with h | ⟨hl, _, _, _, _, h | h⟩
      · rw [h.1, h.2.1]; exact hs
      · rw [hl, h.2.1, List.length_append, List.length_singleton, hs]
        omega
      · rw [hl, h.2.1, hs]
        omega
    · rfl
  refine ⟨rfl, rfl, hinv, ?_, ?_⟩
  · intro h5
    rw [hinv]
    omega
  · intro e hne
    rcases MemoryFlash.step_cases e (MemoryFlash.run events (MemoryFlash.start r1 r2)) with
      h | ⟨hl, _, _, _, _, h | h⟩
    · exact absurd h.1 hne
    · refine ⟨hl, ?_⟩
      rw [h.2.1, List.length_append, List.length_singleton, if_pos h.1]
    · refine ⟨hl, ?_⟩
      rw [h.2.1, if_neg (by omega)]
      rfl

/-- C16, a run against the last sentence of the claim: a check fails (a timeout for
`endGame(false, …)` is pending), the game goes on, the fifth exact input raises the
level to 6, and after the call `endGame(false, 100)` the game makes the call
`endGame(true, 120)`: a win without five exact reproductions in a row. -/
theorem memoryFlash_win_after_failed_check_counterexample :
    (MemoryFlash.run (sampleRace.take 50) (MemoryFlash.start 0 1)).pendingEnd = [false] ∧
    (MemoryFlash.run (sampleRace.take 50) (MemoryFlash.start 0 1)).level = 5 ∧
    (MemoryFlash.run sampleRace (MemoryFlash.start 0 1)).pendingEnd = [false, true] ∧
    (MemoryFlash.run sampleRace (MemoryFlash.start 0 1)).level = 6 ∧
    MemoryFlash.successes sampleRace (MemoryFlash.start 0 1) = 5 ∧
    (MemoryFlash.step (.finish 0) (MemoryFlash.run sampleRace (MemoryFlash.start 0 1))).2
      = [(false, 100)] ∧
    (MemoryFlash.step (.finish 0)
        (MemoryFlash.run (sampleRace ++ [.finish 0]) (MemoryFlash.start 0 1))).2
      = [(true, 120)] := by
  decide

/-- C16, as amended.  A click that brings the player's input to the length of the
sequence makes no call of `endGame` itself.  If the input equals the sequence, the
level goes up by one; when the new level is above 5 a timeout for
`endGame(true, level * 20)` is set and the sequence is left as it is, otherwise one
index is appended and the next playback is scheduled.  If the input differs, a timeout
for `endGame(false, (level - 1) * 20)` is set.  The level goes up at no other event and
never goes down, so a call with `won = true` is made only at level 6 or more, after at
least five inputs that each equalled the sequence (the level is read when the timeout
fires).  The five need not follow one another without a failed check in between:
clicks stay possible until a pending `endGame` timeout fires. -/
theorem memoryFlash_check (s : MemoryFlash) (index : Nat) (next : Fin 9)
    (hatt : s.attached = true) (hbtn : hasButton index = true)
    (hshow : s.showingSequence = false) (hdis : s.disabled = false)
    (hlen : (s.playerSequence ++ [index]).length = s.sequence.length) :
    (MemoryFlash.step (.click index next) s).2 = [] ∧
    (s.playerSequence ++ [index] = s.sequence →
      (MemoryFlash.step (.click index next) s).1.level = s.level + 1 ∧
      (5 < s.level + 1 →
        (MemoryFlash.step (.click index next) s).1.pendingEnd = s.pendingEnd ++ [true] ∧
        (MemoryFlash.step (.click index next) s).1.sequence = s.sequence ∧
        (MemoryFlash.step (.click index next) s).1.pendingShow = s.pendingShow ∧
        (MemoryFlash.step (.finish s.pendingEnd.length)
            (MemoryFlash.step (.click index next) s).1).2
          = [(true, ((s.level : Int) + 1) * 20)]) ∧
      (s.level + 1 ≤ 5 →
        (MemoryFlash.step (.click index next) s).1.pendingEnd = s.pendingEnd ∧
        (MemoryFlash.step (.click index next) s).1.sequence = s.sequence ++ [next.val] ∧
        (MemoryFlash.step (.click index next) s).1.pendingShow = s.pendingShow + 1)) ∧
    (s.playerSequence ++ [index] ≠ s.sequence →
      (MemoryFlash.step (.click index next) s).1.level = s.level ∧
      (MemoryFlash.step (.click index next) s).1.sequence = s.sequence ∧
      (MemoryFlash.step (.click index next) s).1.pendingShow = s.pendingShow ∧
      (MemoryFlash.step (.click index next) s).1.pendingEnd = s.pendingEnd ++ [false] ∧
      (MemoryFlash.step (.finish s.pendingEnd.length)
          (MemoryFlash.step (.click index next) s).1).2
        = [(false, ((s.level : Int) - 1) * 20)]) ∧
    (∀ (e : MemoryEvent) (s0 : MemoryFlash), (MemoryFlash.step e s0).1.level ≠ s0.level →
      (MemoryFlash.step e s0).1.level = s0.level + 1 ∧
      ∃ i n, e = .click i n ∧ s0.playerSequence ++ [i] = s0.sequence) ∧
    (∀ (r1 r2 : Fin 9) (events : List MemoryEvent) (e : MemoryEvent) (c : Bool × Int),
      c ∈ (MemoryFlash.step e (MemoryFlash.run events (MemoryFlash.start r1 r2))).2 →
      c.1 = true →
      6 ≤ (MemoryFlash.run events (MemoryFlash.start r1 r2)).level ∧
      c.2 = ((MemoryFlash.run events (MemoryFlash.start r1 r2)).level : Int) * 20 ∧
      5 ≤ MemoryFlash.successes events (MemoryFlash.start r1 r2)) := by
  have hguard : (s.attached = true ∧ hasButton index = true ∧ s.showingSequence = false ∧
      s.disabled = false) := ⟨hatt, hbtn, hshow, hdis⟩
  have hm := everyMatch_iff s.sequence (s.playerSequence ++ [index]) hlen
  have hstep : MemoryFlash.step (.click index next) s
      = (checkSequence next { s with playerSequence := s.playerSequence ++ [index] }, []) := by
    simp only [MemoryFlash.step]
    rw [if_pos hguard, if_pos hlen]
  refine ⟨by rw [hstep], ?_, ?_, ?_, ?_⟩
  · intro heq
    rw [hstep]
    simp only [checkSequence, hm.mpr heq, if_true]
    refine ⟨by split_ifs <;> rfl, ?_, ?_⟩
    · intro h5
      rw [if_pos h5]
      refine ⟨rfl, rfl, rfl, ?_⟩
      simp [MemoryFlash.step, memoryCall]
    · intro h5
      rw [if_neg (by omega)]
      exact ⟨rfl, rfl, rfl⟩
  · intro hne
    rw [hstep]
    have hfalse : everyMatch s.sequence (s.playerSequence ++ [index]) = false := by
      cases hb : everyMatch s.sequence (s.playerSequence ++ [index])
      · rfl
      · exact absurd (hm.mp hb) hne
    simp only [checkSequence, hfalse]
    refine ⟨rfl, rfl, rfl, rfl, ?_⟩
    simp [MemoryFlash.step, memoryCall]
  · intro e s0 hne
    rcases MemoryFlash.step_cases e s0 with h | ⟨hl, i, n, he, heq, -⟩
    · exact absurd h.1 hne
    · exact ⟨hl, i, n, he, heq⟩
  · intro r1 r2 events e c hc hwon
    obtain ⟨k, rfl⟩ := MemoryFlash.only_finish_calls e _ c hc
    obtain ⟨win, hwin, hcall⟩ := MemoryFlash.finish_call k _ c hc
    have hw : win = true := by
      cases win
      · rw [hcall] at hwon
        simp [memoryCall] at hwon
      · rfl
    subst hw
    have h6 := MemoryFlash.win_pending_level r1 r2 events hwin
    have hs := MemoryFlash.level_successes events (MemoryFlash.start r1 r2)
    refine ⟨h6, ?_, ?_⟩
    · rw [hcall]
      simp [memoryCall]
    · have h1 : (MemoryFlash.start r1 r2).level = 1 := rfl
      omega

/-- C16 at the second click of the first round from the sequence 0, 1: the input
0, 1 raises the level to 2 and appends the index drawn. -/
theorem memoryFlash_check_witness :
    (MemoryFlash.step (.click 1 2)
        (MemoryFlash.run [.tick 0, .tick 0, .tick 0, .ready, .click 0 2]
          (MemoryFlash.start 0 1))).1.level = 1 + 1 :=
  ((memoryFlash_check
      (MemoryFlash.run [.tick 0, .tick 0, .tick 0, .ready, .click 0 2] (MemoryFlash.start 0 1))
      1 2 (by rfl) (by rfl) (by rfl) (by rfl) (by rfl)).2.1 (by rfl)).1

theorem playbackTick_stuck (r1 r2 : Fin 9) (h8 : r1.val = 8 ∨ r2.val = 8) (k : Nat)
    (s : MemoryFlash) (hseq : s.sequence = [r1.val, r2.val])
    (hplay : s.playbacks = [0] ∨ (s.playbacks = [1] ∧ r1.val < 8)) :
    ∃ u p, (MemoryFlash.step (.tick k) s).1 = { s with uncaught := u, playbacks := p } ∧
      (p = [0] ∨ (p = [1] ∧ r1.val < 8)) := by
  have hm : memoryButtons = 8 := by decide
  obtain ⟨sequence, player, level, showing, disabled, playbacks, pr, ps, pe, att, unc⟩ := s
  simp only at hseq hplay
  subst hseq
  cases k with
  | succ k =>
    refine ⟨unc, playbacks, ?_, hplay⟩
    rcases hplay with hp | ⟨hp, -⟩ <;> subst hp <;> rfl
  | zero =>
    rcases hplay with hp | ⟨hp, hr1⟩
    · subst hp
      by_cases hb : r1.val < 8
      · refine ⟨unc, [1], ?_, Or.inr ⟨rfl, hb⟩⟩
        simp [MemoryFlash.step, playbackTick, buttonAt, hasButton, hm, hb]
      · refine ⟨unc + 1, [0], ?_, Or.inl rfl⟩
        simp [MemoryFlash.step, playbackTick, buttonAt, hasButton, hm, hb]
    · subst hp
      have hr2 : ¬ r2.val < 8 := by omega
      refine ⟨unc + 1, [1], ?_, Or.inr ⟨rfl, hr1⟩⟩
      simp [MemoryFlash.step, playbackTick, buttonAt, hasButton, hm, hr1, hr2]

/-- C20, the defect.  `symbols` has eight entries, so the grid has the buttons 0 to 7,
while the indices of the sequence are drawn from 0 to 8.  When one of the first two
indices is 8, `buttons[8]` is `undefined`: every firing of the playback interval at
that position throws, the playback never ends, the buttons stay disabled, no input is
accepted and no call of `endGame` is ever made, whatever happens; and no click can
enter the index 8. -/
theorem memoryFlash_index_eight_stuck (r1 r2 : Fin 9) (events : List MemoryEvent)
    (h8 : r1.val = 8 ∨ r2.val = 8) :
    memoryButtons = 8 ∧ hasButton 8 = false ∧
    (∀ (next : Fin 9) (s : MemoryFlash), MemoryFlash.step (.click 8 next) s = (s, [])) ∧
    (MemoryFlash.run events (MemoryFlash.start r1 r2)).showingSequence = true ∧
    (MemoryFlash.run events (MemoryFlash.start r1 r2)).disabled = true ∧
    (MemoryFlash.run events (MemoryFlash.start r1 r2)).playerSequence = [] ∧
    (MemoryFlash.run events (MemoryFlash.start r1 r2)).level = 1 ∧
    (MemoryFlash.run events (MemoryFlash.start r1 r2)).pendingEnd = [] ∧
    (∀ e, (MemoryFlash.step e (MemoryFlash.run events (MemoryFlash.start r1 r2))).2 = []) := by
  have hinv : ∀ evs : List MemoryEvent,
      (fun s : MemoryFlash => s.sequence = [r1.val, r2.val] ∧ s.showingSequence = true ∧
        s.disabled = true ∧ s.playerSequence = [] ∧ s.level = 1 ∧ s.pendingEnd = [] ∧
        s.pendingReady = 0 ∧ s.pendingShow = 0 ∧
        ((s.playbacks = [0]) ∨ (s.playbacks = [1] ∧ r1.val < 8)))
      (MemoryFlash.run evs (MemoryFlash.start r1 r2)) := by
    intro evs
    refine MemoryFlash.run_invariant (fun s : MemoryFlash => s.sequence = [r1.val, r2.val] ∧
        s.showingSequence = true ∧
        s.disabled = true ∧ s.playerSequence = [] ∧ s.level = 1 ∧ s.pendingEnd = [] ∧
        s.pendingReady = 0 ∧ s.pendingShow = 0 ∧
        ((s.playbacks = [0]) ∨ (s.playbacks = [1] ∧ r1.val < 8))) ?_ evs _ ?_
    · rintro e s ⟨hseq, hshow, hdis, hplayer, hlevel, hend, hready, hpshow, hplay⟩
      cases e with
      | click index next =>
        simp only [MemoryFlash.step]
        rw [if_neg (by rw [hshow]; simp)]
        exact ⟨hseq, hshow, hdis, hplayer, hlevel, hend, hready, hpshow, hplay⟩
      | tick k =>
        obtain ⟨u, p, hstep, hp⟩ := playbackTick_stuck r1 r2 h8 k s hseq hplay
        rw [hstep]
        exact ⟨hseq, hshow, hdis, hplayer, hlevel, hend, hready, hpshow, hp⟩
      | ready =>
        simp only [MemoryFlash.step]
        rw [if_neg (by rw [hready]; decide)]
        exact ⟨hseq, hshow, hdis, hplayer, hlevel, hend, hready, hpshow, hplay⟩
      | «show» =>
        simp only [MemoryFlash.step]
        rw [if_neg (by rw [hpshow]; decide)]
        exact ⟨hseq, hshow, hdis, hplayer, hlevel, hend, hready, hpshow, hplay⟩
      | finish k =>
        simp only [MemoryFlash.step]
        rw [hend]
        simp only [List.get?_nil]
        exact ⟨hseq, hshow, hdis, hplayer, hlevel, hend, hready, hpshow, hplay⟩
    · exact ⟨rfl, rfl, rfl, rfl, rfl, rfl, rfl, rfl, Or.inl rfl⟩
  obtain ⟨-, hshow, hdis, hplayer, hlevel, hend, -, -, -⟩ := hinv events
  refine ⟨by decide, by decide, ?_, hshow, hdis, hplayer, hlevel, hend, ?_⟩
  · intro next s
    simp only [MemoryFlash.step]
    rw [if_neg]
    rintro ⟨-, hb, -⟩
    revert hb
    decide
  · intro e
    cases hcalls : (MemoryFlash.step e (MemoryFlash.run events (MemoryFlash.start r1 r2))).2 with
    | nil => rfl
    | cons c cs =>
      have hc : c ∈ (MemoryFlash.step e (MemoryFlash.run events (MemoryFlash.start r1 r2))).2 := by
        rw [hcalls]; exact List.mem_cons_self _ _
      obtain ⟨k, rfl⟩ := MemoryFlash.only_finish_calls e _ c hc
      obtain ⟨win, hwin, -⟩ := MemoryFlash.finish_call k _ c hc
      rw [hend] at hwin
      cases hwin

/-- C20, the defect for a first index 8: after two firings of the playback interval,
the timeout event, a click and a firing of an end timeout, the playback is still on
and no event makes a call of `endGame`. -/
theorem memoryFlash_index_eight_stuck_witness :
    (MemoryFlash.run [.tick 0, .tick 0, .ready, .click 2 3, .finish 0]
        (MemoryFlash.start 8 2)).showingSequence = true ∧
    (MemoryFlash.run [.tick 0, .tick 0, .ready, .click 2 3, .finish 0]
        (MemoryFlash.start 8 2)).uncaught = 2 ∧
    (∀ e, (MemoryFlash.step e
        (MemoryFlash.run [.tick 0, .tick 0, .ready, .click 2 3, .finish 0]
          (MemoryFlash.start 8 2))).2 = []) := by
  obtain ⟨-, -, -, hshow, -, -, -, -, hcalls⟩ :=
    memoryFlash_index_eight_stuck 8 2 [.tick 0, .tick 0, .ready, .click 2 3, .finish 0]
      (Or.inl rfl)
  exact ⟨hshow, by rfl, hcalls⟩

/-! ## Reaction Test -/

/-- C18.  A click on the reaction box while the game waits for green and the box is
not green yet takes one off the round counter, cancels the pending timeout that would
switch to green (when it is fired afterwards nothing happens), leaves
`totalReactionTime` and the pending `endGame` timeouts unchanged, makes no call of
`endGame`, and leaves the wait state; the next click then starts the round again with
the counter back at its value. -/
theorem reaction_false_start (s : ReactionTest) (now : Int)
    (hatt : s.attached = true) (hwait : s.waitingForGreen = true)
    (hbg : s.background ≠ .green) :
    ReactionTest.step (.click now) s
      = ({ s with timeout := false, waitingForGreen := false, background := .red,
                  round := s.round - 1 }, []) ∧
    (ReactionTest.step (.click now) s).1.round = s.round - 1 ∧
    (ReactionTest.step (.click now) s).1.totalReactionTime = s.totalReactionTime ∧
    (ReactionTest.step (.click now) s).1.pendingEnd = s.pendingEnd ∧
    (ReactionTest.step (.click now) s).1.waitingForGreen = false ∧
    (ReactionTest.step (.click now) s).1.timeout = false ∧
    (∀ t, ReactionTest.step (.go t) (ReactionTest.step (.click now) s).1
      = ((ReactionTest.step (.click now) s).1, [])) ∧
    (s.round ≤ 3 → ∀ t,
      (ReactionTest.step (.click t) (ReactionTest.step (.click now) s).1).1.round = s.round ∧
      (ReactionTest.step (.click t) (ReactionTest.step (.click now) s).1).1.waitingForGreen
        = true ∧
      (ReactionTest.step (.click t) (ReactionTest.step (.click now) s).1).1.totalReactionTime
        = s.totalReactionTime) := by
  have hstep : ReactionTest.step (.click now) s
      = ({ s with timeout := false, waitingForGreen := false, background := .red,
                  round := s.round - 1 }, []) := by
    simp only [ReactionTest.step, reactionClick]
    rw [if_pos hatt, if_neg (by rw [hwait]; simp), if_neg (fun h => hbg h.2), if_pos hwait]
  refine ⟨hstep, ?_, ?_, ?_, ?_, ?_, ?_, ?_⟩
  · rw [hstep]
  · rw [hstep]
  · rw [hstep]
  · rw [hstep]
  · rw [hstep]
  · intro t
    rw [hstep]
    rfl
  · intro h3 t
    rw [hstep]
    have hlt : s.round - 1 < 3 := by omega
    simp [ReactionTest.step, reactionClick, hatt, hlt]

/-- C18 on the state after the first click of a game: a second click before green puts
the round counter back from 1 to 0. -/
theorem reaction_false_start_witness :
    (ReactionTest.step (.click 700) (ReactionTest.run [.click 0] ReactionTest.start)).1.round
      = 1 - 1 :=
  (reaction_false_start (ReactionTest.run [.click 0] ReactionTest.start) 700
    (by rfl) (by rfl) (by decide)).2.1

/-! ## Scores -/

theorem buildResult_score (p : Page) (now : Int) (won : Bool) (score : Int) (code : List Char) :
    readProp (buildResult p now won score code) "score".toList = .num score := by
  rfl

theorem endGame_score (r : Nat → Nat) (now : Int) (won : Bool) (score : Int) (p : Page) :
    readProp (endGame r now won score p).1.gameResult "score".toList = .num score := by
  rw [(endGame_fields _ _ _ _ _).1]
  exact buildResult_score _ _ _ _ _

theorem CatchWorld.scoreOk_frame (w w1 : CatchWorld) (hscore : w1.score = w.score)
    (hpage : w1.page = w.page)
    (h : 0 ≤ w.score ∧ ∀ n, readProp w.page.gameResult "score".toList = .num n → 0 ≤ n) :
    0 ≤ w1.score ∧ ∀ n, readProp w1.page.gameResult "score".toList = .num n → 0 ≤ n := by
  rw [hscore, hpage]
  exact h

theorem CatchWorld.scoreOk_endGame (rnd : Nat → Nat) (won : Bool) (score : Int) (w : CatchWorld)
    (hscore : 0 ≤ score) (hw : 0 ≤ w.score) :
    0 ≤ (CatchWorld.endGame rnd won score w).score ∧
    ∀ n, readProp (CatchWorld.endGame rnd won score w).page.gameResult "score".toList = .num n →
      0 ≤ n := by
  unfold CatchWorld.endGame
  simp only
  refine ⟨hw, ?_⟩
  intro n hn
  rw [endGame_score] at hn
  injection hn with hn
  omega

theorem clearTimer_score (h : Option Nat) (w : CatchWorld) :
    (clearTimer h w).score = w.score := by
  cases h <;> rfl

theorem clearTimer_page (h : Option Nat) (w : CatchWorld) :
    (clearTimer h w).page = w.page := by
  cases h <;> rfl

theorem CatchWorld.scoreOk_fallTick (rnd : Nat → Nat) (self d : Nat) (w : CatchWorld)
    (h : 0 ≤ w.score ∧ ∀ n, readProp w.page.gameResult "score".toList = .num n → 0 ≤ n) :
    0 ≤ (fallTick rnd self d w).score ∧
    ∀ n, readProp (fallTick rnd self d w).page.gameResult "score".toList = .num n → 0 ≤ n := by
  unfold fallTick
  simp only
  split_ifs
  all_goals first
    | (refine CatchWorld.scoreOk_endGame _ _ _ _ (le_refl 0) ?_
       simp only [clearTimer_score]
       exact h.1)
    | (refine CatchWorld.scoreOk_frame w _ ?_ ?_ h
       all_goals simp only [clearTimer_score, clearTimer_page])

theorem CatchWorld.scoreOk_spawnDrop (rnd : Nat → Nat) (w : CatchWorld)
    (h : 0 ≤ w.score ∧ ∀ n, readProp w.page.gameResult "score".toList = .num n → 0 ≤ n) :
    0 ≤ (spawnDrop rnd w).score ∧
    ∀ n, readProp (spawnDrop rnd w).page.gameResult "score".toList = .num n → 0 ≤ n := by
  unfold spawnDrop
  split
  · exact h
  · exact CatchWorld.scoreOk_frame w _ rfl rfl h

theorem CatchWorld.scoreOk_deadlineTick (rnd : Nat → Nat) (w : CatchWorld)
    (h : 0 ≤ w.score ∧ ∀ n, readProp w.page.gameResult "score".toList = .num n → 0 ≤ n) :
    0 ≤ (deadlineTick rnd w).score ∧
    ∀ n, readProp (deadlineTick rnd w).page.gameResult "score".toList = .num n → 0 ≤ n := by
  unfold deadlineTick
  simp only
  have hs : 0 ≤ (clearTimer w.spawnInterval w).score := by
    rw [clearTimer_score]
    exact h.1
  exact CatchWorld.scoreOk_endGame _ _ _ _ hs hs

theorem CatchWorld.scoreOk_step (rnd : Nat → Nat) (e : CatchEvent) (w : CatchWorld)
    (h : 0 ≤ w.score ∧ ∀ n, readProp w.page.gameResult "score".toList = .num n → 0 ≤ n) :
    0 ≤ (CatchWorld.step rnd e w).score ∧
    ∀ n, readProp (CatchWorld.step rnd e w).page.gameResult "score".toList = .num n → 0 ≤ n := by
  cases e with
  | timer =>
    simp only [CatchWorld.step, fire]
    split
    · exact h
    · split
      · exact CatchWorld.scoreOk_fallTick _ _ _ _ (CatchWorld.scoreOk_frame w _ rfl rfl h)
      · exact CatchWorld.scoreOk_spawnDrop _ _ (CatchWorld.scoreOk_frame w _ rfl rfl h)
      · exact CatchWorld.scoreOk_deadlineTick _ _ (CatchWorld.scoreOk_frame w _ rfl rfl h)
  | click bucket =>
    simp only [CatchWorld.step, clickBucket]
    split_ifs
    · split
      · exact h
      · split_ifs
        · refine ⟨?_, h.2⟩
          show 0 ≤ w.score + 10
          have := h.1
          omega
        · exact h
    · exact h

theorem CatchWorld.scoreOk_run (rnd : Nat → Nat) (events : List CatchEvent) (w : CatchWorld)
    (h : 0 ≤ w.score ∧ ∀ n, readProp w.page.gameResult "score".toList = .num n → 0 ≤ n) :
    0 ≤ (CatchWorld.run rnd events w).score ∧
    ∀ n, readProp (CatchWorld.run rnd events w).page.gameResult "score".toList = .num n →
      0 ≤ n := by
  induction events generalizing w with
  | nil => exact h
  | cons e es ih => exact ih _ (CatchWorld.scoreOk_step rnd e w h)

theorem CatchWorld.scoreOk_start (rnd : Nat → Nat) (areaHeight clock container : Nat) (p : Page) :
    (startColorCatch rnd areaHeight clock container p).score = 0 ∧
    (startColorCatch rnd areaHeight clock container p).page = p := by
  constructor <;> rfl

theorem QuickMath.call_score (e : QuickMathEvent) (s : QuickMath) (c : Bool × Int)
    (hc : c ∈ (QuickMath.step e s).2) : 0 ≤ c.2 := by
  cases e with
  | tick =>
    simp only [QuickMath.step] at hc
    split_ifs at hc
    · rw [List.mem_singleton.mp hc]
    all_goals cases hc
  | click selected now =>
    simp only [QuickMath.step] at hc
    split_ifs at hc
    · rw [List.mem_singleton.mp hc]
      simp only [quickMathClick]
      split_ifs
      · exact le_trans (by decide) (le_max_right _ _)
      · exact le_refl 0
    · cases hc

theorem wheelCall_score (a : ℚ) (c : Bool × Int) (h : wheelCall a = some c) : 0 ≤ c.2 := by
  unfold wheelCall at h
  split at h
  · rename_i seg hseg
    injection h with h
    rw [← h]
    have hmem : seg ∈ segments := by
      unfold winner at hseg
      split_ifs at hseg
      exact List.get?_mem hseg
    have hall : ∀ x ∈ segments, 0 ≤ x.2 := by decide
    exact hall seg hmem
  · cases h

theorem LuckyWheel.wheel_pending_score (events : List WheelEvent) (s : LuckyWheel)
    (hs : ∀ c ∈ s.pendingEnd, 0 ≤ c.2) :
    ∀ c ∈ (LuckyWheel.run events s).pendingEnd, 0 ≤ c.2 := by
  induction events generalizing s with
  | nil => exact hs
  | cons e es ih =>
    apply ih
    cases e with
    | spin a =>
      simp only [LuckyWheel.step]
      split_ifs <;> exact hs
    | settle =>
      simp only [LuckyWheel.step]
      split
      · split
        · rename_i call hcall
          intro c hc
          rcases List.mem_append.mp hc with hc | hc
          · exact hs c hc
          · rw [List.mem_singleton.mp hc]
            exact wheelCall_score _ _ hcall
        · exact hs
      · exact hs
    | finish k =>
      simp only [LuckyWheel.step]
      split
      · exact fun c hc => hs c (List.mem_of_mem_eraseIdx hc)
      · exact hs

theorem ReactionTest.reaction_pending_score (events : List ReactionEvent) (s : ReactionTest)
    (hs : ∀ c ∈ s.pendingEnd, 0 ≤ c.2) :
    ∀ c ∈ (ReactionTest.run events s).pendingEnd, 0 ≤ c.2 := by
  induction events generalizing s with
  | nil => exact hs
  | cons e es ih =>
    apply ih
    cases e with
    | click now =>
      simp only [ReactionTest.step, reactionClick]
      split_ifs
      all_goals first
        | exact hs
        | (intro c hc
           rcases List.mem_append.mp hc with hc | hc
           · exact hs c hc
           · rw [List.mem_singleton.mp hc]
             exact le_max_right _ _)
    | go now =>
      simp only [ReactionTest.step]
      split_ifs <;> exact hs
    | finish k =>
      simp only [ReactionTest.step]
      split
      · exact fun c hc => hs c (List.mem_of_mem_eraseIdx hc)
      · exact hs

theorem LuckyWheel.wheel_call_pending (e : WheelEvent) (s : LuckyWheel) (c : Bool × Int)
    (hc : c ∈ (LuckyWheel.step e s).2) : c ∈ s.pendingEnd := by
  cases e with
  | spin a =>
    simp only [LuckyWheel.step] at hc
    split_ifs at hc <;> cases hc
  | settle =>
    simp only [LuckyWheel.step] at hc
    split at hc
    · split at hc <;> cases hc
    · cases hc
  | finish k =>
    simp only [LuckyWheel.step] at hc
    split at hc
    · rename_i call hget
      rw [List.mem_singleton.mp hc]
      exact List.get?_mem hget
    · cases hc

theorem ReactionTest.reaction_call_pending (e : ReactionEvent) (s : ReactionTest) (c : Bool × Int)
    (hc : c ∈ (ReactionTest.step e s).2) : c ∈ s.pendingEnd := by
  cases e with
  | click now =>
    simp only [ReactionTest.step] at hc
    split_ifs at hc <;> cases hc
  | go now =>
    simp only [ReactionTest.step] at hc
    split_ifs at hc <;> cases hc
  | finish k =>
    simp only [ReactionTest.step] at hc
    split at hc
    · rename_i call hget
      rw [List.mem_singleton.mp hc]
      exact List.get?_mem hget
    · cases hc

/-- C12.  The score of every call of `endGame` a game makes is an integer that is not
negative.  Quick Math: every call of a tick or a click, in any state.  Color Catcher:
in every state reached from `startColorCatch` by timers and clicks the variable `score`
is not negative (it is the score of the call at the deadline; the call after three
misses has score 0), and the score of the stored Result stays non-negative.  Memory
Flash, Lucky Wheel, Reaction Test: every call made from a state reached from the start
of the game.  `endGame` puts the score it is given into the Result. -/
theorem endGame_calls_score_nonneg :
    (∀ (e : QuickMathEvent) (s : QuickMath), ∀ c ∈ (QuickMath.step e s).2, 0 ≤ c.2) ∧
    (∀ (rnd : Nat → Nat) (areaHeight clock container : Nat) (p : Page)
        (events : List CatchEvent),
      (∀ n, readProp p.gameResult "score".toList = .num n → 0 ≤ n) →
      0 ≤ (CatchWorld.run rnd events
            (startColorCatch rnd areaHeight clock container p)).score ∧
      deadlineTick rnd (CatchWorld.run rnd events
            (startColorCatch rnd areaHeight clock container p))
        = CatchWorld.endGame rnd
            (decide ((CatchWorld.run rnd events
              (startColorCatch rnd areaHeight clock container p)).score > 50))
            (CatchWorld.run rnd events
              (startColorCatch rnd areaHeight clock container p)).score
            (clearTimer (CatchWorld.run rnd events
              (startColorCatch rnd areaHeight clock container p)).spawnInterval
              (CatchWorld.run rnd events
                (startColorCatch rnd areaHeight clock container p))) ∧
      ∀ n, readProp (CatchWorld.run rnd events
            (startColorCatch rnd areaHeight clock container p)).page.gameResult
          "score".toList = .num n → 0 ≤ n) ∧
    (∀ (r1 r2 : Fin 9) (events : List MemoryEvent) (e : MemoryEvent),
      ∀ c ∈ (MemoryFlash.step e (MemoryFlash.run events (MemoryFlash.start r1 r2))).2,
        0 ≤ c.2) ∧
    (∀ (events : List WheelEvent) (e : WheelEvent),
      ∀ c ∈ (LuckyWheel.step e (LuckyWheel.run events LuckyWheel.start)).2, 0 ≤ c.2) ∧
    (∀ (events : List ReactionEvent) (e : ReactionEvent),
      ∀ c ∈ (ReactionTest.step e (ReactionTest.run events ReactionTest.start)).2, 0 ≤ c.2) ∧
    (∀ (r : Nat → Nat) (now : Int) (won : Bool) (score : Int) (p : Page),
      readProp (endGame r now won score p).1.gameResult "score".toList = .num score) := by
  refine ⟨QuickMath.call_score, ?_, ?_, ?_, ?_, endGame_score⟩
  · intro rnd areaHeight clock container p events hp
    have hstart := CatchWorld.scoreOk_start rnd areaHeight clock container p
    have hinv := CatchWorld.scoreOk_run rnd events
      (startColorCatch rnd areaHeight clock container p)
      ⟨by rw [hstart.1], by rw [hstart.2]; exact hp⟩
    refine ⟨hinv.1, ?_, hinv.2⟩
    unfold deadlineTick
    simp only [clearTimer_score]
  · intro r1 r2 events e c hc
    obtain ⟨k, rfl⟩ := MemoryFlash.only_finish_calls e _ c hc
    obtain ⟨win, -, hcall⟩ := MemoryFlash.finish_call k _ c hc
    have hl := MemoryFlash.level_pos r1 r2 events
    rw [hcall]
    unfold memoryCall
    split_ifs
    · show (0 : Int) ≤ _ * 20
      omega
    · show (0 : Int) ≤ (_ - 1) * 20
      omega
  · intro events e c hc
    exact LuckyWheel.wheel_pending_score events LuckyWheel.start (fun c hc => by cases hc) c
      (LuckyWheel.wheel_call_pending e _ c hc)
  · intro events e c hc
    exact ReactionTest.reaction_pending_score events ReactionTest.start (fun c hc => by cases hc) c
      (ReactionTest.reaction_call_pending e _ c hc)

end Housie
